import Mathlib

/-!
# The pyth price oracle program (`program/src/oracle/oracle.c`)

A shallow embedding of the on-ledger program: account records are Lean
structures, every C function is a Lean function of the same name that takes the
records it reads and returns the result code together with the records it
writes.  Fixed-size C arrays are lists whose length is the array size; a read
or a write outside the list is a memory fault and makes the function return
`none`.

Machine integers are `Nat` / `Int`.  The 64-bit additions of the median
(`apx + price_`, `acf + conf_`) and the 32-bit updates of `num_` wrap explicitly.
The unsigned loop counters `i` and `j` run below the 32-bit field `num_` and the
signed counter `numa`, so they are plain naturals; `numa` itself is checked
against `2^31` at its increment.
-/

namespace Oracle

/-! ## Constants and layouts of `oracle.h` -/

/-- Modelled from the spec: `pc_pub_key_t` of `oracle.h` (not among the
sources), a 32-byte public key, held as four 64-bit words `k8_[0..4)`. -/
structure pc_pub_key_t where
  k0 : Nat
  k1 : Nat
  k2 : Nat
  k3 : Nat
deriving DecidableEq, Repr

/-- Modelled from the spec: `pc_symbol_t` of `oracle.h`, a 32-byte symbol
identifier, held as four 64-bit words `k8_[0..4)`. -/
structure pc_symbol_t where
  k0 : Nat
  k1 : Nat
  k2 : Nat
  k3 : Nat
deriving DecidableEq, Repr

/-- Modelled from the spec: the compile-time constants of `oracle.h` and the
`sizeof` of its records.  The header is not among the sources, so the values
are parameters of every definition below. -/
structure oracle_h where
  PC_MAGIC : Nat
  PC_VERSION_1 : Nat
  PC_VERSION : Nat
  PC_MAP_NODE_SIZE : Nat
  PC_MAP_TABLE_SIZE : Nat
  PC_COMP_SIZE : Nat
  PC_MAX_NUM_DECIMALS : Nat
  PC_PTYPE_UNKNOWN : Nat
  PC_STATUS_UNKNOWN : Nat
  PC_STATUS_TRADING : Nat
  e_cmd_init_mapping : Nat
  e_cmd_add_mapping : Nat
  e_cmd_add_symbol : Nat
  e_cmd_add_publisher : Nat
  e_cmd_del_publisher : Nat
  e_cmd_upd_price : Nat
  e_cmd_agg_price : Nat
  sizeof_cmd_hdr_t : Nat
  sizeof_cmd_add_symbol_t : Nat
  sizeof_cmd_add_publisher_t : Nat
  sizeof_cmd_del_publisher_t : Nat
  sizeof_cmd_upd_price_t : Nat
  sizeof_pc_map_table_t : Nat
  sizeof_pc_price_t : Nat
  sysvar_clock : pc_pub_key_t
deriving Repr

/-- Result code `SUCCESS` of `solana_sdk.h`. -/
def SUCCESS : Nat := 0

/-- Result code `ERROR_INVALID_ARGUMENT` of `solana_sdk.h`, `TO_BUILTIN(2)`. -/
def ERROR_INVALID_ARGUMENT : Nat := 2 * 2 ^ 32

/-- Modelled from the spec: `pc_price_info_t` of `oracle.h`: price (i64),
confidence (u64), status (u32) and publish slot (u64). -/
structure pc_price_info_t where
  price_ : Int
  conf_ : Nat
  status_ : Nat
  pub_slot_ : Nat
deriving DecidableEq, Repr

/-- Modelled from the spec: `pc_price_comp_t` of `oracle.h`: a publisher key,
its latest quote and the snapshot taken by the last aggregation. -/
structure pc_price_comp_t where
  pub_ : pc_pub_key_t
  agg_ : pc_price_info_t
  latest_ : pc_price_info_t
deriving DecidableEq, Repr

/-- Modelled from the spec: `pc_price_t` of `oracle.h`, the price account.
`comp_` is the array `comp_[PC_COMP_SIZE]`. -/
structure pc_price_t where
  magic_ : Nat
  ver_ : Nat
  size_ : Nat
  ptype_ : Nat
  expo_ : Int
  curr_slot_ : Nat
  valid_slot_ : Nat
  sym_ : pc_symbol_t
  agg_pub_ : pc_pub_key_t
  agg_ : pc_price_info_t
  next_ : pc_pub_key_t
  num_ : Nat
  comp_ : List pc_price_comp_t
deriving DecidableEq, Repr

/-- Modelled from the spec: `sysvar_clock_t`, the clock account; only `slot_`
is read. -/
structure sysvar_clock_t where
  slot_ : Nat
deriving DecidableEq, Repr

/-- Modelled from the spec: `cmd_upd_price_t` of `oracle.h`: header (version,
command), price type, symbol, price, confidence and status. -/
structure cmd_upd_price_t where
  ver_ : Nat
  cmd_ : Nat
  ptype_ : Nat
  sym_ : pc_symbol_t
  price_ : Int
  conf_ : Nat
  status_ : Nat
deriving DecidableEq, Repr

/-- Modelled from the spec: `cmd_add_publisher_t` of `oracle.h`: header, price
type, symbol and publisher key. -/
structure cmd_add_publisher_t where
  ver_ : Nat
  cmd_ : Nat
  ptype_ : Nat
  sym_ : pc_symbol_t
  pub_ : pc_pub_key_t
deriving DecidableEq, Repr

/-- Modelled from the spec: `cmd_del_publisher_t` of `oracle.h`, the same
layout as `cmd_add_publisher_t`. -/
structure cmd_del_publisher_t where
  ver_ : Nat
  cmd_ : Nat
  ptype_ : Nat
  sym_ : pc_symbol_t
  pub_ : pc_pub_key_t
deriving DecidableEq, Repr

/-- The account reference `SolAccountInfo` of `solana_sdk.h`; `data` is the
account's data seen through the record type the function casts it to. -/
structure SolAccountInfo (α : Type) where
  key : pc_pub_key_t
  is_signer : Bool
  is_writable : Bool
  owner : pc_pub_key_t
  data_len : Nat
  data : α
deriving Repr

/-- The instruction `SolParameters` of `solana_sdk.h`; `data` is the
instruction buffer seen through the command record it is cast to. -/
structure SolParameters (γ : Type) where
  ka_num : Nat
  data : γ
  data_len : Nat
  program_id : pc_pub_key_t
deriving Repr

/-- Modelled from the spec: `pc_pub_key_is_zero` of `oracle.h`. -/
def pc_pub_key_is_zero (p : pc_pub_key_t) : Bool :=
  p.k0 == 0 && p.k1 == 0 && p.k2 == 0 && p.k3 == 0

/-- Modelled from the spec: `pc_pub_key_equal` of `oracle.h`. -/
def pc_pub_key_equal (p1 p2 : pc_pub_key_t) : Bool :=
  p1.k0 == p2.k0 && p1.k1 == p2.k1 && p1.k2 == p2.k2 && p1.k3 == p2.k3

/-- Modelled from the spec: `pc_symbol_is_zero` of `oracle.h`. -/
def pc_symbol_is_zero (s : pc_symbol_t) : Bool :=
  s.k0 == 0 && s.k1 == 0 && s.k2 == 0 && s.k3 == 0

/-- Modelled from the spec: `pc_symbol_equal` of `oracle.h`. -/
def pc_symbol_equal (s1 s2 : pc_symbol_t) : Bool :=
  s1.k0 == s2.k0 && s1.k1 == s2.k1 && s1.k2 == s2.k2 && s1.k3 == s2.k3

/-- The all-zero key. -/
def zero_key : pc_pub_key_t := ⟨0, 0, 0, 0⟩

/-- The all-zero symbol. -/
def zero_symbol : pc_symbol_t := ⟨0, 0, 0, 0⟩

/-- The all-zero quote. -/
def zero_info : pc_price_info_t := ⟨0, 0, 0, 0⟩

/-- The all-zero component, what `sol_memset( iptr, 0, sizeof( pc_price_comp_t ) )`
leaves. -/
def zero_comp : pc_price_comp_t := ⟨zero_key, zero_info, zero_info⟩

/-- The all-zero price account, what `sol_memset( sptr, 0, sizeof( pc_price_t ) )`
leaves. -/
def zero_price (K : oracle_h) : pc_price_t :=
  { magic_ := 0, ver_ := 0, size_ := 0, ptype_ := 0, expo_ := 0, curr_slot_ := 0,
    valid_slot_ := 0, sym_ := zero_symbol, agg_pub_ := zero_key, agg_ := zero_info,
    next_ := zero_key, num_ := 0, comp_ := List.replicate K.PC_COMP_SIZE zero_comp }

/-- Two's-complement wrap of an integer to `int64_t`. -/
def wrap_i64 (x : Int) : Int := (x + 2 ^ 63) % 2 ^ 64 - 2 ^ 63

/-- Wrap of a natural number to `uint64_t`. -/
def wrap_u64 (x : Nat) : Nat := x % 2 ^ 64

/-! ## Account validators -/

/-- The predicate `valid_funding_account`. -/
def valid_funding_account {α : Type} (ka : SolAccountInfo α) : Bool :=
  ka.is_signer && ka.is_writable

/-- The predicate `valid_signable_account`. -/
def valid_signable_account {γ α : Type} (prm : SolParameters γ) (ka : SolAccountInfo α)
    (dlen : Nat) : Bool :=
  ka.is_signer && ka.is_writable && pc_pub_key_equal ka.owner prm.program_id &&
    decide (ka.data_len ≥ dlen)

/-- The predicate `valid_writable_account`. -/
def valid_writable_account {γ α : Type} (prm : SolParameters γ) (ka : SolAccountInfo α)
    (dlen : Nat) : Bool :=
  ka.is_writable && pc_pub_key_equal ka.owner prm.program_id && decide (ka.data_len ≥ dlen)

/-- The predicate `valid_readable_account`. -/
def valid_readable_account {γ α : Type} (prm : SolParameters γ) (ka : SolAccountInfo α)
    (dlen : Nat) : Bool :=
  pc_pub_key_equal ka.owner prm.program_id && decide (ka.data_len ≥ dlen)

/-! ## `upd_aggregate` -/

/-- The inner loop of `upd_aggregate`,
`for( ; j > 0 && ptr->comp_[aidx[j-1]].agg_.price_ > ipx; --j ) aidx[j] = aidx[j-1];`
started at `j`; returns the final `j` and the array. -/
def aidx_shift (comp_ : List pc_price_comp_t) (ipx : Int) :
    Nat → List Nat → Option (Nat × List Nat)
  | 0, aidx => some (0, aidx)
  | j + 1, aidx =>
    match aidx[j]? with
    | none => none
    | some a =>
      match comp_[a]? with
      | none => none
      | some c =>
        if c.agg_.price_ > ipx then
          if j + 1 < aidx.length then aidx_shift comp_ ipx j (aidx.set (j + 1) a) else none
        else some (j + 1, aidx)

/-- The component loop of `upd_aggregate`, `for( uint32_t i=0; i != ptr->num_; ++i )`,
with `n` iterations left at index `i`; the state is `comp_`, `aidx` and `numa`.  The
counter `numa` is an `int32_t`: an increment `numa++` past `2^31 - 1` is undefined
behaviour and ends the run with `none`. -/
def agg_loop (K : oracle_h) (slot : Nat) :
    Nat → Nat → List pc_price_comp_t → List Nat → Nat →
      Option (List pc_price_comp_t × List Nat × Nat)
  | 0, _, comp_, aidx, numa => some (comp_, aidx, numa)
  | n + 1, i, comp_, aidx, numa =>
    match comp_[i]? with
    | none => none
    | some c =>
      let iagg := c.latest_
      let comp_ := comp_.set i { c with agg_ := iagg }
      if iagg.status_ == K.PC_STATUS_TRADING && iagg.pub_slot_ == slot - 1 then
        let ipx := iagg.price_
        if numa + 1 < 2 ^ 31 then
          match aidx_shift comp_ ipx numa aidx with
          | none => none
          | some (j, aidx) =>
            if j < aidx.length then agg_loop K slot n (i + 1) comp_ (aidx.set j i) (numa + 1)
            else none
        else none
      else agg_loop K slot n (i + 1) comp_ aidx numa

/-- The function `upd_aggregate`.  The local array `aidx[PC_COMP_SIZE]` starts with
arbitrary contents (zeros here; only entries written before are read).  `slot - 1` is
taken after the test `slot <= curr_slot_`, so `slot >= 1`.  The result `none` is an access
outside `comp_` or `aidx`, or an overflow of `numa`. -/
def upd_aggregate (K : oracle_h) (ptr : pc_price_t) (kptr : pc_pub_key_t) (slot : Nat) :
    Option pc_price_t :=
  if slot ≤ ptr.curr_slot_ then some ptr
  else
    let ptr := { ptr with
      agg_ := { ptr.agg_ with pub_slot_ := slot }
      valid_slot_ := ptr.curr_slot_
      curr_slot_ := slot
      agg_pub_ := kptr }
    match agg_loop K slot ptr.num_ 0 ptr.comp_ (List.replicate K.PC_COMP_SIZE 0) 0 with
    | none => none
    | some (comp_, aidx, numa) =>
      let ptr := { ptr with comp_ := comp_ }
      if numa == 0 then
        some { ptr with agg_ := { ptr.agg_ with status_ := K.PC_STATUS_UNKNOWN } }
      else
        let midx := numa / 2
        match aidx[midx]? with
        | none => none
        | some a =>
          match comp_[a]? with
          | none => none
          | some m =>
            let apx := m.agg_.price_
            let acf := m.agg_.conf_
            if midx != 0 && numa % 2 == 0 then
              match aidx[midx - 1]? with
              | none => none
              | some a1 =>
                match comp_[a1]? with
                | none => none
                | some m1 =>
                  let apx := Int.tdiv (wrap_i64 (apx + m1.agg_.price_)) 2
                  let acf := wrap_u64 (acf + m1.agg_.conf_) / 2
                  some { ptr with agg_ := { ptr.agg_ with
                    price_ := apx, conf_ := acf, status_ := K.PC_STATUS_TRADING } }
            else
              some { ptr with agg_ := { ptr.agg_ with
                price_ := apx, conf_ := acf, status_ := K.PC_STATUS_TRADING } }

/-! ## `upd_price` -/

/-- The publisher search of `upd_price`,
`for( i=0; i != pptr->num_; ++i ) if ( pc_pub_key_equal( kptr, &iptr->pub_ ) ) break;`
with `n` iterations left at index `i`; returns the final `i`. -/
def upd_price_find (kptr : pc_pub_key_t) (comp_ : List pc_price_comp_t) :
    Nat → Nat → Option Nat
  | 0, i => some i
  | n + 1, i =>
    match comp_[i]? with
    | none => none
    | some c => if pc_pub_key_equal kptr c.pub_ then some i else upd_price_find kptr comp_ n (i + 1)

/-- The function `upd_price` (commands `upd_price` and `agg_price`): the result
code and the price account `ka[1]` afterwards; `none` is a memory fault. -/
def upd_price (K : oracle_h) (prm : SolParameters cmd_upd_price_t)
    (ka0 : SolAccountInfo Unit) (ka1 : SolAccountInfo pc_price_t)
    (ka2 : SolAccountInfo sysvar_clock_t) : Option (Nat × pc_price_t) :=
  let cptr := prm.data
  if prm.data_len != K.sizeof_cmd_upd_price_t || pc_symbol_is_zero cptr.sym_ then
    some (ERROR_INVALID_ARGUMENT, ka1.data)
  else if decide (prm.ka_num < 3) || !valid_funding_account ka0 ||
      !valid_writable_account prm ka1 K.sizeof_pc_price_t ||
      !pc_pub_key_equal ka2.key K.sysvar_clock then
    some (ERROR_INVALID_ARGUMENT, ka1.data)
  else
    let pptr := ka1.data
    if pptr.magic_ != K.PC_MAGIC || decide (pptr.ver_ > K.PC_VERSION) ||
        pptr.ptype_ != cptr.ptype_ || !pc_symbol_equal pptr.sym_ cptr.sym_ then
      some (ERROR_INVALID_ARGUMENT, pptr)
    else
      let kptr := ka0.key
      match upd_price_find kptr pptr.comp_ pptr.num_ 0 with
      | none => none
      | some i =>
        if i == pptr.num_ then some (ERROR_INVALID_ARGUMENT, pptr)
        else
          let sptr := ka2.data
          let agg := if sptr.slot_ > pptr.curr_slot_ then upd_aggregate K pptr kptr sptr.slot_
            else some pptr
          match agg with
          | none => none
          | some pptr =>
            if cptr.cmd_ == K.e_cmd_upd_price then
              match pptr.comp_[i]? with
              | none => none
              | some c =>
                let f : pc_price_info_t :=
                  { price_ := cptr.price_, conf_ := cptr.conf_, status_ := cptr.status_,
                    pub_slot_ := sptr.slot_ }
                some (SUCCESS, { pptr with comp_ := pptr.comp_.set i { c with latest_ := f } })
            else some (SUCCESS, pptr)

/-! ## `add_publisher` and `del_publisher` -/

/-- The duplicate scan of `add_publisher`,
`for(uint32_t i=0; i != sptr->num_; ++i ) if ( pc_pub_key_equal( &iptr->pub_, &cptr->pub_ ) ) return ...;`
with `n` iterations left at index `i`; `true` when the key was found. -/
def add_publisher_scan (pub_ : pc_pub_key_t) (comp_ : List pc_price_comp_t) :
    Nat → Nat → Option Bool
  | 0, _ => some false
  | n + 1, i =>
    match comp_[i]? with
    | none => none
    | some c =>
      if pc_pub_key_equal c.pub_ pub_ then some true else add_publisher_scan pub_ comp_ n (i + 1)

/-- The function `add_publisher`: the result code and the price account `ka[1]`
afterwards. -/
def add_publisher (K : oracle_h) (prm : SolParameters cmd_add_publisher_t)
    (ka0 : SolAccountInfo Unit) (ka1 : SolAccountInfo pc_price_t) : Option (Nat × pc_price_t) :=
  let cptr := prm.data
  if prm.data_len != K.sizeof_cmd_add_publisher_t || cptr.ptype_ == K.PC_PTYPE_UNKNOWN ||
      pc_symbol_is_zero cptr.sym_ || pc_pub_key_is_zero cptr.pub_ then
    some (ERROR_INVALID_ARGUMENT, ka1.data)
  else if decide (prm.ka_num < 2) || !valid_funding_account ka0 ||
      !valid_signable_account prm ka1 K.sizeof_pc_price_t then
    some (ERROR_INVALID_ARGUMENT, ka1.data)
  else
    let sptr := ka1.data
    if sptr.magic_ != K.PC_MAGIC || sptr.ver_ != cptr.ver_ || sptr.ptype_ != cptr.ptype_ ||
        !pc_symbol_equal sptr.sym_ cptr.sym_ then
      some (ERROR_INVALID_ARGUMENT, sptr)
    else
      match add_publisher_scan cptr.pub_ sptr.comp_ sptr.num_ 0 with
      | none => none
      | some true => some (ERROR_INVALID_ARGUMENT, sptr)
      | some false =>
        if sptr.num_ ≥ K.PC_COMP_SIZE then some (ERROR_INVALID_ARGUMENT, sptr)
        else
          let i := sptr.num_
          if i < sptr.comp_.length then
            some (SUCCESS, { sptr with
              num_ := (sptr.num_ + 1) % 2 ^ 32
              comp_ := sptr.comp_.set i { zero_comp with pub_ := cptr.pub_ } })
          else none

/-- The inner loop of `del_publisher`,
`for( unsigned j=i+1; j != sptr->num_; ++j ) { iptr[0] = jptr[0]; iptr = jptr; }`
with `n` iterations left at index `j`, `iptr` pointing at `comp_[ip]`; returns the
array and the final `iptr`. -/
def del_publisher_shift :
    Nat → Nat → Nat → List pc_price_comp_t → Option (List pc_price_comp_t × Nat)
  | 0, _, ip, comp_ => some (comp_, ip)
  | n + 1, j, ip, comp_ =>
    match comp_[j]? with
    | none => none
    | some cj =>
      if ip < comp_.length then del_publisher_shift n (j + 1) j (comp_.set ip cj) else none

/-- The outer loop of `del_publisher`,
`for(uint32_t i=0; i != sptr->num_; ++i )`, with `n` iterations left at index `i`. -/
def del_publisher_loop (pub_ : pc_pub_key_t) (sptr : pc_price_t) :
    Nat → Nat → Option (Nat × pc_price_t)
  | 0, _ => some (ERROR_INVALID_ARGUMENT, sptr)
  | n + 1, i =>
    match sptr.comp_[i]? with
    | none => none
    | some c =>
      if pc_pub_key_equal c.pub_ pub_ then
        match del_publisher_shift (sptr.num_ - (i + 1)) (i + 1) i sptr.comp_ with
        | none => none
        | some (comp_, ip) =>
          if ip < comp_.length then
            some (SUCCESS, { sptr with
              num_ := (sptr.num_ + 2 ^ 32 - 1) % 2 ^ 32
              comp_ := comp_.set ip zero_comp })
          else none
      else del_publisher_loop pub_ sptr n (i + 1)

/-- The function `del_publisher`: the result code and the price account `ka[1]`
afterwards. -/
def del_publisher (K : oracle_h) (prm : SolParameters cmd_del_publisher_t)
    (ka0 : SolAccountInfo Unit) (ka1 : SolAccountInfo pc_price_t) : Option (Nat × pc_price_t) :=
  let cptr := prm.data
  if prm.data_len != K.sizeof_cmd_del_publisher_t || cptr.ptype_ == K.PC_PTYPE_UNKNOWN ||
      pc_symbol_is_zero cptr.sym_ || pc_pub_key_is_zero cptr.pub_ then
    some (ERROR_INVALID_ARGUMENT, ka1.data)
  else if decide (prm.ka_num < 2) || !valid_funding_account ka0 ||
      !valid_signable_account prm ka1 K.sizeof_pc_price_t then
    some (ERROR_INVALID_ARGUMENT, ka1.data)
  else
    let sptr := ka1.data
    if sptr.magic_ != K.PC_MAGIC || sptr.ver_ != cptr.ver_ || sptr.ptype_ != cptr.ptype_ ||
        !pc_symbol_equal sptr.sym_ cptr.sym_ then
      some (ERROR_INVALID_ARGUMENT, sptr)
    else del_publisher_loop cptr.pub_ sptr sptr.num_ 0

/-! ## Mapping table: `init_mapping` and `add_symbol` -/

/-- Modelled from the spec: `pc_map_node_t` of `oracle.h`: a symbol, the 1-based
index of the next node of its hash chain (0 ends the chain) and the key of the
head price account of the symbol. -/
structure pc_map_node_t where
  sym_ : pc_symbol_t
  next_ : Nat
  price_acc_ : pc_pub_key_t
deriving DecidableEq, Repr

/-- Modelled from the spec: `pc_map_table_t` of `oracle.h`, the mapping account.
`tab_` is the array `tab_[PC_MAP_TABLE_SIZE]` and `nds_` the array
`nds_[PC_MAP_NODE_SIZE]`. -/
structure pc_map_table_t where
  magic_ : Nat
  ver_ : Nat
  num_ : Nat
  next_ : pc_pub_key_t
  tab_ : List Nat
  nds_ : List pc_map_node_t
deriving DecidableEq, Repr

/-- Modelled from the spec: `cmd_hdr_t` of `oracle.h`, the common header of every
instruction. -/
structure cmd_hdr_t where
  ver_ : Nat
  cmd_ : Nat
deriving DecidableEq, Repr

/-- Modelled from the spec: `cmd_add_symbol_t` of `oracle.h`: header, exponent
(i32), price type and symbol. -/
structure cmd_add_symbol_t where
  ver_ : Nat
  cmd_ : Nat
  expo_ : Int
  ptype_ : Nat
  sym_ : pc_symbol_t
deriving DecidableEq, Repr

/-- The all-zero node. -/
def zero_node : pc_map_node_t := ⟨zero_symbol, 0, zero_key⟩

/-- The all-zero mapping table, what `sol_memset( tptr, 0, sizeof( pc_map_table_t ) )`
leaves. -/
def zero_table (K : oracle_h) : pc_map_table_t :=
  { magic_ := 0, ver_ := 0, num_ := 0, next_ := zero_key,
    tab_ := List.replicate K.PC_MAP_TABLE_SIZE 0,
    nds_ := List.replicate K.PC_MAP_NODE_SIZE zero_node }

/-- The function `init_mapping`: the result code and the table `ka[1]` afterwards. -/
def init_mapping (K : oracle_h) (prm : SolParameters cmd_hdr_t)
    (ka0 : SolAccountInfo Unit) (ka1 : SolAccountInfo pc_map_table_t) :
    Option (Nat × pc_map_table_t) :=
  if decide (prm.ka_num < 2) || !valid_funding_account ka0 ||
      !valid_signable_account prm ka1 K.sizeof_pc_map_table_t then
    some (ERROR_INVALID_ARGUMENT, ka1.data)
  else
    let tptr := ka1.data
    if tptr.magic_ != 0 || tptr.ver_ != 0 then some (ERROR_INVALID_ARGUMENT, tptr)
    else some (SUCCESS, { zero_table K with magic_ := K.PC_MAGIC, ver_ := K.PC_VERSION })

/-- The bucket walk of `add_symbol`,
`for( uint32_t vidx = mptr->tab_[idx]; vidx; ) { nptr = &mptr->nds_[vidx-1]; vidx = nptr->next_; ... }`
at `vidx` with `fuel` steps left: `some (some k)` when `nds_[k]` carries the symbol,
`some none` when the chain ends without it, `none` on an access outside `nds_` or
when the fuel runs out. -/
def add_symbol_walk (sym_ : pc_symbol_t) (nds_ : List pc_map_node_t) :
    Nat → Nat → Option (Option Nat)
  | _, 0 => some none
  | 0, _ + 1 => none
  | fuel + 1, v + 1 =>
    match nds_[v]? with
    | none => none
    | some nptr =>
      if pc_symbol_equal sym_ nptr.sym_ then some (some v)
      else add_symbol_walk sym_ nds_ fuel nptr.next_

/-- The function `add_symbol`: the result code, the mapping table `ka[1]` and the
price account `ka[2]` afterwards.  The walk gets `nds_.length + 1` steps: a walk that
has not ended after that many nodes has visited one node twice, so in C it never ends;
`none` is a memory fault or such a walk. -/
def add_symbol (K : oracle_h) (prm : SolParameters cmd_add_symbol_t)
    (ka0 : SolAccountInfo Unit) (ka1 : SolAccountInfo pc_map_table_t)
    (ka2 : SolAccountInfo pc_price_t) : Option (Nat × pc_map_table_t × pc_price_t) :=
  let cptr := prm.data
  if prm.data_len != K.sizeof_cmd_add_symbol_t ||
      decide (cptr.expo_ > (K.PC_MAX_NUM_DECIMALS : Int)) ||
      decide (cptr.expo_ < -(K.PC_MAX_NUM_DECIMALS : Int)) ||
      cptr.ptype_ == K.PC_PTYPE_UNKNOWN || pc_symbol_is_zero cptr.sym_ then
    some (ERROR_INVALID_ARGUMENT, ka1.data, ka2.data)
  else if decide (prm.ka_num < 3) || !valid_funding_account ka0 ||
      !valid_signable_account prm ka1 K.sizeof_pc_map_table_t ||
      !valid_signable_account prm ka2 K.sizeof_pc_price_t then
    some (ERROR_INVALID_ARGUMENT, ka1.data, ka2.data)
  else
    let mptr := ka1.data
    if mptr.magic_ != K.PC_MAGIC || ka2.data.magic_ != 0 then
      some (ERROR_INVALID_ARGUMENT, mptr, ka2.data)
    else
      let sptr : pc_price_t := { zero_price K with
        magic_ := K.PC_MAGIC
        ver_ := K.PC_VERSION
        size_ := K.sizeof_pc_price_t
        expo_ := cptr.expo_
        ptype_ := cptr.ptype_
        sym_ := cptr.sym_ }
      let kptr := ka2.key
      let idx := (cptr.sym_.k0 % K.PC_MAP_TABLE_SIZE) % 2 ^ 32
      match mptr.tab_[idx]? with
      | none => none
      | some vidx =>
        match add_symbol_walk cptr.sym_ mptr.nds_ (mptr.nds_.length + 1) vidx with
        | none => none
        | some (some v) =>
          match mptr.nds_[v]? with
          | none => none
          | some nptr =>
            some (SUCCESS,
              { mptr with nds_ := mptr.nds_.set v { nptr with price_acc_ := kptr } },
              { sptr with next_ := nptr.price_acc_ })
        | some none =>
          if decide (mptr.num_ ≥ K.PC_MAP_NODE_SIZE) || !pc_pub_key_is_zero mptr.next_ then
            some (ERROR_INVALID_ARGUMENT, mptr, sptr)
          else
            let hidx := (mptr.num_ + 1) % 2 ^ 32
            if hidx - 1 < mptr.nds_.length ∧ 1 ≤ hidx then
              some (SUCCESS,
                { mptr with
                  num_ := hidx
                  nds_ := mptr.nds_.set (hidx - 1)
                    { sym_ := cptr.sym_, next_ := vidx, price_acc_ := kptr }
                  tab_ := mptr.tab_.set idx hidx },
                sptr)
            else none

/-! ## A sample of the constants, for evaluating the program on concrete inputs -/

/-- A sample of the constants of `oracle.h`. -/
def sample_h : oracle_h :=
  { PC_MAGIC := 0xa1b2c3d4, PC_VERSION_1 := 1, PC_VERSION := 1,
    PC_MAP_NODE_SIZE := 4, PC_MAP_TABLE_SIZE := 3, PC_COMP_SIZE := 4,
    PC_MAX_NUM_DECIMALS := 16, PC_PTYPE_UNKNOWN := 0,
    PC_STATUS_UNKNOWN := 0, PC_STATUS_TRADING := 1,
    e_cmd_init_mapping := 0, e_cmd_add_mapping := 1, e_cmd_add_symbol := 2,
    e_cmd_add_publisher := 3, e_cmd_del_publisher := 4, e_cmd_upd_price := 5,
    e_cmd_agg_price := 6,
    sizeof_cmd_hdr_t := 8, sizeof_cmd_add_symbol_t := 48, sizeof_cmd_add_publisher_t := 76,
    sizeof_cmd_del_publisher_t := 76, sizeof_cmd_upd_price_t := 72,
    sizeof_pc_map_table_t := 344, sizeof_pc_price_t := 560,
    sysvar_clock := ⟨7, 7, 7, 7⟩ }

/-- The program id of the samples. -/
def sample_program : pc_pub_key_t := ⟨9, 9, 9, 9⟩

/-- The symbol of the samples. -/
def sample_sym : pc_symbol_t := ⟨5, 0, 0, 0⟩

/-- Publisher key A. -/
def key_A : pc_pub_key_t := ⟨1, 0, 0, 0⟩

/-- Publisher key B. -/
def key_B : pc_pub_key_t := ⟨2, 0, 0, 0⟩

/-- Publisher key C. -/
def key_C : pc_pub_key_t := ⟨3, 0, 0, 0⟩

/-- Publisher key D. -/
def key_D : pc_pub_key_t := ⟨4, 0, 0, 0⟩

/-- A funding account (signer, writable) with the given key. -/
def funder (k : pc_pub_key_t) : SolAccountInfo Unit :=
  { key := k, is_signer := true, is_writable := true, owner := zero_key, data_len := 0,
    data := () }

/-- A signed, writable, program-owned price account holding `p`. -/
def price_account (p : pc_price_t) : SolAccountInfo pc_price_t :=
  { key := ⟨20, 0, 0, 0⟩, is_signer := true, is_writable := true, owner := sample_program,
    data_len := 560, data := p }

/-- The clock account at `slot`. -/
def clock_account (slot : Nat) : SolAccountInfo sysvar_clock_t :=
  { key := sample_h.sysvar_clock, is_signer := false, is_writable := false,
    owner := zero_key, data_len := 40, data := ⟨slot⟩ }

/-- An `upd_price` / `agg_price` instruction for the sample symbol. -/
def upd_instr (cmd_ : Nat) (price_ : Int) (conf_ status_ : Nat) :
    SolParameters cmd_upd_price_t :=
  { ka_num := 3, data_len := 72, program_id := sample_program,
    data := { ver_ := 1, cmd_ := cmd_, ptype_ := 1, sym_ := sample_sym, price_ := price_,
              conf_ := conf_, status_ := status_ } }

/-- An `add_publisher` instruction for the sample symbol. -/
def add_pub_instr (k : pc_pub_key_t) : SolParameters cmd_add_publisher_t :=
  { ka_num := 2, data_len := 76, program_id := sample_program,
    data := { ver_ := 1, cmd_ := 3, ptype_ := 1, sym_ := sample_sym, pub_ := k } }

/-- A `del_publisher` instruction for the sample symbol. -/
def del_pub_instr (k : pc_pub_key_t) : SolParameters cmd_del_publisher_t :=
  { ka_num := 2, data_len := 76, program_id := sample_program,
    data := { ver_ := 1, cmd_ := 4, ptype_ := 1, sym_ := sample_sym, pub_ := k } }

/-- A component of publisher `k` whose latest quote is `(price_, conf_, TRADING, slot)`. -/
def quoting (k : pc_pub_key_t) (price_ : Int) (conf_ slot : Nat) : pc_price_comp_t :=
  { pub_ := k, agg_ := zero_info, latest_ := ⟨price_, conf_, 1, slot⟩ }

/-- An initialized price account of the sample symbol with the given roster, last
aggregated at `curr`. -/
def sample_price (roster : List pc_price_comp_t) (curr : Nat) : pc_price_t :=
  { zero_price sample_h with
    magic_ := 0xa1b2c3d4, ver_ := 1, size_ := 560, ptype_ := 1, expo_ := -4,
    sym_ := sample_sym, curr_slot_ := curr, num_ := roster.length,
    comp_ := roster ++ List.replicate (4 - roster.length) zero_comp }

/-- A roster entry of publisher `k` that has not quoted yet, as `add_publisher` leaves it. -/
def member (k : pc_pub_key_t) : pc_price_comp_t := { zero_comp with pub_ := k }

/-- One successful `upd_price` (command 5) or `agg_price` (command 6) instruction of
publisher `k` on the price account `p` at clock slot `slot`, with the sample constants;
`none` when the call does not return `SUCCESS`. -/
def submit (k : pc_pub_key_t) (cmd_ : Nat) (price_ : Int) (conf_ status_ slot : Nat)
    (p : pc_price_t) : Option pc_price_t :=
  match upd_price sample_h (upd_instr cmd_ price_ conf_ status_) (funder k) (price_account p)
      (clock_account slot) with
  | some (0, p1) => some p1
  | _ => none

/-- Scenario 3: A, B and C submit 150, 100 and 200 with confidences `ca`, `cb`, `cc` at
slot 20, then C sends `agg_price` at slot 21. -/
def scenario_three (ca cb cc : Nat) : Option pc_price_t :=
  (((submit key_A 5 150 ca 1 20 (sample_price [member key_A, member key_B, member key_C] 19)).bind
    (submit key_B 5 100 cb 1 20)).bind (submit key_C 5 200 cc 1 20)).bind
    (submit key_C 6 0 0 0 21)

/-- Two publishers submit confidences `ca` and `cb` with prices 100 and 200 at slot 30,
then B sends `agg_price` at slot 31. -/
def scenario_two_confs (ca cb : Nat) : Option pc_price_t :=
  ((submit key_A 5 100 ca 1 30 (sample_price [member key_A, member key_B] 29)).bind
    (submit key_B 5 200 cb 1 30)).bind (submit key_B 6 0 0 0 31)

/-! ## Specification vocabulary for `upd_aggregate` -/

/-- The snapshot `iptr->agg_ = iptr->latest_` of one component. -/
def snapshot (c : pc_price_comp_t) : pc_price_comp_t := { c with agg_ := c.latest_ }

/-- The array after the first `i` components were snapshotted. -/
def snap (i : Nat) (comp0 : List pc_price_comp_t) : List pc_price_comp_t :=
  (comp0.take i).map snapshot ++ comp0.drop i

/-- The test of `upd_aggregate` on a component's quote: status `TRADING` and
published in the slot before `slot`. -/
def contributes (K : oracle_h) (slot : Nat) (c : pc_price_comp_t) : Bool :=
  c.latest_.status_ == K.PC_STATUS_TRADING && c.latest_.pub_slot_ == slot - 1

/-- The component at index `a` of the array. -/
def comp_at (comp0 : List pc_price_comp_t) (a : Nat) : pc_price_comp_t := comp0.getD a zero_comp

/-- The price of the latest quote of component `a`. -/
def latest_px (comp0 : List pc_price_comp_t) (a : Nat) : Int := (comp_at comp0 a).latest_.price_

/-- The order of the insertion sort: by price, and by index among equal prices. -/
def stable_lt (comp0 : List pc_price_comp_t) (a b : Nat) : Prop :=
  latest_px comp0 a < latest_px comp0 b ∨ (latest_px comp0 a = latest_px comp0 b ∧ a < b)

/-- The invariant of the component loop: after `i` components, `L` is
`aidx[0..numa)`. -/
structure agg_inv (K : oracle_h) (slot : Nat) (comp0 : List pc_price_comp_t) (i : Nat)
    (L : List Nat) : Prop where
  mem : ∀ a, a ∈ L ↔ a < i ∧ contributes K slot (comp_at comp0 a) = true
  perm : (L.map (comp_at comp0)).Perm ((comp0.take i).filter (contributes K slot))
  sorted : L.Pairwise (stable_lt comp0)
  len : L.length ≤ i

/-- The aggregate quote that `upd_aggregate` writes when `aidx[0..numa)` is `L`. -/
def median_info (K : oracle_h) (comp0 : List pc_price_comp_t) (agg0 : pc_price_info_t)
    (slot : Nat) (L : List Nat) : pc_price_info_t :=
  if L.length = 0 then { agg0 with pub_slot_ := slot, status_ := K.PC_STATUS_UNKNOWN }
  else
    let m := (comp_at comp0 (L.getD (L.length / 2) 0)).latest_
    if (L.length / 2 != 0 && L.length % 2 == 0) = true then
      let m1 := (comp_at comp0 (L.getD (L.length / 2 - 1) 0)).latest_
      { price_ := Int.tdiv (wrap_i64 (m.price_ + m1.price_)) 2
        conf_ := wrap_u64 (m.conf_ + m1.conf_) / 2
        status_ := K.PC_STATUS_TRADING
        pub_slot_ := slot }
    else
      { price_ := m.price_, conf_ := m.conf_, status_ := K.PC_STATUS_TRADING, pub_slot_ := slot }

/-- The price account that `upd_aggregate` leaves when `aidx[0..numa)` is `L`. -/
def aggregated (K : oracle_h) (ptr : pc_price_t) (kptr : pc_pub_key_t) (slot : Nat)
    (L : List Nat) : pc_price_t :=
  { ptr with
    agg_ := median_info K ptr.comp_ ptr.agg_ slot L
    valid_slot_ := ptr.curr_slot_
    curr_slot_ := slot
    agg_pub_ := kptr
    comp_ := snap ptr.num_ ptr.comp_ }

/-- The prices of the contributing components, in component order. -/
def contributing_prices (K : oracle_h) (ptr : pc_price_t) (slot : Nat) : List Int :=
  ((ptr.comp_.take ptr.num_).filter (contributes K slot)).map (fun c => c.latest_.price_)

/-- Two components that differ at most in the price and confidence of a latest quote that
does not contribute at `slot`. -/
def same_but_stale (K : oracle_h) (slot : Nat) (c1 c2 : pc_price_comp_t) : Prop :=
  c1.pub_ = c2.pub_ ∧ c1.agg_ = c2.agg_ ∧ c1.latest_.status_ = c2.latest_.status_ ∧
    c1.latest_.pub_slot_ = c2.latest_.pub_slot_ ∧
    (contributes K slot c1 = true → c1.latest_ = c2.latest_)

/-- The parameter and account checks of `add_publisher` that precede the roster scan:
`true` when none of the three guards returns `ERROR_INVALID_ARGUMENT`. -/
def add_publisher_checks (K : oracle_h) (prm : SolParameters cmd_add_publisher_t)
    (ka0 : SolAccountInfo Unit) (ka1 : SolAccountInfo pc_price_t) : Bool :=
  !(prm.data_len != K.sizeof_cmd_add_publisher_t || prm.data.ptype_ == K.PC_PTYPE_UNKNOWN ||
      pc_symbol_is_zero prm.data.sym_ || pc_pub_key_is_zero prm.data.pub_) &&
  !(decide (prm.ka_num < 2) || !valid_funding_account ka0 ||
      !valid_signable_account prm ka1 K.sizeof_pc_price_t) &&
  !(ka1.data.magic_ != K.PC_MAGIC || ka1.data.ver_ != prm.data.ver_ ||
      ka1.data.ptype_ != prm.data.ptype_ || !pc_symbol_equal ka1.data.sym_ prm.data.sym_)

/-- The parameter and account checks of `del_publisher` that precede the roster scan:
`true` when none of the three guards returns `ERROR_INVALID_ARGUMENT`. -/
def del_publisher_checks (K : oracle_h) (prm : SolParameters cmd_del_publisher_t)
    (ka0 : SolAccountInfo Unit) (ka1 : SolAccountInfo pc_price_t) : Bool :=
  !(prm.data_len != K.sizeof_cmd_del_publisher_t || prm.data.ptype_ == K.PC_PTYPE_UNKNOWN ||
      pc_symbol_is_zero prm.data.sym_ || pc_pub_key_is_zero prm.data.pub_) &&
  !(decide (prm.ka_num < 2) || !valid_funding_account ka0 ||
      !valid_signable_account prm ka1 K.sizeof_pc_price_t) &&
  !(ka1.data.magic_ != K.PC_MAGIC || ka1.data.ver_ != prm.data.ver_ ||
      ka1.data.ptype_ != prm.data.ptype_ || !pc_symbol_equal ka1.data.sym_ prm.data.sym_)

/-- A signed, writable, program-owned mapping account holding `t`. -/
def map_account (t : pc_map_table_t) : SolAccountInfo pc_map_table_t :=
  { key := ⟨10, 0, 0, 0⟩, is_signer := true, is_writable := true, owner := sample_program,
    data_len := 344, data := t }

/-- An `init_mapping` instruction. -/
def init_instr : SolParameters cmd_hdr_t :=
  { ka_num := 2, data_len := 8, program_id := sample_program, data := { ver_ := 1, cmd_ := 0 } }

/-- An `add_symbol` instruction for the sample symbol, exponent -4 and price type 1. -/
def add_sym_instr : SolParameters cmd_add_symbol_t :=
  { ka_num := 3, data_len := 48, program_id := sample_program,
    data := { ver_ := 1, cmd_ := 2, expo_ := -4, ptype_ := 1, sym_ := sample_sym } }

/-- The price account of a result, the all-zero account when there is none. -/
def price_of (r : Option (Nat × pc_price_t)) : pc_price_t :=
  match r with
  | some (_, p) => p
  | none => zero_price sample_h

/-- Scenario 1: `init_mapping` on a blank table, `add_symbol` with a blank price account,
then `add_publisher` of A and of B; the mapping table and the price account afterwards. -/
def scenario_bootstrap : Option (pc_map_table_t × pc_price_t) :=
  match init_mapping sample_h init_instr (funder key_D) (map_account (zero_table sample_h)) with
  | some (0, m1) =>
    match add_symbol sample_h add_sym_instr (funder key_D) (map_account m1)
        (price_account (zero_price sample_h)) with
    | some (0, m2, p1) =>
      match add_publisher sample_h (add_pub_instr key_A) (funder key_D) (price_account p1) with
      | some (0, p2) =>
        match add_publisher sample_h (add_pub_instr key_B) (funder key_D) (price_account p2) with
        | some (0, p3) => some (m2, p3)
        | _ => none
      | _ => none
    | _ => none
  | _ => none

/-- Scenario 2: from the fresh roster [A, B], A sends price 100, confidence 2, TRADING at
slot 10 and price 101 at slot 11. -/
def scenario_single : Option pc_price_t :=
  (submit key_A 5 100 2 1 10 (sample_price [member key_A, member key_B] 0)).bind
    (submit key_A 5 101 2 1 11)

/-- Sample for C1: two contributors with prices -3 and 0 at slot 20. -/
def sample_negative : pc_price_t :=
  sample_price [quoting key_A (-3) 7 20, quoting key_B 0 9 20] 20

/-- Sample for C2 (scenario 5): A quoted at slot 40 only, B quoted at slot 41. -/
def sample_stale : pc_price_t :=
  sample_price [quoting key_A 500 1 40, quoting key_B 70 3 41] 41

/-- The components of `sample_stale` with another price and confidence in A's stale quote. -/
def sample_stale_other : List pc_price_comp_t :=
  [quoting key_A 999 8 40, quoting key_B 70 3 41, zero_comp, zero_comp]

/-- Sample for C3 and C8: A quoted 100 with confidence 2 at slot 10. -/
def sample_after_first : pc_price_t :=
  sample_price [quoting key_A 100 2 10, member key_B] 10

/-- Sample for C5: the quotes of scenario 3 at slot 20. -/
def sample_three : pc_price_t :=
  sample_price [quoting key_A 150 7 20, quoting key_B 100 9 20, quoting key_C 200 11 20] 20

/-- Sample for C7: an aggregate (100, 2, TRADING) of slot 10 and only a stale quote. -/
def sample_quiet : pc_price_t :=
  { sample_price [quoting key_A 100 2 5, member key_B] 10 with agg_ := ⟨100, 2, 1, 10⟩ }

/-- Sample for C9: the roster [A, B]. -/
def sample_roster_two : pc_price_t :=
  sample_price [quoting key_A 100 2 10, quoting key_B 200 3 10] 10

/-- Sample for C10 (scenario 6): the roster [A, B, C, D]. -/
def sample_roster_four : pc_price_t :=
  sample_price [quoting key_A 100 1 30, quoting key_B 200 2 30, quoting key_C 300 4 30,
    quoting key_D 400 8 30] 30

/-- The parameter and account-metadata checks of `upd_price`: `true` when neither of the
first two guards returns `ERROR_INVALID_ARGUMENT`. -/
def upd_price_checks (K : oracle_h) (prm : SolParameters cmd_upd_price_t)
    (ka0 : SolAccountInfo Unit) (ka1 : SolAccountInfo pc_price_t)
    (ka2 : SolAccountInfo sysvar_clock_t) : Bool :=
  !(prm.data_len != K.sizeof_cmd_upd_price_t || pc_symbol_is_zero prm.data.sym_) &&
  !(decide (prm.ka_num < 3) || !valid_funding_account ka0 ||
      !valid_writable_account prm ka1 K.sizeof_pc_price_t ||
      !pc_pub_key_equal ka2.key K.sysvar_clock)

/-- The third guard of `upd_price`: `true` when the price account is initialized, not newer
than the program, and of the price type and symbol of the instruction. -/
def upd_price_matches (K : oracle_h) (prm : SolParameters cmd_upd_price_t)
    (ka1 : SolAccountInfo pc_price_t) : Bool :=
  !(ka1.data.magic_ != K.PC_MAGIC || decide (ka1.data.ver_ > K.PC_VERSION) ||
      ka1.data.ptype_ != prm.data.ptype_ || !pc_symbol_equal ka1.data.sym_ prm.data.sym_)

/-- The two guards of `init_mapping`: `true` when the account checks pass and the table is
not yet initialized. -/
def init_mapping_accepts (K : oracle_h) (prm : SolParameters cmd_hdr_t)
    (ka0 : SolAccountInfo Unit) (ka1 : SolAccountInfo pc_map_table_t) : Bool :=
  !(decide (prm.ka_num < 2) || !valid_funding_account ka0 ||
      !valid_signable_account prm ka1 K.sizeof_pc_map_table_t) &&
  !(ka1.data.magic_ != 0 || ka1.data.ver_ != 0)

/-- The roster invariant: `num_ <= PC_COMP_SIZE` and the publisher keys of
`comp_[0..num_)` are pairwise distinct. -/
def roster_inv (K : oracle_h) (p : pc_price_t) : Prop :=
  p.num_ ≤ K.PC_COMP_SIZE ∧
    ∀ i j, i < j → j < p.num_ → (comp_at p.comp_ i).pub_ ≠ (comp_at p.comp_ j).pub_

/-! ## Mapping chain: `add_mapping` -/

/-- The function `add_mapping`: the result code, the tail table `ka[1]` and the new table
`ka[2]` afterwards.  The two accounts are held as two records: one account passed in both
positions cannot pass the second guard unless `PC_MAGIC` is zero. -/
def add_mapping (K : oracle_h) (prm : SolParameters cmd_hdr_t)
    (ka0 : SolAccountInfo Unit) (ka1 ka2 : SolAccountInfo pc_map_table_t) :
    Option (Nat × pc_map_table_t × pc_map_table_t) :=
  if decide (prm.ka_num < 3) || !valid_funding_account ka0 ||
      !valid_signable_account prm ka1 K.sizeof_pc_map_table_t ||
      !valid_signable_account prm ka2 K.sizeof_pc_map_table_t then
    some (ERROR_INVALID_ARGUMENT, ka1.data, ka2.data)
  else
    let pptr := ka1.data
    let nptr := ka2.data
    if pptr.magic_ != K.PC_MAGIC || nptr.magic_ != 0 ||
        decide (pptr.num_ < K.PC_MAP_NODE_SIZE) || nptr.num_ != 0 ||
        !pc_pub_key_is_zero pptr.next_ then
      some (ERROR_INVALID_ARGUMENT, pptr, nptr)
    else
      let nkey := ka2.key
      some (SUCCESS, { pptr with next_ := nkey },
        { zero_table K with magic_ := K.PC_MAGIC, ver_ := K.PC_VERSION })

/-- The account-metadata checks of `add_mapping`: `true` when the first guard does not
return `ERROR_INVALID_ARGUMENT`. -/
def add_mapping_checks (K : oracle_h) (prm : SolParameters cmd_hdr_t)
    (ka0 : SolAccountInfo Unit) (ka1 ka2 : SolAccountInfo pc_map_table_t) : Bool :=
  !(decide (prm.ka_num < 3) || !valid_funding_account ka0 ||
      !valid_signable_account prm ka1 K.sizeof_pc_map_table_t ||
      !valid_signable_account prm ka2 K.sizeof_pc_map_table_t)

/-- The second guard of `add_mapping`: `true` when the tail is initialized, full and
without successor and the new table is uninitialized. -/
def add_mapping_accepts (K : oracle_h) (ka1 ka2 : SolAccountInfo pc_map_table_t) : Bool :=
  !(ka1.data.magic_ != K.PC_MAGIC || ka2.data.magic_ != 0 ||
      decide (ka1.data.num_ < K.PC_MAP_NODE_SIZE) || ka2.data.num_ != 0 ||
      !pc_pub_key_is_zero ka1.data.next_)

/-- The mapping table invariant: `num_ <= PC_MAP_NODE_SIZE`, and a table with a successor
is full. -/
def table_inv (K : oracle_h) (t : pc_map_table_t) : Prop :=
  t.num_ ≤ K.PC_MAP_NODE_SIZE ∧ (t.next_ ≠ zero_key → t.num_ = K.PC_MAP_NODE_SIZE)

/-- An `add_mapping` instruction. -/
def add_map_instr : SolParameters cmd_hdr_t :=
  { ka_num := 3, data_len := 8, program_id := sample_program, data := { ver_ := 1, cmd_ := 1 } }

/-- A second signed, writable, program-owned mapping account holding `t`. -/
def map_account_2 (t : pc_map_table_t) : SolAccountInfo pc_map_table_t :=
  { key := ⟨11, 0, 0, 0⟩, is_signer := true, is_writable := true, owner := sample_program,
    data_len := 344, data := t }

/-- An initialized table with the given nodes and bucket heads and no successor. -/
def sample_table (tab_ : List Nat) (nds_ : List pc_map_node_t) : pc_map_table_t :=
  { magic_ := 0xa1b2c3d4, ver_ := 1, num_ := nds_.length, next_ := zero_key, tab_ := tab_,
    nds_ := nds_ ++ List.replicate (4 - nds_.length) zero_node }

/-- A full table: four symbols with low words 3, 4, 6 and 8. -/
def sample_full_table : pc_map_table_t :=
  sample_table [3, 2, 4]
    [⟨⟨3, 0, 0, 0⟩, 0, ⟨30, 0, 0, 0⟩⟩, ⟨⟨4, 0, 0, 0⟩, 0, ⟨31, 0, 0, 0⟩⟩,
     ⟨⟨6, 0, 0, 0⟩, 1, ⟨32, 0, 0, 0⟩⟩, ⟨⟨8, 0, 0, 0⟩, 0, ⟨33, 0, 0, 0⟩⟩]

/-! ## Specification vocabulary for the bucket chains of a mapping table -/

/-- The node `nds_[k]` (0-based), the all-zero node outside the array. -/
def node_at (nds_ : List pc_map_node_t) (k : Nat) : pc_map_node_t := nds_.getD k zero_node

/-- The 0-based indices of the nodes on the chain that starts at the 1-based index `vidx`,
followed for at most `fuel` links. -/
def bucket_chain (nds_ : List pc_map_node_t) : Nat → Nat → List Nat
  | _, 0 => []
  | 0, _ + 1 => []
  | fuel + 1, v + 1 => v :: bucket_chain nds_ fuel (node_at nds_ v).next_

/-- Well-formed bucket chains: the arrays have their declared lengths, `num_` is within
the node capacity, every bucket head is at most `num_`, and the `next_` of every node in
use is smaller than the node's own 1-based index. -/
def chains_wf (K : oracle_h) (t : pc_map_table_t) : Prop :=
  t.tab_.length = K.PC_MAP_TABLE_SIZE ∧ t.nds_.length = K.PC_MAP_NODE_SIZE ∧
  t.num_ ≤ K.PC_MAP_NODE_SIZE ∧
  (∀ b, b < t.tab_.length → t.tab_.getD b 0 ≤ t.num_) ∧
  (∀ k, k < t.num_ → (node_at t.nds_ k).next_ ≤ k)

/-- The parameter and account-metadata checks of `add_symbol`: `true` when neither of the
first two guards returns `ERROR_INVALID_ARGUMENT`. -/
def add_symbol_checks (K : oracle_h) (prm : SolParameters cmd_add_symbol_t)
    (ka0 : SolAccountInfo Unit) (ka1 : SolAccountInfo pc_map_table_t)
    (ka2 : SolAccountInfo pc_price_t) : Bool :=
  !(prm.data_len != K.sizeof_cmd_add_symbol_t ||
      decide (prm.data.expo_ > (K.PC_MAX_NUM_DECIMALS : Int)) ||
      decide (prm.data.expo_ < -(K.PC_MAX_NUM_DECIMALS : Int)) ||
      prm.data.ptype_ == K.PC_PTYPE_UNKNOWN || pc_symbol_is_zero prm.data.sym_) &&
  !(decide (prm.ka_num < 3) || !valid_funding_account ka0 ||
      !valid_signable_account prm ka1 K.sizeof_pc_map_table_t ||
      !valid_signable_account prm ka2 K.sizeof_pc_price_t)

/-- The price account as `add_symbol` initializes it before it looks the symbol up. -/
def add_symbol_price_init (K : oracle_h) (cptr : cmd_add_symbol_t) : pc_price_t :=
  { zero_price K with
    magic_ := K.PC_MAGIC
    ver_ := K.PC_VERSION
    size_ := K.sizeof_pc_price_t
    expo_ := cptr.expo_
    ptype_ := cptr.ptype_
    sym_ := cptr.sym_ }

/-- A tail table with one node: a symbol with low word 2, in bucket 2. -/
def sample_tail : pc_map_table_t :=
  sample_table [0, 0, 1] [⟨⟨2, 0, 0, 0⟩, 0, ⟨30, 0, 0, 0⟩⟩]

/-- A second signed, writable, program-owned price account holding `p`. -/
def price_account_2 (p : pc_price_t) : SolAccountInfo pc_price_t :=
  { key := ⟨21, 0, 0, 0⟩, is_signer := true, is_writable := true, owner := sample_program,
    data_len := 560, data := p }

/-! ## The dispatcher: `dispatch_1` and `dispatch` -/

/-- The instruction buffer `prm->data` seen through the header and through each command
record a handler casts it to.  The header is the first field of every command record, so
the `ver_` and `cmd_` of each reading are taken from `hdr` (see `dispatch_1`). -/
structure cmd_data where
  hdr : cmd_hdr_t
  as_add_symbol : cmd_add_symbol_t
  as_add_publisher : cmd_add_publisher_t
  as_del_publisher : cmd_del_publisher_t
  as_upd_price : cmd_upd_price_t
deriving DecidableEq, Repr

/-- The data of an account seen through each record type a handler casts it to: a mapping
table, a price account, the clock sysvar.  A handler writes through one reading only; the
other readings of a written account are not tracked. -/
structure account_data where
  as_table : pc_map_table_t
  as_price : pc_price_t
  as_clock : sysvar_clock_t
deriving DecidableEq, Repr

/-- The cast `(cmd_upd_price_t*)prm->data`. -/
def cmd_data.upd_price (d : cmd_data) : cmd_upd_price_t :=
  { d.as_upd_price with ver_ := d.hdr.ver_, cmd_ := d.hdr.cmd_ }

/-- The cast `(cmd_add_symbol_t*)prm->data`. -/
def cmd_data.add_symbol (d : cmd_data) : cmd_add_symbol_t :=
  { d.as_add_symbol with ver_ := d.hdr.ver_, cmd_ := d.hdr.cmd_ }

/-- The cast `(cmd_add_publisher_t*)prm->data`. -/
def cmd_data.add_publisher (d : cmd_data) : cmd_add_publisher_t :=
  { d.as_add_publisher with ver_ := d.hdr.ver_, cmd_ := d.hdr.cmd_ }

/-- The cast `(cmd_del_publisher_t*)prm->data`. -/
def cmd_data.del_publisher (d : cmd_data) : cmd_del_publisher_t :=
  { d.as_del_publisher with ver_ := d.hdr.ver_, cmd_ := d.hdr.cmd_ }

/-- The instruction `prm` with its buffer read as `d`: the cast `(T*)prm->data`. -/
def prm_cast {γ δ : Type} (prm : SolParameters γ) (d : δ) : SolParameters δ :=
  { ka_num := prm.ka_num, data := d, data_len := prm.data_len, program_id := prm.program_id }

/-- The account `ka` with its data read as `d`: the cast `(T*)ka->data`. -/
def ka_cast {α β : Type} (ka : SolAccountInfo α) (d : β) : SolAccountInfo β :=
  { key := ka.key, is_signer := ka.is_signer, is_writable := ka.is_writable,
    owner := ka.owner, data_len := ka.data_len, data := d }

/-- The function `dispatch_1`: the result code and the data of `ka[1]` and `ka[2]`
afterwards (no handler writes `ka[0]`).  The cases of the `switch` are tried in source
order. -/
def dispatch_1 (K : oracle_h) (prm : SolParameters cmd_data)
    (ka0 ka1 ka2 : SolAccountInfo account_data) : Option (Nat × account_data × account_data) :=
  let hdr := prm.data.hdr
  if hdr.cmd_ = K.e_cmd_upd_price ∨ hdr.cmd_ = K.e_cmd_agg_price then
    match upd_price K (prm_cast prm prm.data.upd_price) (ka_cast ka0 ())
        (ka_cast ka1 ka1.data.as_price) (ka_cast ka2 ka2.data.as_clock) with
    | none => none
    | some (res, p) => some (res, { ka1.data with as_price := p }, ka2.data)
  else if hdr.cmd_ = K.e_cmd_init_mapping then
    match init_mapping K (prm_cast prm hdr) (ka_cast ka0 ()) (ka_cast ka1 ka1.data.as_table) with
    | none => none
    | some (res, t) => some (res, { ka1.data with as_table := t }, ka2.data)
  else if hdr.cmd_ = K.e_cmd_add_mapping then
    match add_mapping K (prm_cast prm hdr) (ka_cast ka0 ()) (ka_cast ka1 ka1.data.as_table)
        (ka_cast ka2 ka2.data.as_table) with
    | none => none
    | some (res, t1, t2) =>
      some (res, { ka1.data with as_table := t1 }, { ka2.data with as_table := t2 })
  else if hdr.cmd_ = K.e_cmd_add_symbol then
    match add_symbol K (prm_cast prm prm.data.add_symbol) (ka_cast ka0 ())
        (ka_cast ka1 ka1.data.as_table) (ka_cast ka2 ka2.data.as_price) with
    | none => none
    | some (res, t, p) =>
      some (res, { ka1.data with as_table := t }, { ka2.data with as_price := p })
  else if hdr.cmd_ = K.e_cmd_add_publisher then
    match add_publisher K (prm_cast prm prm.data.add_publisher) (ka_cast ka0 ())
        (ka_cast ka1 ka1.data.as_price) with
    | none => none
    | some (res, p) => some (res, { ka1.data with as_price := p }, ka2.data)
  else if hdr.cmd_ = K.e_cmd_del_publisher then
    match del_publisher K (prm_cast prm prm.data.del_publisher) (ka_cast ka0 ())
        (ka_cast ka1 ka1.data.as_price) with
    | none => none
    | some (res, p) => some (res, { ka1.data with as_price := p }, ka2.data)
  else some (ERROR_INVALID_ARGUMENT, ka1.data, ka2.data)

/-- The function `dispatch`: the result code and the data of `ka[1]` and `ka[2]`
afterwards. -/
def dispatch (K : oracle_h) (prm : SolParameters cmd_data)
    (ka0 ka1 ka2 : SolAccountInfo account_data) : Option (Nat × account_data × account_data) :=
  if prm.data_len < K.sizeof_cmd_hdr_t then some (ERROR_INVALID_ARGUMENT, ka1.data, ka2.data)
  else
    let hdr := prm.data.hdr
    if hdr.ver_ = K.PC_VERSION_1 then dispatch_1 K prm ka0 ka1 ka2
    else some (ERROR_INVALID_ARGUMENT, ka1.data, ka2.data)

/-- An instruction buffer of `len` bytes with header `(ver_, cmd_)` and zero payload. -/
def sample_buf (ver_ cmd_ len : Nat) : SolParameters cmd_data :=
  { ka_num := 3, data_len := len, program_id := sample_program,
    data := { hdr := ⟨ver_, cmd_⟩,
              as_add_symbol := ⟨ver_, cmd_, 0, 0, zero_symbol⟩,
              as_add_publisher := ⟨ver_, cmd_, 0, zero_symbol, zero_key⟩,
              as_del_publisher := ⟨ver_, cmd_, 0, zero_symbol, zero_key⟩,
              as_upd_price := ⟨ver_, cmd_, 0, zero_symbol, 0, 0, 0⟩ } }

/-- A signed, writable, program-owned account whose data reads as the table `t`, the price
account `p` and the clock slot 0. -/
def sample_any (t : pc_map_table_t) (p : pc_price_t) : SolAccountInfo account_data :=
  { key := ⟨12, 0, 0, 0⟩, is_signer := true, is_writable := true, owner := sample_program,
    data_len := 560, data := ⟨t, p, ⟨0⟩⟩ }

/-! ## Specification vocabulary for reachable mapping tables -/

/-- The bucket of a symbol as `add_symbol` computes it:
`uint32_t idx = cptr->sym_.k8_[0] % (uint64_t)PC_MAP_TABLE_SIZE`. -/
def bucket_of (K : oracle_h) (s : pc_symbol_t) : Nat := (s.k0 % K.PC_MAP_TABLE_SIZE) % 2 ^ 32

/-- The chain of bucket `b` of a table: the 0-based indices of its nodes, head first. -/
def chain_of (t : pc_map_table_t) (b : Nat) : List Nat :=
  bucket_chain t.nds_ (t.nds_.length + 1) (t.tab_.getD b 0)

/-- The chain invariant of a mapping table: array lengths, `num_` within capacity, bucket
heads at most `num_`, every `next_` below the node's own 1-based index, every node in use
on the chain of the bucket of its symbol, every node of a chain in that chain's bucket, and
pairwise distinct symbols. -/
structure chain_inv (K : oracle_h) (t : pc_map_table_t) : Prop where
  tab_len : t.tab_.length = K.PC_MAP_TABLE_SIZE
  nds_len : t.nds_.length = K.PC_MAP_NODE_SIZE
  num_le : t.num_ ≤ K.PC_MAP_NODE_SIZE
  heads : ∀ b, b < t.tab_.length → t.tab_.getD b 0 ≤ t.num_
  links : ∀ k, k < t.num_ → (node_at t.nds_ k).next_ ≤ k
  on_chain : ∀ k, k < t.num_ → k ∈ chain_of t (bucket_of K (node_at t.nds_ k).sym_)
  in_bucket : ∀ b k, b < t.tab_.length → k ∈ chain_of t b →
    bucket_of K (node_at t.nds_ k).sym_ = b
  distinct : ∀ i j, i < t.num_ → j < t.num_ →
    (node_at t.nds_ i).sym_ = (node_at t.nds_ j).sym_ → i = j

/-- The mapping tables reachable from a successful `init_mapping` by `add_symbol` calls
(successful or not). -/
inductive reachable (K : oracle_h) : pc_map_table_t → Prop
  | init (prm : SolParameters cmd_hdr_t) (ka0 : SolAccountInfo Unit)
      (ka1 : SolAccountInfo pc_map_table_t) (t : pc_map_table_t)
      (h : init_mapping K prm ka0 ka1 = some (SUCCESS, t)) : reachable K t
  | step (prm : SolParameters cmd_add_symbol_t) (ka0 : SolAccountInfo Unit)
      (ka1 : SolAccountInfo pc_map_table_t) (ka2 : SolAccountInfo pc_price_t)
      (code : Nat) (m : pc_map_table_t) (p : pc_price_t)
      (hr : reachable K ka1.data)
      (h : add_symbol K prm ka0 ka1 ka2 = some (code, m, p)) : reachable K m

/-- An `add_symbol` instruction for the symbol with low word `w`. -/
def add_sym_instr_of (w : Nat) : SolParameters cmd_add_symbol_t :=
  { ka_num := 3, data_len := 48, program_id := sample_program,
    data := { ver_ := 1, cmd_ := 2, expo_ := -4, ptype_ := 1, sym_ := ⟨w, 0, 0, 0⟩ } }

/-- The table after `init_mapping` and `add_symbol` of the symbols with low words 2 and 5,
both of bucket 2. -/
def sample_two_symbols : pc_map_table_t :=
  sample_table [0, 0, 2] [⟨⟨2, 0, 0, 0⟩, 0, ⟨20, 0, 0, 0⟩⟩, ⟨⟨5, 0, 0, 0⟩, 1, ⟨21, 0, 0, 0⟩⟩]

/-! ## Theorems about `upd_aggregate` -/

theorem snap_length (i : Nat) (comp0 : List pc_price_comp_t) : (snap i comp0).length = comp0.length := by
  simp only [snap, List.length_append, List.length_map, List.length_take, List.length_drop]
  omega

theorem snap_zero (comp0 : List pc_price_comp_t) : snap 0 comp0 = comp0 := by
  simp [snap]

theorem snap_get_lt {i a : Nat} {comp0 : List pc_price_comp_t} (h : a < i) (ha : a < comp0.length) :
    (snap i comp0)[a]? = some (snapshot (comp0.getD a zero_comp)) := by
  unfold snap
  rw [List.getElem?_append_left (by simp; omega)]
  simp [List.getElem?_map, List.getElem?_take, h, List.getD_eq_getElem?_getD, List.getElem?_eq_getElem ha]

theorem snap_get_ge {i a : Nat} {comp0 : List pc_price_comp_t} (h : i ≤ a) (hi : i ≤ comp0.length) :
    (snap i comp0)[a]? = comp0[a]? := by
  unfold snap
  rw [List.getElem?_append_right (by simp; omega)]
  simp [List.getElem?_drop, Nat.min_eq_left hi]
  congr 1; omega

theorem snap_succ {i : Nat} {comp0 : List pc_price_comp_t} {c : pc_price_comp_t}
    (hc : comp0[i]? = some c) :
    (snap i comp0).set i { c with agg_ := c.latest_ } = snap (i + 1) comp0 := by
  have hi : i < comp0.length := by
    rcases Nat.lt_or_ge i comp0.length with h | h
    · exact h
    · rw [List.getElem?_eq_none h] at hc; cases hc
  apply List.ext_getElem?
  intro a
  rw [List.getElem?_set]
  by_cases h : i = a
  · subst h
    simp only [if_true, snap_length, hi]
    rw [snap_get_lt (Nat.lt_succ_self i) hi]
    simp [snapshot, List.getD_eq_getElem?_getD, hc]
  · simp only [h, if_false]
    rcases Nat.lt_or_ge a i with h1 | h1
    · rw [snap_get_lt h1 (by omega), snap_get_lt (by omega) (by omega)]
    · rw [snap_get_ge h1 (by omega), snap_get_ge (by omega) (by omega)]

theorem aidx_shift_spec (comp_ : List pc_price_comp_t) (ipx : Int) (px : Nat → Int) :
    ∀ (L : List Nat) (r0 : Nat) (rest : List Nat),
      (∀ a ∈ L, ∃ c, comp_[a]? = some c ∧ c.agg_.price_ = px a) →
      ∃ P S x, L = P ++ S ∧ (∀ a ∈ S, px a > ipx) ∧ (∀ p, P.getLast? = some p → px p ≤ ipx) ∧
        aidx_shift comp_ ipx L.length (L ++ r0 :: rest) = some (P.length, P ++ x :: (S ++ rest)) := by
  intro L
  induction L using List.reverseRecOn with
  | nil =>
    intro r0 rest _
    exact ⟨[], [], r0, rfl, by simp, by simp, by simp [aidx_shift]⟩
  | append_singleton L s ih =>
    intro r0 rest h
    obtain ⟨c, hc, hpx⟩ := h s (by simp)
    have hget : (L ++ [s] ++ r0 :: rest)[L.length]? = some s := by
      rw [List.append_assoc, List.getElem?_append_right (Nat.le_refl _)]
      simp
    rw [List.length_append, List.length_singleton]
    simp only [aidx_shift, hget, hc]
    by_cases hgt : c.agg_.price_ > ipx
    · have hlen : L.length + 1 < (L ++ [s] ++ r0 :: rest).length := by simp
      have hset : (L ++ [s] ++ r0 :: rest).set (L.length + 1) s = L ++ s :: s :: rest := by
        simp [List.set_append]
      simp only [hgt, if_true, hlen, hset]
      obtain ⟨P, S, x, hL, hS, hP, hres⟩ := ih s (s :: rest) (fun a ha => h a (by simp [ha]))
      refine ⟨P, S ++ [s], x, by simp [hL], ?_, hP, ?_⟩
      · intro a ha
        rcases List.mem_append.1 ha with ha | ha
        · exact hS a ha
        · simp at ha; subst ha; rw [← hpx]; exact hgt
      · rw [hres]; simp
    · simp only [hgt, if_false]
      refine ⟨L ++ [s], [], r0, by simp, by simp, ?_, by simp⟩
      intro p hp
      simp at hp; subst hp; rw [← hpx]; omega

theorem agg_inv_zero (K : oracle_h) (slot : Nat) (comp0 : List pc_price_comp_t) :
    agg_inv K slot comp0 0 [] :=
  ⟨by simp, by simp, List.Pairwise.nil, by simp⟩

theorem agg_inv_skip {K : oracle_h} {slot : Nat} {comp0 : List pc_price_comp_t} {i : Nat}
    {L : List Nat} {c : pc_price_comp_t} (hc : comp0[i]? = some c)
    (hno : contributes K slot c = false) (h : agg_inv K slot comp0 i L) :
    agg_inv K slot comp0 (i + 1) L := by
  have hci : comp_at comp0 i = c := by simp [comp_at, List.getD_eq_getElem?_getD, hc]
  refine ⟨?_, ?_, h.sorted, by have := h.len; omega⟩
  · intro a
    rw [h.mem a]
    constructor
    · rintro ⟨h1, h2⟩; exact ⟨by omega, h2⟩
    · rintro ⟨h1, h2⟩
      refine ⟨?_, h2⟩
      rcases Nat.lt_or_ge a i with h3 | h3
      · exact h3
      · have : a = i := by omega
        subst this; rw [hci, hno] at h2; cases h2
  · rw [List.take_succ, hc, List.filter_append]
    simpa [hno] using h.perm

theorem agg_inv_insert {K : oracle_h} {slot : Nat} {comp0 : List pc_price_comp_t} {i : Nat}
    {P S : List Nat} {c : pc_price_comp_t} (hc : comp0[i]? = some c)
    (hyes : contributes K slot c = true) (h : agg_inv K slot comp0 i (P ++ S))
    (hS : ∀ a ∈ S, latest_px comp0 a > c.latest_.price_)
    (hP : ∀ p, P.getLast? = some p → latest_px comp0 p ≤ c.latest_.price_) :
    agg_inv K slot comp0 (i + 1) (P ++ i :: S) := by
  have hci : comp_at comp0 i = c := by simp [comp_at, List.getD_eq_getElem?_getD, hc]
  have hpi : latest_px comp0 i = c.latest_.price_ := by simp [latest_px, hci]
  have hlt : ∀ a ∈ P ++ S, a < i := fun a ha => ((h.mem a).1 ha).1
  have hsorted := h.sorted
  rw [List.pairwise_append] at hsorted
  obtain ⟨hPs, hSs, hPS⟩ := hsorted
  have hPall : ∀ p ∈ P, latest_px comp0 p ≤ c.latest_.price_ := by
    intro p hp
    rcases List.eq_nil_or_concat P with hnil | ⟨P1, q, hq⟩
    · subst hnil; cases hp
    · subst hq
      have hq1 := hP q (by simp)
      rw [List.concat_eq_append] at hp hPs
      rcases List.mem_append.1 hp with hp1 | hp1
      · rw [List.pairwise_append] at hPs
        have := hPs.2.2 p hp1 q (by simp)
        rcases this with h1 | ⟨h1, _⟩ <;> omega
      · simp at hp1; subst hp1; exact hq1
  refine ⟨?_, ?_, ?_, ?_⟩
  · intro a
    have hm := h.mem a
    simp only [List.mem_append, List.mem_cons] at hm ⊢
    constructor
    · rintro (h1 | h1 | h1)
      · have := hm.1 (Or.inl h1); exact ⟨by omega, this.2⟩
      · subst h1; exact ⟨by omega, by rw [hci]; exact hyes⟩
      · have := hm.1 (Or.inr h1); exact ⟨by omega, this.2⟩
    · rintro ⟨h1, h2⟩
      rcases Nat.lt_or_ge a i with h3 | h3
      · rcases hm.2 ⟨h3, h2⟩ with h4 | h4
        · exact Or.inl h4
        · exact Or.inr (Or.inr h4)
      · exact Or.inr (Or.inl (by omega))
  · rw [List.take_succ, hc, List.filter_append]
    simp only [Option.toList, List.filter_cons, hyes, if_true, List.filter_nil, List.map_append,
      List.map_cons, hci]
    have h1 := h.perm
    rw [List.map_append] at h1
    exact (List.perm_middle.trans (List.Perm.cons c h1)).trans
      (List.perm_append_singleton c _).symm
  · rw [List.pairwise_append]
    refine ⟨hPs, ?_, ?_⟩
    · rw [List.pairwise_cons]
      refine ⟨?_, hSs⟩
      intro s hs
      left; rw [hpi]; exact hS s hs
    · intro p hp b hb
      rcases List.mem_cons.1 hb with hb | hb
      · subst hb
        have h1 := hPall p hp
        have h2 := hlt p (List.mem_append_left _ hp)
        rw [← hpi] at h1
        rcases lt_or_eq_of_le h1 with h3 | h3
        · exact Or.inl h3
        · exact Or.inr ⟨h3, h2⟩
      · exact hPS p hp b hb
  · have := h.len
    simp only [List.length_append, List.length_cons] at this ⊢
    omega

theorem agg_loop_spec (K : oracle_h) (slot : Nat) (comp0 : List pc_price_comp_t) :
    ∀ (n i : Nat) (L rest : List Nat), i + n ≤ comp0.length → i + n < 2 ^ 31 →
      comp0.length ≤ (L ++ rest).length → agg_inv K slot comp0 i L →
      ∃ L1 rest1, agg_loop K slot n i (snap i comp0) (L ++ rest) L.length
          = some (snap (i + n) comp0, L1 ++ rest1, L1.length) ∧
        agg_inv K slot comp0 (i + n) L1 := by
  intro n
  induction n with
  | zero =>
    intro i L rest _ _ _ h
    exact ⟨L, rest, by simp [agg_loop], h⟩
  | succ n ih =>
    intro i L rest hi h31 hlen h
    have hi1 : i < comp0.length := by omega
    have hc : comp0[i]? = some comp0[i] := List.getElem?_eq_getElem hi1
    have hget : (snap i comp0)[i]? = some comp0[i] := by
      rw [snap_get_ge (Nat.le_refl i) (by omega), hc]
    have hcond : (comp0[i].latest_.status_ == K.PC_STATUS_TRADING &&
        comp0[i].latest_.pub_slot_ == slot - 1) = contributes K slot comp0[i] := rfl
    simp only [agg_loop, hget, snap_succ hc, hcond]
    have hidx : i + 1 + n = i + (n + 1) := by omega
    by_cases hyes : contributes K slot comp0[i] = true
    · have hnuma31 : L.length + 1 < 2 ^ 31 := by have := h.len; omega
      simp only [hyes, if_true, hnuma31]
      have hrest : rest ≠ [] := by
        intro h0; subst h0
        have := h.len
        simp at hlen; omega
      obtain ⟨r0, rest0, hr⟩ := List.exists_cons_of_ne_nil hrest
      subst hr
      obtain ⟨P, S, x, hL, hS, hP, hres⟩ := aidx_shift_spec (snap (i + 1) comp0)
        comp0[i].latest_.price_ (latest_px comp0) L r0 rest0 (by
          intro a ha
          have ha1 := ((h.mem a).1 ha).1
          exact ⟨_, snap_get_lt (by omega) (by omega), rfl⟩)
      subst hL
      have hinv := agg_inv_insert hc hyes h hS hP
      have hj : P.length < (P ++ x :: (S ++ rest0)).length := by simp
      have hset : (P ++ x :: (S ++ rest0)).set P.length i = (P ++ i :: S) ++ rest0 := by
        simp [List.set_append]
      have hnuma : (P ++ S).length + 1 = (P ++ i :: S).length := by simp; omega
      simp only [hres, hj, if_true, hset, hnuma]
      have hlen1 : comp0.length ≤ ((P ++ i :: S) ++ rest0).length := by
        simp at hlen ⊢; omega
      obtain ⟨L1, rest1, h1, h2⟩ := ih (i + 1) (P ++ i :: S) rest0 (by omega) (by omega) hlen1
        hinv
      rw [hidx] at h1 h2
      exact ⟨L1, rest1, h1, h2⟩
    · have hno : contributes K slot comp0[i] = false := by simpa using hyes
      simp only [hno, Bool.false_eq_true, if_false]
      obtain ⟨L1, rest1, h1, h2⟩ := ih (i + 1) L rest (by omega) (by omega) hlen
        (agg_inv_skip hc hno h)
      rw [hidx] at h1 h2
      exact ⟨L1, rest1, h1, h2⟩

theorem aidx_read {K : oracle_h} {slot : Nat} {comp0 : List pc_price_comp_t} {n : Nat}
    {L : List Nat} (rest : List Nat) (h : agg_inv K slot comp0 n L) (hn : n ≤ comp0.length) {k : Nat}
    (hk : k < L.length) :
    (L ++ rest)[k]? = some (L.getD k 0) ∧
      (snap n comp0)[L.getD k 0]? = some (snapshot (comp_at comp0 (L.getD k 0))) := by
  have h1 : (L ++ rest)[k]? = some (L.getD k 0) := by
    rw [List.getElem?_append_left hk, List.getD_eq_getElem?_getD, List.getElem?_eq_getElem hk]
    rfl
  refine ⟨h1, ?_⟩
  have hmem : L.getD k 0 ∈ L := by
    rw [List.getD_eq_getElem?_getD, List.getElem?_eq_getElem hk]
    exact List.getElem_mem hk
  have := ((h.mem _).1 hmem).1
  exact snap_get_lt this (by omega)

theorem upd_aggregate_spec (K : oracle_h) (ptr : pc_price_t) (kptr : pc_pub_key_t) (slot : Nat)
    (hslot : ptr.curr_slot_ < slot) (hnum : ptr.num_ ≤ K.PC_COMP_SIZE)
    (hlen : ptr.comp_.length = K.PC_COMP_SIZE) (h31 : ptr.num_ < 2 ^ 31) :
    ∃ L, agg_inv K slot ptr.comp_ ptr.num_ L ∧
      upd_aggregate K ptr kptr slot = some (aggregated K ptr kptr slot L) := by
  obtain ⟨L, rest, hloop, hinv⟩ := agg_loop_spec K slot ptr.comp_ ptr.num_ 0 []
    (List.replicate K.PC_COMP_SIZE 0) (by omega) (by omega) (by simp [hlen])
    (agg_inv_zero K slot ptr.comp_)
  simp only [snap_zero, List.nil_append, List.length_nil, Nat.zero_add] at hloop hinv
  refine ⟨L, hinv, ?_⟩
  have hn : ptr.num_ ≤ ptr.comp_.length := by omega
  unfold upd_aggregate
  simp only [Nat.not_le.2 hslot, if_false, hloop]
  by_cases h0 : L.length = 0
  · simp [h0, aggregated, median_info]
  · have hmid : L.length / 2 < L.length := Nat.div_lt_self (by omega) (by decide)
    obtain ⟨r1, r2⟩ := aidx_read rest hinv hn hmid
    have hb : (L.length == 0) = false := by simpa using h0
    simp only [hb, Bool.false_eq_true, if_false, r1, r2]
    by_cases hev : (L.length / 2 != 0 && L.length % 2 == 0) = true
    · have hmid1 : L.length / 2 - 1 < L.length := by omega
      obtain ⟨r3, r4⟩ := aidx_read rest hinv hn hmid1
      simp only [hev, if_true, r3, r4]
      simp [aggregated, median_info, h0, hev, snapshot]
    · simp only [hev]
      simp [aggregated, median_info, h0, hev, snapshot]

theorem map_getD_lt {α : Type} (f : Nat → α) (L : List Nat) (d : α) {k : Nat} (hk : k < L.length) :
    (L.map f).getD k d = f (L.getD k 0) := by
  simp [List.getD_eq_getElem?_getD, List.getElem?_map, List.getElem?_eq_getElem hk]

theorem agg_inv_prices {K : oracle_h} {slot : Nat} {ptr : pc_price_t} {L : List Nat}
    (h : agg_inv K slot ptr.comp_ ptr.num_ L) {p : List Int} (hs : p.Sorted (· ≤ ·))
    (hp : p.Perm (contributing_prices K ptr slot)) : p = L.map (latest_px ptr.comp_) := by
  have h1 : (L.map (latest_px ptr.comp_)).Perm (contributing_prices K ptr slot) := by
    have := h.perm.map (fun c => c.latest_.price_)
    rw [List.map_map] at this
    exact this
  have h2 : (L.map (latest_px ptr.comp_)).Sorted (· ≤ ·) := by
    unfold List.Sorted
    rw [List.pairwise_map]
    refine h.sorted.imp ?_
    intro a b hab
    rcases hab with h3 | ⟨h3, _⟩ <;> omega
  exact List.eq_of_perm_of_sorted (hp.trans h1.symm) hs h2

theorem wrap_i64_id {x : Int} (h1 : -2 ^ 63 ≤ x) (h2 : x < 2 ^ 63) : wrap_i64 x = x := by
  unfold wrap_i64
  omega

/-- C1: the aggregate price is the median of the contributing prices: the middle one of the
ascending prices for an odd count, the mean of the two central ones, truncated toward zero, for
an even count when their sum fits in an `int64_t`; the aggregate status is TRADING. -/
theorem C1_median_price (K : oracle_h) (ptr : pc_price_t) (kptr : pc_pub_key_t) (slot : Nat)
    (hK : K.PC_COMP_SIZE < 2 ^ 31)
    (hnum : ptr.num_ ≤ K.PC_COMP_SIZE) (hlen : ptr.comp_.length = K.PC_COMP_SIZE)
    (hslot : slot > ptr.curr_slot_)
    (p : List Int) (hs : p.Sorted (· ≤ ·)) (hp : p.Perm (contributing_prices K ptr slot))
    (hnuma : p.length ≥ 1) :
    ∃ r, upd_aggregate K ptr kptr slot = some r ∧
      r.agg_.status_ = K.PC_STATUS_TRADING ∧
      (p.length % 2 = 1 → r.agg_.price_ = p.getD (p.length / 2) 0) ∧
      (p.length % 2 = 0 →
        -2 ^ 63 ≤ p.getD (p.length / 2 - 1) 0 + p.getD (p.length / 2) 0 →
        p.getD (p.length / 2 - 1) 0 + p.getD (p.length / 2) 0 < 2 ^ 63 →
        r.agg_.price_ = Int.tdiv (p.getD (p.length / 2 - 1) 0 + p.getD (p.length / 2) 0) 2) := by
  obtain ⟨L, hinv, hres⟩ := upd_aggregate_spec K ptr kptr slot hslot hnum hlen (by omega)
  have hpL := agg_inv_prices hinv hs hp
  subst hpL
  rw [List.length_map] at hnuma ⊢
  have h0 : L.length ≠ 0 := by omega
  have hmid : L.length / 2 < L.length := Nat.div_lt_self (by omega) (by decide)
  refine ⟨_, hres, ?_, ?_, ?_⟩
  · simp only [aggregated, median_info, h0, if_false]
    split <;> rfl
  · intro hodd
    have hev : (L.length / 2 != 0 && L.length % 2 == 0) = false := by simp [hodd]
    rw [map_getD_lt _ _ _ hmid]
    simp [aggregated, median_info, h0, hev, latest_px]
  · intro heven
    have hmid0 : L.length / 2 ≠ 0 := by omega
    have hmid1 : L.length / 2 - 1 < L.length := by omega
    have hev : (L.length / 2 != 0 && L.length % 2 == 0) = true := by simp [heven, hmid0]
    rw [map_getD_lt _ _ _ hmid, map_getD_lt _ _ _ hmid1]
    intro hlo hhi
    simp only [aggregated, median_info, h0, hev, if_false, if_true]
    rw [Int.add_comm]
    show (wrap_i64 (latest_px ptr.comp_ (L.getD (L.length / 2 - 1) 0) +
      latest_px ptr.comp_ (L.getD (L.length / 2) 0))).tdiv 2 = _
    rw [wrap_i64_id hlo hhi]

theorem stable_lt_asymm (comp0 : List pc_price_comp_t) (a b : Nat)
    (h1 : stable_lt comp0 a b) (h2 : stable_lt comp0 b a) : False := by
  unfold stable_lt at h1 h2
  omega

theorem stable_sorted_unique {comp0 : List pc_price_comp_t}
    {L1 L2 : List Nat} (h1 : ∀ a, a ∈ L1 ↔ a ∈ L2) (s1 : L1.Pairwise (stable_lt comp0))
    (s2 : L2.Pairwise (stable_lt comp0)) : L1 = L2 := by
  have n1 : L1.Nodup := s1.imp (fun {a b} hab heq => by
    subst heq; exact stable_lt_asymm comp0 a a hab hab)
  have n2 : L2.Nodup := s2.imp (fun {a b} hab heq => by
    subst heq; exact stable_lt_asymm comp0 a a hab hab)
  have hperm : L1.Perm L2 := (List.perm_ext_iff_of_nodup n1 n2).2 h1
  haveI : IsAntisymm Nat (stable_lt comp0) :=
    ⟨fun a b hab hba => (stable_lt_asymm comp0 a b hab hba).elim⟩
  exact List.eq_of_perm_of_sorted hperm s1 s2

theorem snap_latest (n : Nat) (comp0 : List pc_price_comp_t) (i : Nat) :
    (comp_at (snap n comp0) i).latest_ = (comp_at comp0 i).latest_ := by
  unfold comp_at
  rw [List.getD_eq_getElem?_getD, List.getD_eq_getElem?_getD]
  rcases Nat.lt_or_ge i comp0.length with hi | hi
  · rcases Nat.lt_or_ge i n with h | h
    · rw [snap_get_lt h hi, List.getD_eq_getElem?_getD, List.getElem?_eq_getElem hi]
      rfl
    · rcases Nat.le_total n comp0.length with hn | hn
      · rw [snap_get_ge h hn]
      · omega
  · rw [List.getElem?_eq_none hi, List.getElem?_eq_none (by rw [snap_length]; exact hi)]

theorem same_but_stale_at {K : oracle_h} {slot : Nat} {c1 c2 : List pc_price_comp_t}
    (h : List.Forall₂ (same_but_stale K slot) c1 c2) :
    ∀ i, same_but_stale K slot (comp_at c1 i) (comp_at c2 i) := by
  induction h with
  | nil => intro i; exact ⟨rfl, rfl, rfl, rfl, fun _ => rfl⟩
  | cons hab _ ih =>
    intro i
    cases i with
    | zero => exact hab
    | succ i => exact ih i

theorem contributes_congr {K : oracle_h} {slot : Nat} {c1 c2 : pc_price_comp_t}
    (h : same_but_stale K slot c1 c2) : contributes K slot c2 = contributes K slot c1 := by
  obtain ⟨_, _, h3, h4, _⟩ := h
  simp [contributes, h3, h4]

theorem median_info_congr {K : oracle_h} {slot : Nat} {c1 c2 : List pc_price_comp_t}
    (agg0 : pc_price_info_t) {L : List Nat}
    (h : ∀ a ∈ L, (comp_at c1 a).latest_ = (comp_at c2 a).latest_) :
    median_info K c1 agg0 slot L = median_info K c2 agg0 slot L := by
  have hk : ∀ k, k < L.length → (comp_at c1 (L.getD k 0)).latest_ = (comp_at c2 (L.getD k 0)).latest_ := by
    intro k hk
    apply h
    rw [List.getD_eq_getElem?_getD, List.getElem?_eq_getElem hk]
    exact List.getElem_mem hk
  unfold median_info
  by_cases h0 : L.length = 0
  · simp [h0]
  · have hmid : L.length / 2 < L.length := Nat.div_lt_self (by omega) (by decide)
    have hmid1 : L.length / 2 - 1 < L.length := by omega
    simp only [h0, if_false, hk _ hmid, hk _ hmid1]

theorem stale_quotes_ignored (K : oracle_h) (p1 : pc_price_t) (c2 : List pc_price_comp_t)
    (kptr : pc_pub_key_t) (slot : Nat) (hK : K.PC_COMP_SIZE < 2 ^ 31)
    (hnum : p1.num_ ≤ K.PC_COMP_SIZE) (hlen : p1.comp_.length = K.PC_COMP_SIZE)
    (hslot : slot > p1.curr_slot_)
    (hsame : List.Forall₂ (same_but_stale K slot) p1.comp_ c2) :
    ∃ r1 r2, upd_aggregate K p1 kptr slot = some r1 ∧
      upd_aggregate K { p1 with comp_ := c2 } kptr slot = some r2 ∧
      r1.agg_ = r2.agg_ ∧
      (∀ i, (comp_at r1.comp_ i).latest_ = (comp_at p1.comp_ i).latest_) ∧
      (∀ i, (comp_at r2.comp_ i).latest_ = (comp_at c2 i).latest_) := by
  have hat := same_but_stale_at hsame
  have hlen2 : c2.length = K.PC_COMP_SIZE := by rw [← hsame.length_eq, hlen]
  have h31 : p1.num_ < 2 ^ 31 := by omega
  obtain ⟨L1, hinv1, hres1⟩ := upd_aggregate_spec K p1 kptr slot hslot hnum hlen h31
  obtain ⟨L2, hinv2, hres2⟩ := upd_aggregate_spec K { p1 with comp_ := c2 } kptr slot hslot
    hnum hlen2 h31
  have hlatest : ∀ a ∈ L1, (comp_at p1.comp_ a).latest_ = (comp_at c2 a).latest_ :=
    fun a ha => (hat a).2.2.2.2 ((hinv1.mem a).1 ha).2
  have hmem : ∀ a, a ∈ L1 ↔ a ∈ L2 := by
    intro a
    rw [hinv1.mem a, hinv2.mem a]
    show _ ↔ _ ∧ contributes K slot (comp_at c2 a) = true
    rw [contributes_congr (hat a)]
  have hs2 : L2.Pairwise (stable_lt p1.comp_) := by
    refine List.Pairwise.imp_of_mem ?_ hinv2.sorted
    intro a b ha hb hab
    have e1 := hlatest a ((hmem a).2 ha)
    have e2 := hlatest b ((hmem b).2 hb)
    unfold stable_lt latest_px at hab ⊢
    rw [e1, e2]
    exact hab
  have hL : L1 = L2 := stable_sorted_unique hmem hinv1.sorted hs2
  subst hL
  refine ⟨_, _, hres1, hres2, ?_, ?_, ?_⟩
  · exact median_info_congr p1.agg_ hlatest
  · intro i; exact snap_latest _ _ i
  · intro i; exact snap_latest _ _ i

theorem stable_sorted_nodup {comp0 : List pc_price_comp_t} {L : List Nat}
    (s : L.Pairwise (stable_lt comp0)) : L.Nodup :=
  s.imp (fun {a b} hab heq => by subst heq; exact stable_lt_asymm comp0 a a hab hab)

theorem stale_publisher_excluded (K : oracle_h) (q : pc_price_t) (cA cB : pc_price_comp_t)
    (tail : List pc_price_comp_t) (kptr : pc_pub_key_t)
    (hcomp : q.comp_ = cA :: cB :: tail) (hnum : q.num_ = 2)
    (hlen : q.comp_.length = K.PC_COMP_SIZE) (hslot : q.curr_slot_ < 42)
    (hA : cA.latest_.pub_slot_ = 40)
    (hB1 : cB.latest_.status_ = K.PC_STATUS_TRADING) (hB2 : cB.latest_.pub_slot_ = 41) :
    ∃ r, upd_aggregate K q kptr 42 = some r ∧ r.agg_.price_ = cB.latest_.price_ ∧
      r.agg_.conf_ = cB.latest_.conf_ ∧ r.agg_.status_ = K.PC_STATUS_TRADING := by
  have hn : q.num_ ≤ K.PC_COMP_SIZE := by
    rw [← hlen, hcomp, hnum]; simp
  obtain ⟨L, hinv, hres⟩ := upd_aggregate_spec K q kptr 42 hslot hn hlen (by omega)
  have h0 : contributes K 42 (comp_at q.comp_ 0) = false := by
    simp [comp_at, hcomp, contributes, hA]
  have h1 : contributes K 42 (comp_at q.comp_ 1) = true := by
    simp [comp_at, hcomp, contributes, hB1, hB2]
  have hmem : ∀ a, a ∈ L ↔ a ∈ [1] := by
    intro a
    rw [hinv.mem a, hnum, List.mem_singleton]
    constructor
    · rintro ⟨ha, hc⟩
      rcases Nat.eq_zero_or_pos a with hz | hz
      · subst hz; rw [h0] at hc; cases hc
      · omega
    · rintro rfl; exact ⟨by omega, h1⟩
  have hL : L = [1] :=
    List.perm_singleton.1
      ((List.perm_ext_iff_of_nodup (stable_sorted_nodup hinv.sorted) (List.nodup_singleton 1)).2 hmem)
  subst hL
  refine ⟨_, hres, ?_, ?_, ?_⟩ <;>
    simp [aggregated, median_info, comp_at, hcomp]

/-- C2: the latest price and confidence of components that do not contribute (status not
TRADING, or not published in the previous slot) do not influence the aggregate, and
`upd_aggregate` leaves the latest quote of every component as it was; with A's quote from
slot 40 and B's from slot 41, the aggregation at slot 42 yields B's price and confidence. -/
theorem C2_stale_quotes_ignored (K : oracle_h) (p1 : pc_price_t) (c2 : List pc_price_comp_t)
    (kptr : pc_pub_key_t) (slot : Nat) (hK : K.PC_COMP_SIZE < 2 ^ 31)
    (hnum : p1.num_ ≤ K.PC_COMP_SIZE) (hlen : p1.comp_.length = K.PC_COMP_SIZE)
    (hslot : slot > p1.curr_slot_)
    (hsame : List.Forall₂ (same_but_stale K slot) p1.comp_ c2) :
    (∃ r1 r2, upd_aggregate K p1 kptr slot = some r1 ∧
      upd_aggregate K { p1 with comp_ := c2 } kptr slot = some r2 ∧
      r1.agg_ = r2.agg_ ∧
      (∀ i, (comp_at r1.comp_ i).latest_ = (comp_at p1.comp_ i).latest_) ∧
      (∀ i, (comp_at r2.comp_ i).latest_ = (comp_at c2 i).latest_)) ∧
    (∀ (q : pc_price_t) (cA cB : pc_price_comp_t) (tail : List pc_price_comp_t),
      q.comp_ = cA :: cB :: tail → q.num_ = 2 → q.comp_.length = K.PC_COMP_SIZE →
      q.curr_slot_ < 42 → cA.latest_.pub_slot_ = 40 →
      cB.latest_.status_ = K.PC_STATUS_TRADING → cB.latest_.pub_slot_ = 41 →
      ∃ r, upd_aggregate K q kptr 42 = some r ∧ r.agg_.price_ = cB.latest_.price_ ∧
        r.agg_.conf_ = cB.latest_.conf_ ∧ r.agg_.status_ = K.PC_STATUS_TRADING) :=
  ⟨stale_quotes_ignored K p1 c2 kptr slot hK hnum hlen hslot hsame,
    fun q cA cB tail h1 h2 h3 h4 h5 h6 h7 =>
      stale_publisher_excluded K q cA cB tail kptr h1 h2 h3 h4 h5 h6 h7⟩

theorem pc_pub_key_equal_iff (a b : pc_pub_key_t) : pc_pub_key_equal a b = true ↔ a = b := by
  cases a; cases b
  simp [pc_pub_key_equal, and_assoc]

theorem upd_price_find_spec (k : pc_pub_key_t) (comp_ : List pc_price_comp_t) :
    ∀ (n i r : Nat), upd_price_find k comp_ n i = some r →
      i ≤ r ∧ r ≤ i + n ∧ (r < i + n → ∃ c, comp_[r]? = some c ∧ c.pub_ = k) ∧
      (∀ j, i ≤ j → j < r → ∃ c, comp_[j]? = some c ∧ c.pub_ ≠ k) := by
  intro n
  induction n with
  | zero =>
    intro i r h
    simp only [upd_price_find, Option.some.injEq] at h
    subst h
    exact ⟨Nat.le_refl _, by omega, by omega, by omega⟩
  | succ n ih =>
    intro i r h
    simp only [upd_price_find] at h
    split at h
    · cases h
    · rename_i c hc
      split at h
      · rename_i heq
        simp only [Option.some.injEq] at h
        subst h
        exact ⟨Nat.le_refl _, by omega, fun _ => ⟨c, hc, ((pc_pub_key_equal_iff _ _).1 heq).symm⟩,
          by omega⟩
      · rename_i hne
        obtain ⟨h1, h2, h3, h4⟩ := ih (i + 1) r h
        refine ⟨by omega, by omega, fun hr => h3 (by omega), ?_⟩
        intro j hj1 hj2
        rcases Nat.eq_or_lt_of_le hj1 with e | e
        · subst e
          refine ⟨c, hc, ?_⟩
          intro hk
          exact hne ((pc_pub_key_equal_iff _ _).2 hk.symm)
        · exact h4 j (by omega) hj2

/-- The fields that `upd_aggregate` writes besides the median. -/
theorem upd_aggregate_window {K : oracle_h} {ptr q : pc_price_t} {kptr : pc_pub_key_t}
    {slot : Nat} (hs : ptr.curr_slot_ < slot) (h : upd_aggregate K ptr kptr slot = some q) :
    q.valid_slot_ = ptr.curr_slot_ ∧ q.curr_slot_ = slot ∧ q.agg_.pub_slot_ = slot ∧
      q.agg_pub_ = kptr ∧ q.num_ = ptr.num_ := by
  unfold upd_aggregate at h
  simp only [Nat.not_le.2 hs, if_false] at h
  split at h
  · cases h
  · split at h
    · cases h; simp
    · split at h
      · cases h
      · split at h
        · cases h
        · split at h
          · split at h
            · cases h
            · split at h
              · cases h
              · cases h; simp
          · cases h; simp

theorem error_ne_success {α : Type} {x y : α} :
    ¬ (some (ERROR_INVALID_ARGUMENT, x) = some (SUCCESS, y)) := by
  intro h
  have h1 := congrArg (Option.map Prod.fst) h
  simp [ERROR_INVALID_ARGUMENT, SUCCESS] at h1

/-- What a successful `upd_price` did: it found the caller at index `i`, aggregated when
the slot advanced, and wrote the caller's latest quote for command `upd_price`. -/
theorem upd_price_success {K : oracle_h} {prm : SolParameters cmd_upd_price_t}
    {ka0 : SolAccountInfo Unit} {ka1 : SolAccountInfo pc_price_t}
    {ka2 : SolAccountInfo sysvar_clock_t} {p1 : pc_price_t}
    (h : upd_price K prm ka0 ka1 ka2 = some (SUCCESS, p1)) :
    ∃ i q, upd_price_find ka0.key ka1.data.comp_ ka1.data.num_ 0 = some i ∧
      i ≠ ka1.data.num_ ∧
      (if ka2.data.slot_ > ka1.data.curr_slot_ then
          upd_aggregate K ka1.data ka0.key ka2.data.slot_
        else some ka1.data) = some q ∧
      ((prm.data.cmd_ = K.e_cmd_upd_price ∧ ∃ c, q.comp_[i]? = some c ∧
          p1 = { q with comp_ := q.comp_.set i { c with latest_ :=
            ⟨prm.data.price_, prm.data.conf_, prm.data.status_, ka2.data.slot_⟩ } }) ∨
        (prm.data.cmd_ ≠ K.e_cmd_upd_price ∧ p1 = q)) := by
  unfold upd_price at h
  dsimp only at h
  split at h
  · exact (error_ne_success h).elim
  · split at h
    · exact (error_ne_success h).elim
    · split at h
      · exact (error_ne_success h).elim
      · split at h
        · cases h
        · rename_i i hfind
          split at h
          · exact (error_ne_success h).elim
          · rename_i hne
            split at h
            · cases h
            · rename_i q hq
              refine ⟨i, q, hfind, by simpa using hne, hq, ?_⟩
              split at h
              · rename_i hcmd
                split at h
                · cases h
                · rename_i c hc
                  left
                  simp only [Option.some.injEq, Prod.mk.injEq, true_and] at h
                  exact ⟨by simpa using hcmd, c, hc, h.symm⟩
              · rename_i hcmd
                right
                simp only [Option.some.injEq, Prod.mk.injEq, true_and] at h
                exact ⟨by simpa using hcmd, h.symm⟩

theorem comp_at_set (comp_ : List pc_price_comp_t) (i j : Nat) (x : pc_price_comp_t) :
    comp_at (comp_.set i x) j = if i = j ∧ i < comp_.length then x else comp_at comp_ j := by
  unfold comp_at
  rw [List.getD_eq_getElem?_getD, List.getD_eq_getElem?_getD, List.getElem?_set]
  by_cases h : i = j
  · subst h
    by_cases h1 : i < comp_.length
    · simp [h1]
    · simp [h1, List.getElem?_eq_none (Nat.le_of_not_lt h1)]
  · simp [h]

theorem set_latest_self {comp_ : List pc_price_comp_t} {i : Nat} {c : pc_price_comp_t}
    (hc : comp_[i]? = some c) : comp_.set i { c with latest_ := c.latest_ } = comp_ := by
  apply List.ext_getElem?
  intro j
  rw [List.getElem?_set]
  by_cases h : i = j
  · subst h
    have hi : i < comp_.length := by
      rcases Nat.lt_or_ge i comp_.length with h | h
      · exact h
      · rw [List.getElem?_eq_none h] at hc; cases hc
    rw [if_pos rfl, if_pos hi, hc]
  · simp [h]

/-- C3: a successful `upd_price` / `agg_price` call whose clock slot is greater than
`curr_slot_` shifts the slot window: `valid_slot_` becomes the old `curr_slot_`,
`curr_slot_` and `agg_.pub_slot_` become the clock slot, `agg_pub_` the funder's key, so
`valid_slot_ < curr_slot_`; and no successful call decreases `curr_slot_`. -/
theorem C3_slot_window_shift (K : oracle_h) (prm : SolParameters cmd_upd_price_t)
    (ka0 : SolAccountInfo Unit) (ka1 : SolAccountInfo pc_price_t)
    (ka2 : SolAccountInfo sysvar_clock_t) (p1 : pc_price_t)
    (h : upd_price K prm ka0 ka1 ka2 = some (SUCCESS, p1)) :
    (ka2.data.slot_ > ka1.data.curr_slot_ →
      p1.valid_slot_ = ka1.data.curr_slot_ ∧ p1.curr_slot_ = ka2.data.slot_ ∧
      p1.agg_.pub_slot_ = ka2.data.slot_ ∧ p1.agg_pub_ = ka0.key ∧
      p1.valid_slot_ < p1.curr_slot_) ∧
    ka1.data.curr_slot_ ≤ p1.curr_slot_ := by
  obtain ⟨i, q, _, _, hq, hp⟩ := upd_price_success h
  have hfields : p1.valid_slot_ = q.valid_slot_ ∧ p1.curr_slot_ = q.curr_slot_ ∧
      p1.agg_ = q.agg_ ∧ p1.agg_pub_ = q.agg_pub_ := by
    rcases hp with ⟨_, c, _, e⟩ | ⟨_, e⟩ <;> subst e <;> exact ⟨rfl, rfl, rfl, rfl⟩
  obtain ⟨f1, f2, f3, f4⟩ := hfields
  by_cases hs : ka2.data.slot_ > ka1.data.curr_slot_
  · simp only [hs, if_true] at hq
    obtain ⟨w1, w2, w3, w4, _⟩ := upd_aggregate_window hs hq
    refine ⟨fun _ => ⟨by rw [f1, w1], by rw [f2, w2], by rw [f3, w3], by rw [f4, w4], ?_⟩, ?_⟩
    · rw [f1, f2, w1, w2]; exact hs
    · rw [f2, w2]; exact Nat.le_of_lt hs
  · simp only [hs, if_false, Option.some.injEq] at hq
    subst hq
    exact ⟨fun h1 => (hs h1).elim, by rw [f2]⟩

/-- C4: a successful `upd_price` / `agg_price` call whose clock slot is not greater than
`curr_slot_` leaves `agg_`, `agg_pub_`, `valid_slot_`, `curr_slot_`, `num_` and every
component's `agg_` and `pub_` unchanged: the account changes at most in the latest quote
of the calling publisher's component, and not at all for command `agg_price`. -/
theorem C4_no_reaggregation_within_slot (K : oracle_h) (prm : SolParameters cmd_upd_price_t)
    (ka0 : SolAccountInfo Unit) (ka1 : SolAccountInfo pc_price_t)
    (ka2 : SolAccountInfo sysvar_clock_t) (p1 : pc_price_t)
    (h : upd_price K prm ka0 ka1 ka2 = some (SUCCESS, p1))
    (hslot : ka2.data.slot_ ≤ ka1.data.curr_slot_) :
    p1.agg_ = ka1.data.agg_ ∧ p1.agg_pub_ = ka1.data.agg_pub_ ∧
    p1.valid_slot_ = ka1.data.valid_slot_ ∧ p1.curr_slot_ = ka1.data.curr_slot_ ∧
    p1.num_ = ka1.data.num_ ∧
    (∀ j, (comp_at p1.comp_ j).agg_ = (comp_at ka1.data.comp_ j).agg_ ∧
      (comp_at p1.comp_ j).pub_ = (comp_at ka1.data.comp_ j).pub_) ∧
    (∃ i c f, i < ka1.data.num_ ∧ ka1.data.comp_[i]? = some c ∧ c.pub_ = ka0.key ∧
      p1 = { ka1.data with comp_ := ka1.data.comp_.set i { c with latest_ := f } }) ∧
    (prm.data.cmd_ ≠ K.e_cmd_upd_price → p1 = ka1.data) ∧
    (prm.data.cmd_ = K.e_cmd_agg_price → K.e_cmd_agg_price ≠ K.e_cmd_upd_price →
      p1 = ka1.data) := by
  obtain ⟨i, q, hfind, hne, hq, hp⟩ := upd_price_success h
  simp only [gt_iff_lt, Nat.not_lt.2 hslot, if_false, Option.some.injEq] at hq
  subst hq
  obtain ⟨_, hle, hfound, _⟩ := upd_price_find_spec _ _ _ _ _ hfind
  have hi : i < ka1.data.num_ := by omega
  obtain ⟨c, hc, hkey⟩ := hfound (by omega)
  have hform : ∃ f, p1 = { ka1.data with comp_ := ka1.data.comp_.set i { c with latest_ := f } } := by
    rcases hp with ⟨_, c1, hc1, e⟩ | ⟨_, e⟩
    · rw [hc] at hc1
      cases hc1
      exact ⟨_, e⟩
    · refine ⟨c.latest_, ?_⟩
      rw [set_latest_self hc]
      exact e
  obtain ⟨f, hf⟩ := hform
  have hagg : prm.data.cmd_ ≠ K.e_cmd_upd_price → p1 = ka1.data := by
    intro hcmd
    rcases hp with ⟨e, _⟩ | ⟨_, e⟩
    · exact (hcmd e).elim
    · exact e
  refine ⟨by rw [hf], by rw [hf], by rw [hf], by rw [hf], by rw [hf], ?_,
    ⟨i, c, f, hi, hc, hkey, hf⟩, hagg, fun e1 e2 => hagg (by rw [e1]; exact e2)⟩
  intro j
  rw [hf]
  simp only [comp_at_set]
  split
  · rename_i hij
    obtain ⟨hij, _⟩ := hij
    subst hij
    have : comp_at ka1.data.comp_ i = c := by
      simp [comp_at, List.getD_eq_getElem?_getD, hc]
    rw [this]
    exact ⟨rfl, rfl⟩
  · exact ⟨rfl, rfl⟩

theorem agg_inv_eq {K : oracle_h} {slot : Nat} {comp0 : List pc_price_comp_t} {n : Nat}
    {L M : List Nat} (h : agg_inv K slot comp0 n L)
    (hM : ∀ a, a ∈ M ↔ a < n ∧ contributes K slot (comp_at comp0 a) = true)
    (hs : M.Pairwise (stable_lt comp0)) : L = M :=
  stable_sorted_unique (fun a => by rw [h.mem a, hM a]) h.sorted hs

theorem upd_price_agg {K : oracle_h} {prm : SolParameters cmd_upd_price_t}
    {ka0 : SolAccountInfo Unit} {ka1 : SolAccountInfo pc_price_t}
    {ka2 : SolAccountInfo sysvar_clock_t} {p1 : pc_price_t}
    (h : upd_price K prm ka0 ka1 ka2 = some (SUCCESS, p1))
    (hs : ka2.data.slot_ > ka1.data.curr_slot_) :
    ∃ q, upd_aggregate K ka1.data ka0.key ka2.data.slot_ = some q ∧ p1.agg_ = q.agg_ ∧
      p1.agg_pub_ = q.agg_pub_ ∧ p1.valid_slot_ = q.valid_slot_ ∧
      p1.curr_slot_ = q.curr_slot_ := by
  obtain ⟨i, q, _, _, hq, hp⟩ := upd_price_success h
  simp only [hs, if_true] at hq
  refine ⟨q, hq, ?_⟩
  rcases hp with ⟨_, c, _, e⟩ | ⟨_, e⟩ <;> subst e <;> exact ⟨rfl, rfl, rfl, rfl⟩

/-- C5 (counterexample): in scenario 3 with confidences 7 (A), 9 (B) and 11 (C), the
aggregate at slot 21 has price 150 and confidence 7, which is not the confidence 9
submitted by B. -/
theorem C5_conf_is_not_of_B :
    (scenario_three 7 9 11).map (fun p => (p.agg_.price_, p.agg_.status_, p.agg_.conf_))
        = some (150, 1, 7) ∧
      (scenario_three 7 9 11).map (fun p => p.agg_.conf_) ≠ some 9 := by
  decide

/-- The confidence written for an even number of contributors: the sum of the two central
confidences is reduced modulo `2^64` before it is halved, so it is their integer average
exactly when the sum is below `2^64`. -/
theorem even_count_confidence (K : oracle_h) (ptr : pc_price_t) (kptr : pc_pub_key_t)
    (slot : Nat) (hK : K.PC_COMP_SIZE < 2 ^ 31)
    (hnum : ptr.num_ ≤ K.PC_COMP_SIZE) (hlen : ptr.comp_.length = K.PC_COMP_SIZE)
    (hslot : slot > ptr.curr_slot_) :
    ∃ L r, agg_inv K slot ptr.comp_ ptr.num_ L ∧ upd_aggregate K ptr kptr slot = some r ∧
      (2 ≤ L.length → L.length % 2 = 0 →
        r.agg_.conf_ =
          ((comp_at ptr.comp_ (L.getD (L.length / 2) 0)).latest_.conf_ +
            (comp_at ptr.comp_ (L.getD (L.length / 2 - 1) 0)).latest_.conf_) % 2 ^ 64 / 2) := by
  obtain ⟨L, hinv, hres⟩ := upd_aggregate_spec K ptr kptr slot hslot hnum hlen (by omega)
  refine ⟨L, _, hinv, hres, ?_⟩
  intro h2 heven
  have h0 : L.length ≠ 0 := by omega
  have hmid0 : L.length / 2 ≠ 0 := by omega
  have hev : (L.length / 2 != 0 && L.length % 2 == 0) = true := by simp [heven, hmid0]
  simp only [aggregated, median_info, h0, hev, if_false, if_true, wrap_u64]

/-- C6 (failing input): two contributors with confidences `2^63` and `2^63`: the
aggregate confidence is 0, because `acf + mptr->conf_` wraps at `2^64`, while the integer
average over the natural numbers is `2^63`. -/
theorem C6_conf_average_wraps :
    (scenario_two_confs (2 ^ 63) (2 ^ 63)).map (fun p => (p.agg_.price_, p.agg_.conf_))
        = some (150, 0) ∧
      (2 ^ 63 + 2 ^ 63) / 2 = 2 ^ 63 := by
  decide

theorem agg_loop_no_contributor (K : oracle_h) (slot : Nat) (comp0 : List pc_price_comp_t)
    (aidx : List Nat) (numa : Nat) :
    ∀ (n i : Nat), i + n ≤ comp0.length →
      (∀ j, i ≤ j → j < i + n → contributes K slot (comp_at comp0 j) = false) →
      agg_loop K slot n i (snap i comp0) aidx numa = some (snap (i + n) comp0, aidx, numa) := by
  intro n
  induction n with
  | zero => intro i _ _; simp [agg_loop]
  | succ n ih =>
    intro i hi hno
    have hi1 : i < comp0.length := by omega
    have hc : comp0[i]? = some comp0[i] := List.getElem?_eq_getElem hi1
    have hget : (snap i comp0)[i]? = some comp0[i] := by
      rw [snap_get_ge (Nat.le_refl i) (by omega), hc]
    have hcond : (comp0[i].latest_.status_ == K.PC_STATUS_TRADING &&
        comp0[i].latest_.pub_slot_ == slot - 1) = false := by
      have := hno i (Nat.le_refl i) (by omega)
      have hat : comp_at comp0 i = comp0[i] := by
        simp [comp_at, List.getD_eq_getElem?_getD, hc]
      rw [hat] at this
      exact this
    simp only [agg_loop, hget, snap_succ hc, hcond, Bool.false_eq_true, if_false]
    rw [ih (i + 1) (by omega) (fun j h1 h2 => hno j (by omega) (by omega))]
    congr 3
    omega

/-- C7: when no component contributes, `upd_aggregate` sets the aggregate status to UNKNOWN
and leaves the aggregate price and confidence as they were. -/
theorem C7_no_contributors (K : oracle_h) (ptr : pc_price_t) (kptr : pc_pub_key_t)
    (slot : Nat)
    (hnum : ptr.num_ ≤ K.PC_COMP_SIZE) (hlen : ptr.comp_.length = K.PC_COMP_SIZE)
    (hslot : slot > ptr.curr_slot_)
    (hnone : ∀ i, i < ptr.num_ → ¬ ((comp_at ptr.comp_ i).latest_.status_ = K.PC_STATUS_TRADING ∧
      (comp_at ptr.comp_ i).latest_.pub_slot_ = slot - 1)) :
    ∃ r, upd_aggregate K ptr kptr slot = some r ∧
      r.agg_.status_ = K.PC_STATUS_UNKNOWN ∧ r.agg_.price_ = ptr.agg_.price_ ∧
      r.agg_.conf_ = ptr.agg_.conf_ := by
  have hloop := agg_loop_no_contributor K slot ptr.comp_ (List.replicate K.PC_COMP_SIZE 0) 0
    ptr.num_ 0 (by omega) (by
      intro j _ hj
      have := hnone j (by omega)
      simpa [contributes] using this)
  rw [snap_zero] at hloop
  unfold upd_aggregate
  simp only [Nat.not_le.2 hslot, if_false, hloop]
  exact ⟨_, rfl, rfl, rfl, rfl⟩

theorem del_publisher_eq (K : oracle_h) (prm : SolParameters cmd_del_publisher_t)
    (ka0 : SolAccountInfo Unit) (ka1 : SolAccountInfo pc_price_t) :
    del_publisher K prm ka0 ka1 =
      if del_publisher_checks K prm ka0 ka1 = true then
        del_publisher_loop prm.data.pub_ ka1.data ka1.data.num_ 0
      else some (ERROR_INVALID_ARGUMENT, ka1.data) := by
  unfold del_publisher del_publisher_checks
  dsimp only
  split
  · rename_i h; simp [h]
  · rename_i h
    split
    · rename_i h1; simp [h1]
    · rename_i h1
      split
      · rename_i h2; simp [h2]
      · rename_i h2; simp [h, h1, h2]

theorem add_publisher_eq (K : oracle_h) (prm : SolParameters cmd_add_publisher_t)
    (ka0 : SolAccountInfo Unit) (ka1 : SolAccountInfo pc_price_t) :
    add_publisher K prm ka0 ka1 =
      if add_publisher_checks K prm ka0 ka1 = true then
        match add_publisher_scan prm.data.pub_ ka1.data.comp_ ka1.data.num_ 0 with
        | none => none
        | some true => some (ERROR_INVALID_ARGUMENT, ka1.data)
        | some false =>
          if ka1.data.num_ ≥ K.PC_COMP_SIZE then some (ERROR_INVALID_ARGUMENT, ka1.data)
          else if ka1.data.num_ < ka1.data.comp_.length then
            some (SUCCESS, { ka1.data with
              num_ := (ka1.data.num_ + 1) % 2 ^ 32
              comp_ := ka1.data.comp_.set ka1.data.num_ { zero_comp with pub_ := prm.data.pub_ } })
          else none
      else some (ERROR_INVALID_ARGUMENT, ka1.data) := by
  unfold add_publisher add_publisher_checks
  dsimp only
  split
  · rename_i h; simp [h]
  · rename_i h
    split
    · rename_i h1; simp [h1]
    · rename_i h1
      split
      · rename_i h2; simp [h2]
      · rename_i h2
        simp only [h, h1, h2, Bool.not_false, Bool.and_self, if_true]
        try rfl

theorem del_publisher_shift_spec :
    ∀ (m ip : Nat) (comp_ : List pc_price_comp_t), ip + m < comp_.length →
      ∃ comp1, del_publisher_shift m (ip + 1) ip comp_ = some (comp1, ip + m) ∧
        comp1.length = comp_.length ∧
        ∀ j, comp1[j]? = if ip ≤ j ∧ j < ip + m then comp_[j + 1]? else comp_[j]? := by
  intro m
  induction m with
  | zero =>
    intro ip comp_ _
    refine ⟨comp_, by simp [del_publisher_shift], rfl, ?_⟩
    intro j
    have : ¬ (ip ≤ j ∧ j < ip + 0) := by omega
    rw [if_neg this]
  | succ m ih =>
    intro ip comp_ h
    have h1 : ip + 1 < comp_.length := by omega
    have hip : ip < comp_.length := by omega
    simp only [del_publisher_shift, List.getElem?_eq_getElem h1, hip, if_true]
    obtain ⟨comp1, e1, e2, e3⟩ := ih (ip + 1) (comp_.set ip comp_[ip + 1])
      (by rw [List.length_set]; omega)
    refine ⟨comp1, ?_, by rw [e2, List.length_set], ?_⟩
    · rw [e1]; congr 2; omega
    · intro j
      rw [e3 j]
      by_cases c1 : ip + 1 ≤ j ∧ j < ip + 1 + m
      · have c2 : ip ≤ j ∧ j < ip + (m + 1) := by omega
        rw [if_pos c1, if_pos c2, List.getElem?_set_ne (by omega)]
      · rw [if_neg c1]
        by_cases c3 : j = ip
        · subst c3
          have c2 : j ≤ j ∧ j < j + (m + 1) := by omega
          rw [if_pos c2, List.getElem?_set_self hip, List.getElem?_eq_getElem h1]
        · have c2 : ¬ (ip ≤ j ∧ j < ip + (m + 1)) := by omega
          rw [if_neg c2, List.getElem?_set_ne (by omega)]

theorem comp_at_eq_of_get {comp_ : List pc_price_comp_t} {j : Nat} {c : pc_price_comp_t}
    (h : comp_[j]? = some c) : comp_at comp_ j = c := by
  simp [comp_at, List.getD_eq_getElem?_getD, h]

theorem comp_at_of_lt {comp_ : List pc_price_comp_t} {j : Nat} (h : j < comp_.length) :
    comp_[j]? = some (comp_at comp_ j) := by
  simp [comp_at, List.getD_eq_getElem?_getD, List.getElem?_eq_getElem h]

theorem pc_pub_key_equal_false_iff (a b : pc_pub_key_t) :
    pc_pub_key_equal a b = false ↔ a ≠ b := by
  rw [Ne, ← pc_pub_key_equal_iff a b]
  simp

theorem del_publisher_loop_not_found (k : pc_pub_key_t) (sptr : pc_price_t) :
    ∀ (m i : Nat), i + m ≤ sptr.comp_.length →
      (∀ j, i ≤ j → j < i + m → (comp_at sptr.comp_ j).pub_ ≠ k) →
      del_publisher_loop k sptr m i = some (ERROR_INVALID_ARGUMENT, sptr) := by
  intro m
  induction m with
  | zero => intro i _ _; simp [del_publisher_loop]
  | succ m ih =>
    intro i hlen hne
    have hi : i < sptr.comp_.length := by omega
    have h1 := (pc_pub_key_equal_false_iff _ _).2 (hne i (Nat.le_refl i) (by omega))
    simp only [del_publisher_loop, comp_at_of_lt hi, h1, Bool.false_eq_true, if_false]
    exact ih (i + 1) (by omega) (fun j hj1 hj2 => hne j (by omega) (by omega))

/-- The price account after `del_publisher` removed the component at index `i0`. -/
theorem del_publisher_loop_found (k : pc_pub_key_t) (sptr : pc_price_t) (i0 : Nat)
    (hi0 : i0 < sptr.num_) (hn : sptr.num_ ≤ sptr.comp_.length)
    (hkey : (comp_at sptr.comp_ i0).pub_ = k) :
    ∀ (m i : Nat), i + m = sptr.num_ → i ≤ i0 →
      (∀ j, i ≤ j → j < i0 → (comp_at sptr.comp_ j).pub_ ≠ k) →
      ∃ comp1, del_publisher_loop k sptr m i = some (SUCCESS, { sptr with
          num_ := (sptr.num_ + 2 ^ 32 - 1) % 2 ^ 32, comp_ := comp1 }) ∧
        comp1.length = sptr.comp_.length ∧
        ∀ j, comp1[j]? = if j = sptr.num_ - 1 then some zero_comp
          else if i0 ≤ j ∧ j < sptr.num_ - 1 then sptr.comp_[j + 1]? else sptr.comp_[j]? := by
  intro m
  induction m with
  | zero => intro i h1 h2 _; omega
  | succ m ih =>
    intro i hm hle hne
    have hi : i < sptr.comp_.length := by omega
    rcases Nat.eq_or_lt_of_le hle with e | e
    · subst e
      have h1 := (pc_pub_key_equal_iff _ _).2 hkey
      have hsh : i + (sptr.num_ - (i + 1)) < sptr.comp_.length := by omega
      obtain ⟨comp1, e1, e2, e3⟩ := del_publisher_shift_spec (sptr.num_ - (i + 1)) i sptr.comp_ hsh
      have hip : i + (sptr.num_ - (i + 1)) < comp1.length := by rw [e2]; exact hsh
      simp only [del_publisher_loop, comp_at_of_lt hi, h1, if_true, e1, hip]
      have hidx : i + (sptr.num_ - (i + 1)) = sptr.num_ - 1 := by omega
      refine ⟨_, rfl, by rw [List.length_set, e2], ?_⟩
      intro j
      rw [List.getElem?_set, hidx]
      by_cases c1 : sptr.num_ - 1 = j
      · have c2 : sptr.num_ - 1 < comp1.length := by rw [← hidx]; exact hip
        rw [if_pos c1, if_pos c2, if_pos c1.symm]
      · have c2 : ¬ (j = sptr.num_ - 1) := fun h => c1 h.symm
        rw [if_neg c1, if_neg c2, e3 j, hidx]
    · have h1 := (pc_pub_key_equal_false_iff _ _).2 (hne i (Nat.le_refl i) e)
      simp only [del_publisher_loop, comp_at_of_lt hi, h1, Bool.false_eq_true, if_false]
      exact ih (i + 1) (by omega) (by omega) (fun j hj1 hj2 => hne j (by omega) hj2)

theorem comp_at_congr {l1 l2 : List pc_price_comp_t} {j1 j2 : Nat} (h : l1[j1]? = l2[j2]?) :
    comp_at l1 j1 = comp_at l2 j2 := by
  simp [comp_at, List.getD_eq_getElem?_getD, h]

/-- C10: under the parameter and account checks, `del_publisher` succeeds exactly when the
key is in the roster; it then removes the first matching component, moves the components
after it down by one, zeroes the vacated last slot and decrements `num_`; when it fails
the account is unchanged. -/
theorem C10_del_publisher_removes_one (K : oracle_h) (prm : SolParameters cmd_del_publisher_t)
    (ka0 : SolAccountInfo Unit) (ka1 : SolAccountInfo pc_price_t)
    (hK : K.PC_COMP_SIZE < 2 ^ 32)
    (hnum : ka1.data.num_ ≤ K.PC_COMP_SIZE) (hlen : ka1.data.comp_.length = K.PC_COMP_SIZE)
    (hchk : del_publisher_checks K prm ka0 ka1 = true) :
    ∃ code p2, del_publisher K prm ka0 ka1 = some (code, p2) ∧
      (code = SUCCESS ↔
        ∃ i, i < ka1.data.num_ ∧ (comp_at ka1.data.comp_ i).pub_ = prm.data.pub_) ∧
      (code ≠ SUCCESS → code = ERROR_INVALID_ARGUMENT ∧ p2 = ka1.data) ∧
      (∀ i, i < ka1.data.num_ → (comp_at ka1.data.comp_ i).pub_ = prm.data.pub_ →
        (∀ j, j < i → (comp_at ka1.data.comp_ j).pub_ ≠ prm.data.pub_) →
        p2.num_ = ka1.data.num_ - 1 ∧
        (∀ j, j < i → comp_at p2.comp_ j = comp_at ka1.data.comp_ j) ∧
        (∀ j, i ≤ j → j < ka1.data.num_ - 1 →
          comp_at p2.comp_ j = comp_at ka1.data.comp_ (j + 1)) ∧
        comp_at p2.comp_ (ka1.data.num_ - 1) = zero_comp ∧
        p2 = { ka1.data with num_ := p2.num_, comp_ := p2.comp_ }) := by
  rw [del_publisher_eq, if_pos hchk]
  have hn : ka1.data.num_ ≤ ka1.data.comp_.length := by omega
  by_cases hex : ∃ i, i < ka1.data.num_ ∧ (comp_at ka1.data.comp_ i).pub_ = prm.data.pub_
  · classical
    have hmin : ∀ j, j < Nat.find hex → (comp_at ka1.data.comp_ j).pub_ ≠ prm.data.pub_ := by
      intro j hj hk
      exact Nat.find_min hex hj ⟨Nat.lt_trans hj (Nat.find_spec hex).1, hk⟩
    obtain ⟨hi0, hkey⟩ := Nat.find_spec hex
    obtain ⟨comp1, e1, e2, e3⟩ := del_publisher_loop_found prm.data.pub_ ka1.data (Nat.find hex)
      hi0 hn hkey ka1.data.num_ 0 (by omega) (Nat.zero_le _) (fun j _ hj => hmin j hj)
    refine ⟨_, _, e1, ⟨fun _ => hex, fun _ => rfl⟩, fun h => (h rfl).elim, ?_⟩
    intro i hi hk hfirst
    have hii : i = Nat.find hex := by
      rcases Nat.lt_trichotomy i (Nat.find hex) with h | h | h
      · exact (hmin i h hk).elim
      · exact h
      · exact (hfirst _ h hkey).elim
    subst hii
    have hnum1 : (ka1.data.num_ + 2 ^ 32 - 1) % 2 ^ 32 = ka1.data.num_ - 1 := by omega
    refine ⟨hnum1, ?_, ?_, ?_, rfl⟩
    · intro j hj
      apply comp_at_congr
      show comp1[j]? = _
      rw [e3 j, if_neg (by omega), if_neg (by omega)]
    · intro j hj1 hj2
      apply comp_at_congr
      show comp1[j]? = _
      rw [e3 j, if_neg (by omega), if_pos ⟨hj1, hj2⟩]
    · show comp_at comp1 _ = _
      apply comp_at_eq_of_get
      rw [e3, if_pos rfl]
  · have hne : ∀ j, 0 ≤ j → j < 0 + ka1.data.num_ →
        (comp_at ka1.data.comp_ j).pub_ ≠ prm.data.pub_ :=
      fun j _ hj hk => hex ⟨j, by omega, hk⟩
    have e1 := del_publisher_loop_not_found prm.data.pub_ ka1.data ka1.data.num_ 0
      (by omega) hne
    refine ⟨_, _, e1, ⟨fun h => ?_, fun h => (hex h).elim⟩, fun _ => ⟨rfl, rfl⟩, ?_⟩
    · simp [ERROR_INVALID_ARGUMENT, SUCCESS] at h
    · intro i hi hk _
      exact (hex ⟨i, hi, hk⟩).elim

theorem add_publisher_scan_spec (k : pc_pub_key_t) (comp_ : List pc_price_comp_t) :
    ∀ (n i : Nat), add_publisher_scan k comp_ n i = some false →
      ∀ j, i ≤ j → j < i + n → j < comp_.length ∧ (comp_at comp_ j).pub_ ≠ k := by
  intro n
  induction n with
  | zero => intro i _ j h1 h2; omega
  | succ n ih =>
    intro i h j hj1 hj2
    simp only [add_publisher_scan] at h
    split at h
    · cases h
    · rename_i c hc
      split at h
      · cases h
      · rename_i hne
        rcases Nat.eq_or_lt_of_le hj1 with e | e
        · subst e
          have hlt : i < comp_.length := by
            rcases Nat.lt_or_ge i comp_.length with h | h
            · exact h
            · rw [List.getElem?_eq_none h] at hc; cases hc
          refine ⟨hlt, ?_⟩
          rw [comp_at_eq_of_get hc]
          exact (pc_pub_key_equal_false_iff _ _).1 (by simpa using hne)
        · exact ih (i + 1) h j (by omega) (by omega)

/-- What a successful `add_publisher` did. -/
theorem add_publisher_success {K : oracle_h} {prm : SolParameters cmd_add_publisher_t}
    {ka0 : SolAccountInfo Unit} {ka1 : SolAccountInfo pc_price_t} {p1 : pc_price_t}
    (h : add_publisher K prm ka0 ka1 = some (SUCCESS, p1)) :
    add_publisher_checks K prm ka0 ka1 = true ∧
      add_publisher_scan prm.data.pub_ ka1.data.comp_ ka1.data.num_ 0 = some false ∧
      ka1.data.num_ < K.PC_COMP_SIZE ∧ ka1.data.num_ < ka1.data.comp_.length ∧
      p1 = { ka1.data with
        num_ := (ka1.data.num_ + 1) % 2 ^ 32
        comp_ := ka1.data.comp_.set ka1.data.num_ { zero_comp with pub_ := prm.data.pub_ } } := by
  rw [add_publisher_eq] at h
  split at h
  · rename_i hchk
    split at h
    · cases h
    · exact (error_ne_success h).elim
    · rename_i hscan
      split at h
      · exact (error_ne_success h).elim
      · rename_i hcap
        split at h
        · rename_i hlt
          simp only [Option.some.injEq, Prod.mk.injEq, true_and] at h
          exact ⟨hchk, hscan, by omega, hlt, h.symm⟩
        · cases h
  · exact (error_ne_success h).elim

/-- C9: when `add_publisher(k)` succeeds, a `del_publisher(k)` that follows at once with the
same version, symbol, price type and accounts succeeds too, and leaves `num_` at its value
before the add, the slot `comp_[num_]` all zero, and every other field and every component
`comp_[0..num_)` as before the add. -/
theorem C9_add_del_round_trip (K : oracle_h) (prm : SolParameters cmd_add_publisher_t)
    (prmd : SolParameters cmd_del_publisher_t)
    (ka0 : SolAccountInfo Unit) (ka1 : SolAccountInfo pc_price_t) (p1 : pc_price_t)
    (hK : K.PC_COMP_SIZE < 2 ^ 32)
    (hadd : add_publisher K prm ka0 ka1 = some (SUCCESS, p1))
    (hd1 : prmd.data_len = K.sizeof_cmd_del_publisher_t) (hd2 : prmd.ka_num = prm.ka_num)
    (hd3 : prmd.program_id = prm.program_id) (hd4 : prmd.data.ver_ = prm.data.ver_)
    (hd5 : prmd.data.ptype_ = prm.data.ptype_) (hd6 : prmd.data.sym_ = prm.data.sym_)
    (hd7 : prmd.data.pub_ = prm.data.pub_) :
    ∃ p2, del_publisher K prmd ka0 { ka1 with data := p1 } = some (SUCCESS, p2) ∧
      p2.num_ = ka1.data.num_ ∧
      comp_at p2.comp_ p2.num_ = zero_comp ∧
      (∀ j, j < p2.num_ → comp_at p2.comp_ j = comp_at ka1.data.comp_ j) ∧
      p2 = { ka1.data with comp_ := ka1.data.comp_.set ka1.data.num_ zero_comp } := by
  obtain ⟨hchk, hscan, hcap, hlt, hp1⟩ := add_publisher_success hadd
  have hfresh := add_publisher_scan_spec _ _ _ _ hscan
  have hn1 : (ka1.data.num_ + 1) % 2 ^ 32 = ka1.data.num_ + 1 := by omega
  rw [hn1] at hp1
  have hchkd : del_publisher_checks K prmd ka0 { ka1 with data := p1 } = true := by
    have h := hchk
    unfold add_publisher_checks at h
    unfold del_publisher_checks
    simp only [valid_signable_account, hd1, hd2, hd3, hd4, hd5, hd6, hd7, hp1] at h ⊢
    simp only [Bool.and_eq_true, Bool.not_eq_true', Bool.or_eq_false_iff] at h ⊢
    obtain ⟨⟨⟨⟨⟨_, a2⟩, a3⟩, a4⟩, b⟩, c⟩ := h
    refine ⟨⟨⟨⟨⟨?_, a2⟩, a3⟩, a4⟩, b⟩, c⟩
    simp
  rw [del_publisher_eq, if_pos hchkd]
  have hnum1 : p1.num_ = ka1.data.num_ + 1 := by rw [hp1]
  have hcomp1 : p1.comp_ = ka1.data.comp_.set ka1.data.num_
      { zero_comp with pub_ := prm.data.pub_ } := by rw [hp1]
  have hkey : (comp_at p1.comp_ ka1.data.num_).pub_ = prmd.data.pub_ := by
    rw [hcomp1, comp_at_set, if_pos ⟨rfl, hlt⟩, hd7]
  obtain ⟨comp1, e1, e2, e3⟩ := del_publisher_loop_found prmd.data.pub_ p1 ka1.data.num_
    (by omega) (by rw [hnum1, hcomp1, List.length_set]; omega) hkey p1.num_ 0 (by omega)
    (Nat.zero_le _) (by
      intro j _ hj
      rw [hcomp1, comp_at_set, if_neg (by omega), hd7]
      exact (hfresh j (Nat.zero_le _) (by omega)).2)
  have hcomp2 : comp1 = ka1.data.comp_.set ka1.data.num_ zero_comp := by
    apply List.ext_getElem?
    intro j
    rw [e3 j, hnum1, hcomp1]
    by_cases c1 : j = ka1.data.num_
    · subst c1
      rw [if_pos (by omega), List.getElem?_set_self hlt]
    · have c2 : ¬ (ka1.data.num_ = j) := fun h => c1 h.symm
      rw [if_neg (by omega), if_neg (by omega), List.getElem?_set_ne c2,
        List.getElem?_set_ne c2]
  have hnum2 : (p1.num_ + 2 ^ 32 - 1) % 2 ^ 32 = ka1.data.num_ := by omega
  rw [hnum2, hcomp2] at e1
  refine ⟨_, e1, rfl, ?_, ?_, ?_⟩
  · show comp_at (ka1.data.comp_.set ka1.data.num_ zero_comp) ka1.data.num_ = zero_comp
    rw [comp_at_set, if_pos ⟨rfl, hlt⟩]
  · intro j hj
    show comp_at (ka1.data.comp_.set ka1.data.num_ zero_comp) j = _
    have hj1 : j < ka1.data.num_ := hj
    rw [comp_at_set, if_neg (by omega)]
  · rw [hp1]

/-- What a successful `upd_price` did on a well-formed price account: the caller is the
first roster entry `i` with the funder's key, `q` is the account after the aggregation
step, and the caller's latest quote is written for command `upd_price`. -/
theorem upd_price_success_spec {K : oracle_h} {prm : SolParameters cmd_upd_price_t}
    {ka0 : SolAccountInfo Unit} {ka1 : SolAccountInfo pc_price_t}
    {ka2 : SolAccountInfo sysvar_clock_t} {p1 : pc_price_t}
    (h : upd_price K prm ka0 ka1 ka2 = some (SUCCESS, p1))
    (hnum : ka1.data.num_ ≤ K.PC_COMP_SIZE) (hlen : ka1.data.comp_.length = K.PC_COMP_SIZE)
    (h31 : ka1.data.num_ < 2 ^ 31) :
    ∃ i q, i < ka1.data.num_ ∧ (comp_at ka1.data.comp_ i).pub_ = ka0.key ∧
      (∀ j, j < i → (comp_at ka1.data.comp_ j).pub_ ≠ ka0.key) ∧
      ((ka2.data.slot_ > ka1.data.curr_slot_ ∧
          ∃ L, agg_inv K ka2.data.slot_ ka1.data.comp_ ka1.data.num_ L ∧
            q = aggregated K ka1.data ka0.key ka2.data.slot_ L) ∨
        (ka2.data.slot_ ≤ ka1.data.curr_slot_ ∧ q = ka1.data)) ∧
      ((prm.data.cmd_ = K.e_cmd_upd_price ∧
          p1 = { q with comp_ := q.comp_.set i { comp_at q.comp_ i with latest_ :=
            ⟨prm.data.price_, prm.data.conf_, prm.data.status_, ka2.data.slot_⟩ } }) ∨
        (prm.data.cmd_ ≠ K.e_cmd_upd_price ∧ p1 = q)) := by
  obtain ⟨i, q, hfind, hne, hq, hp⟩ := upd_price_success h
  obtain ⟨_, hle, hfound, hfirst⟩ := upd_price_find_spec _ _ _ _ _ hfind
  have hi : i < ka1.data.num_ := by omega
  obtain ⟨c, hc, hkey⟩ := hfound (by omega)
  refine ⟨i, q, hi, by rw [comp_at_eq_of_get hc]; exact hkey, ?_, ?_, ?_⟩
  · intro j hj
    obtain ⟨c1, hc1, hk1⟩ := hfirst j (Nat.zero_le _) hj
    rw [comp_at_eq_of_get hc1]; exact hk1
  · by_cases hs : ka2.data.slot_ > ka1.data.curr_slot_
    · left
      simp only [hs, if_true] at hq
      obtain ⟨L, hinv, hres⟩ := upd_aggregate_spec K ka1.data ka0.key ka2.data.slot_ hs hnum hlen
        h31
      rw [hq, Option.some.injEq] at hres
      exact ⟨hs, L, hinv, hres⟩
    · right
      simp only [hs, if_false, Option.some.injEq] at hq
      exact ⟨by omega, hq.symm⟩
  · rcases hp with ⟨e, c1, hc1, e1⟩ | ⟨e, e1⟩
    · left
      refine ⟨e, ?_⟩
      rw [comp_at_eq_of_get hc1]
      exact e1
    · right
      exact ⟨e, e1⟩

theorem snap_pub (n : Nat) (comp0 : List pc_price_comp_t) (i : Nat) :
    (comp_at (snap n comp0) i).pub_ = (comp_at comp0 i).pub_ := by
  unfold comp_at
  rw [List.getD_eq_getElem?_getD, List.getD_eq_getElem?_getD]
  rcases Nat.lt_or_ge i comp0.length with hi | hi
  · rcases Nat.lt_or_ge i n with h | h
    · rw [snap_get_lt h hi, List.getD_eq_getElem?_getD, List.getElem?_eq_getElem hi]
      rfl
    · rcases Nat.le_total n comp0.length with hn | hn
      · rw [snap_get_ge h hn]
      · omega
  · rw [List.getElem?_eq_none hi, List.getElem?_eq_none (by rw [snap_length]; exact hi)]

/-- The effect of a successful `upd_price` on the roster of a well-formed price account:
the caller is the first entry `i` with the funder's key; `num_`, the array length and the
publisher keys stay, `curr_slot_` becomes the larger of its old value and the clock slot,
and the latest quotes stay except the caller's, which command `upd_price` replaces. -/
theorem upd_price_effect {K : oracle_h} {prm : SolParameters cmd_upd_price_t}
    {ka0 : SolAccountInfo Unit} {ka1 : SolAccountInfo pc_price_t}
    {ka2 : SolAccountInfo sysvar_clock_t} {p1 : pc_price_t}
    (h : upd_price K prm ka0 ka1 ka2 = some (SUCCESS, p1))
    (hnum : ka1.data.num_ ≤ K.PC_COMP_SIZE) (hlen : ka1.data.comp_.length = K.PC_COMP_SIZE)
    (h31 : ka1.data.num_ < 2 ^ 31) :
    ∃ i, i < ka1.data.num_ ∧ (comp_at ka1.data.comp_ i).pub_ = ka0.key ∧
      (∀ j, j < i → (comp_at ka1.data.comp_ j).pub_ ≠ ka0.key) ∧
      p1.num_ = ka1.data.num_ ∧ p1.comp_.length = ka1.data.comp_.length ∧
      p1.curr_slot_ = max ka1.data.curr_slot_ ka2.data.slot_ ∧
      (∀ j, (comp_at p1.comp_ j).pub_ = (comp_at ka1.data.comp_ j).pub_) ∧
      (∀ j, (comp_at p1.comp_ j).latest_ =
        if prm.data.cmd_ = K.e_cmd_upd_price ∧ j = i then
          ⟨prm.data.price_, prm.data.conf_, prm.data.status_, ka2.data.slot_⟩
        else (comp_at ka1.data.comp_ j).latest_) := by
  obtain ⟨i, q, hi, hkey, hfirst, hagg, hwr⟩ := upd_price_success_spec h hnum hlen h31
  have hq : q.num_ = ka1.data.num_ ∧ q.comp_.length = ka1.data.comp_.length ∧
      q.curr_slot_ = max ka1.data.curr_slot_ ka2.data.slot_ ∧
      (∀ j, (comp_at q.comp_ j).pub_ = (comp_at ka1.data.comp_ j).pub_) ∧
      (∀ j, (comp_at q.comp_ j).latest_ = (comp_at ka1.data.comp_ j).latest_) := by
    rcases hagg with ⟨hs, L, _, e⟩ | ⟨hs, e⟩
    · subst e
      refine ⟨rfl, snap_length _ _, ?_, fun j => snap_pub _ _ j, fun j => snap_latest _ _ j⟩
      show ka2.data.slot_ = _
      omega
    · subst e
      exact ⟨rfl, rfl, by omega, fun _ => rfl, fun _ => rfl⟩
  obtain ⟨q1, q2, q3, q4, q5⟩ := hq
  have hil : i < q.comp_.length := by omega
  refine ⟨i, hi, hkey, hfirst, ?_⟩
  rcases hwr with ⟨hcmd, e⟩ | ⟨hcmd, e⟩
  · subst e
    refine ⟨q1, by rw [← q2]; exact List.length_set _ _ _, q3, ?_, ?_⟩
    · intro j
      show (comp_at (q.comp_.set i _) j).pub_ = _
      rw [comp_at_set]
      split
      · rename_i hij
        rw [← hij.1]
        exact q4 i
      · exact q4 j
    · intro j
      show (comp_at (q.comp_.set i _) j).latest_ = _
      rw [comp_at_set]
      by_cases hij : i = j
      · subst hij
        rw [if_pos ⟨rfl, hil⟩, if_pos ⟨hcmd, rfl⟩]
      · rw [if_neg (fun hh => hij hh.1), if_neg (fun hh => hij hh.2.symm)]
        exact q5 j
  · subst e
    refine ⟨q1, q2, q3, q4, ?_⟩
    intro j
    rw [if_neg (fun hh => hcmd hh.1)]
    exact q5 j

theorem median_of_three_state (K : oracle_h) (prm : SolParameters cmd_upd_price_t)
    (ka0 : SolAccountInfo Unit) (ka1 : SolAccountInfo pc_price_t)
    (ka2 : SolAccountInfo sysvar_clock_t) (p1 : pc_price_t) (ca cb cc : Nat)
    (hnum : ka1.data.num_ = 3) (hlen : ka1.data.comp_.length = K.PC_COMP_SIZE)
    (hA : (comp_at ka1.data.comp_ 0).latest_ = ⟨150, ca, K.PC_STATUS_TRADING, 20⟩)
    (hB : (comp_at ka1.data.comp_ 1).latest_ = ⟨100, cb, K.PC_STATUS_TRADING, 20⟩)
    (hC : (comp_at ka1.data.comp_ 2).latest_ = ⟨200, cc, K.PC_STATUS_TRADING, 20⟩)
    (hcurr : ka1.data.curr_slot_ < 21) (hclock : ka2.data.slot_ = 21)
    (h : upd_price K prm ka0 ka1 ka2 = some (SUCCESS, p1)) :
    p1.agg_.price_ = 150 ∧ p1.agg_.status_ = K.PC_STATUS_TRADING ∧ p1.agg_.conf_ = ca := by
  have hs : ka2.data.slot_ > ka1.data.curr_slot_ := by omega
  obtain ⟨q, hq, hagg, _⟩ := upd_price_agg h hs
  have h3 : 3 ≤ ka1.data.comp_.length := by
    by_contra hlt
    have : comp_at ka1.data.comp_ 2 = zero_comp := by
      unfold comp_at
      rw [List.getD_eq_getElem?_getD, List.getElem?_eq_none (by omega)]
      rfl
    rw [this] at hC
    have := congrArg pc_price_info_t.price_ hC
    simp [zero_comp, zero_info] at this
  have hn : ka1.data.num_ ≤ K.PC_COMP_SIZE := by omega
  obtain ⟨L, hinv, hres⟩ := upd_aggregate_spec K ka1.data ka0.key ka2.data.slot_ hs hn hlen
    (by omega)
  rw [hq, Option.some.injEq] at hres
  have hL : L = [1, 0, 2] := by
    apply agg_inv_eq hinv
    · intro a
      rw [hnum, hclock]
      constructor
      · intro ha
        simp only [List.mem_cons, List.mem_singleton, List.not_mem_nil, or_false] at ha
        rcases ha with e | e | e <;> subst e
        · exact ⟨by omega, by simp [contributes, hB]⟩
        · exact ⟨by omega, by simp [contributes, hA]⟩
        · exact ⟨by omega, by simp [contributes, hC]⟩
      · rintro ⟨ha, _⟩
        simp only [List.mem_cons, List.mem_singleton, List.not_mem_nil, or_false]
        omega
    · simp [stable_lt, latest_px, hA, hB, hC]
  subst hL
  rw [hagg, hres]
  simp [aggregated, median_info, hA]

theorem three_submissions (K : oracle_h) (A B C : pc_pub_key_t)
    (prm1 prm2 prm3 : SolParameters cmd_upd_price_t) (fA fB fC : SolAccountInfo Unit)
    (kaP : SolAccountInfo pc_price_t) (k1 k2 k3 : SolAccountInfo sysvar_clock_t)
    (q1 q2 q3 : pc_price_t)
    (hnum : kaP.data.num_ = 3) (hlen : kaP.data.comp_.length = K.PC_COMP_SIZE)
    (h3 : 3 ≤ K.PC_COMP_SIZE)
    (hA : (comp_at kaP.data.comp_ 0).pub_ = A) (hB : (comp_at kaP.data.comp_ 1).pub_ = B)
    (hAB : A ≠ B) (hAC : A ≠ C) (hBC : B ≠ C)
    (hcurr : kaP.data.curr_slot_ ≤ 20)
    (hfA : fA.key = A) (hfB : fB.key = B) (hfC : fC.key = C)
    (c1 : prm1.data.cmd_ = K.e_cmd_upd_price) (c2 : prm2.data.cmd_ = K.e_cmd_upd_price)
    (c3 : prm3.data.cmd_ = K.e_cmd_upd_price)
    (s1 : k1.data.slot_ = 20) (s2 : k2.data.slot_ = 20) (s3 : k3.data.slot_ = 20)
    (e1 : upd_price K prm1 fA kaP k1 = some (SUCCESS, q1))
    (e2 : upd_price K prm2 fB { kaP with data := q1 } k2 = some (SUCCESS, q2))
    (e3 : upd_price K prm3 fC { kaP with data := q2 } k3 = some (SUCCESS, q3)) :
    q3.num_ = 3 ∧ q3.comp_.length = K.PC_COMP_SIZE ∧ q3.curr_slot_ < 21 ∧
      (comp_at q3.comp_ 0).latest_ =
        ⟨prm1.data.price_, prm1.data.conf_, prm1.data.status_, 20⟩ ∧
      (comp_at q3.comp_ 1).latest_ =
        ⟨prm2.data.price_, prm2.data.conf_, prm2.data.status_, 20⟩ ∧
      (comp_at q3.comp_ 2).latest_ =
        ⟨prm3.data.price_, prm3.data.conf_, prm3.data.status_, 20⟩ := by
  -- A is found at index 0
  obtain ⟨i1, _, k1i, f1, n1, l1, t1, p1, w1⟩ :=
    upd_price_effect e1 (by omega) hlen (by omega)
  have hi1 : i1 = 0 := by
    rcases Nat.eq_zero_or_pos i1 with e | e
    · exact e
    · exact (f1 0 e (by rw [hA, hfA])).elim
  subst hi1
  -- B is found at index 1
  have n1a : q1.num_ ≤ K.PC_COMP_SIZE := by omega
  have l1a : q1.comp_.length = K.PC_COMP_SIZE := by omega
  obtain ⟨i2, hi2, k2i, f2, n2, l2, t2, p2, w2⟩ :=
    @upd_price_effect K prm2 fB { kaP with data := q1 } k2 q2 e2 n1a l1a
      (by show q1.num_ < 2 ^ 31; omega)
  dsimp only at hi2 k2i f2 n2 l2 t2 p2 w2
  have hi2 : i2 = 1 := by
    rcases Nat.lt_trichotomy i2 1 with e | e | e
    · have : i2 = 0 := by omega
      subst this
      rw [p1 0, hA, hfB] at k2i
      exact (hAB k2i).elim
    · exact e
    · exact (f2 1 e (by rw [p1 1, hB, hfB])).elim
  subst hi2
  -- C is found at index 2
  have n2a : q2.num_ ≤ K.PC_COMP_SIZE := by omega
  have l2a : q2.comp_.length = K.PC_COMP_SIZE := by omega
  obtain ⟨i3, hi3, k3i, f3, n3, l3, t3, p3, w3⟩ :=
    @upd_price_effect K prm3 fC { kaP with data := q2 } k3 q3 e3 n2a l2a
      (by show q2.num_ < 2 ^ 31; omega)
  dsimp only at hi3 k3i f3 n3 l3 t3 p3 w3
  have hi3 : i3 = 2 := by
    have hlt : i3 < 3 := by omega
    interval_cases i3
    · rw [p2 0, p1 0, hA, hfC] at k3i
      exact (hAC k3i).elim
    · rw [p2 1, p1 1, hB, hfC] at k3i
      exact (hBC k3i).elim
    · rfl
  subst hi3
  refine ⟨by omega, by omega, by omega, ?_, ?_, ?_⟩
  · rw [w3 0, if_neg (by omega), w2 0, if_neg (by omega), w1 0, if_pos ⟨c1, rfl⟩, s1]
  · rw [w3 1, if_neg (by omega), w2 1, if_pos ⟨c2, rfl⟩, s2]
  · rw [w3 2, if_pos ⟨c3, rfl⟩, s3]

/-- C5 (amended): with roster [A, B, C] whose latest quotes, submitted at slot 20, are
TRADING with prices 150, 100 and 200, the first successful `upd_price` or `agg_price` at
slot 21 leaves `agg_.price_ = 150`, `agg_.status_ = TRADING` and `agg_.conf_` equal to the
confidence submitted by A, the publisher of the median price; and successful `upd_price`
calls of A, B and C at slot 20 on a roster [A, B, C] leave exactly such latest quotes. -/
theorem C5_median_of_three (K : oracle_h) (prm : SolParameters cmd_upd_price_t)
    (ka0 : SolAccountInfo Unit) (ka1 : SolAccountInfo pc_price_t)
    (ka2 : SolAccountInfo sysvar_clock_t) (p1 : pc_price_t) (ca cb cc : Nat)
    (hnum : ka1.data.num_ = 3) (hlen : ka1.data.comp_.length = K.PC_COMP_SIZE)
    (hA : (comp_at ka1.data.comp_ 0).latest_ = ⟨150, ca, K.PC_STATUS_TRADING, 20⟩)
    (hB : (comp_at ka1.data.comp_ 1).latest_ = ⟨100, cb, K.PC_STATUS_TRADING, 20⟩)
    (hC : (comp_at ka1.data.comp_ 2).latest_ = ⟨200, cc, K.PC_STATUS_TRADING, 20⟩)
    (hcurr : ka1.data.curr_slot_ < 21) (hclock : ka2.data.slot_ = 21)
    (h : upd_price K prm ka0 ka1 ka2 = some (SUCCESS, p1)) :
    (p1.agg_.price_ = 150 ∧ p1.agg_.status_ = K.PC_STATUS_TRADING ∧ p1.agg_.conf_ = ca) ∧
    (∀ (A B C : pc_pub_key_t) (prm1 prm2 prm3 : SolParameters cmd_upd_price_t)
      (fA fB fC : SolAccountInfo Unit) (kaP : SolAccountInfo pc_price_t)
      (k1 k2 k3 : SolAccountInfo sysvar_clock_t) (q1 q2 q3 : pc_price_t),
      kaP.data.num_ = 3 → kaP.data.comp_.length = K.PC_COMP_SIZE → 3 ≤ K.PC_COMP_SIZE →
      (comp_at kaP.data.comp_ 0).pub_ = A → (comp_at kaP.data.comp_ 1).pub_ = B →
      A ≠ B → A ≠ C → B ≠ C → kaP.data.curr_slot_ ≤ 20 →
      fA.key = A → fB.key = B → fC.key = C →
      prm1.data.cmd_ = K.e_cmd_upd_price → prm2.data.cmd_ = K.e_cmd_upd_price →
      prm3.data.cmd_ = K.e_cmd_upd_price →
      k1.data.slot_ = 20 → k2.data.slot_ = 20 → k3.data.slot_ = 20 →
      upd_price K prm1 fA kaP k1 = some (SUCCESS, q1) →
      upd_price K prm2 fB { kaP with data := q1 } k2 = some (SUCCESS, q2) →
      upd_price K prm3 fC { kaP with data := q2 } k3 = some (SUCCESS, q3) →
      q3.num_ = 3 ∧ q3.comp_.length = K.PC_COMP_SIZE ∧ q3.curr_slot_ < 21 ∧
        (comp_at q3.comp_ 0).latest_ =
          ⟨prm1.data.price_, prm1.data.conf_, prm1.data.status_, 20⟩ ∧
        (comp_at q3.comp_ 1).latest_ =
          ⟨prm2.data.price_, prm2.data.conf_, prm2.data.status_, 20⟩ ∧
        (comp_at q3.comp_ 2).latest_ =
          ⟨prm3.data.price_, prm3.data.conf_, prm3.data.status_, 20⟩) :=
  ⟨median_of_three_state K prm ka0 ka1 ka2 p1 ca cb cc hnum hlen hA hB hC hcurr hclock h,
    fun A B C prm1 prm2 prm3 fA fB fC kaP k1 k2 k3 q1 q2 q3 a1 a2 a3 a4 a5 a6 a7 a8 a9 a10 a11
        a12 a13 a14 a15 a16 a17 a18 a19 a20 a21 =>
      three_submissions K A B C prm1 prm2 prm3 fA fB fC kaP k1 k2 k3 q1 q2 q3 a1 a2 a3 a4 a5
        a6 a7 a8 a9 a10 a11 a12 a13 a14 a15 a16 a17 a18 a19 a20 a21⟩

theorem quote_not_in_own_aggregate (K : oracle_h) (prm : SolParameters cmd_upd_price_t)
    (pr : Int) (cf st : Nat) (ka0 : SolAccountInfo Unit) (ka1 : SolAccountInfo pc_price_t)
    (ka2 : SolAccountInfo sysvar_clock_t) (p1 p2 : pc_price_t)
    (h1 : upd_price K prm ka0 ka1 ka2 = some (SUCCESS, p1))
    (h2 : upd_price K { prm with data := { prm.data with
      price_ := pr, conf_ := cf, status_ := st } } ka0 ka1 ka2 = some (SUCCESS, p2)) :
    p1.agg_ = p2.agg_ ∧ p1.agg_pub_ = p2.agg_pub_ ∧ p1.valid_slot_ = p2.valid_slot_ ∧
      p1.curr_slot_ = p2.curr_slot_ ∧
      ∀ i, (comp_at p1.comp_ i).agg_ = (comp_at p2.comp_ i).agg_ := by
  obtain ⟨i1, q1, _, _, hq1, hp1⟩ := upd_price_success h1
  obtain ⟨i2, q2, _, _, hq2, hp2⟩ := upd_price_success h2
  rw [hq1, Option.some.injEq] at hq2
  subst hq2
  have key : ∀ (p : pc_price_t) (i : Nat) (f : pc_price_info_t),
      ((prm.data.cmd_ = K.e_cmd_upd_price ∧ ∃ c, q1.comp_[i]? = some c ∧
        p = { q1 with comp_ := q1.comp_.set i { c with latest_ := f } }) ∨
        (prm.data.cmd_ ≠ K.e_cmd_upd_price ∧ p = q1)) →
      p.agg_ = q1.agg_ ∧ p.agg_pub_ = q1.agg_pub_ ∧ p.valid_slot_ = q1.valid_slot_ ∧
        p.curr_slot_ = q1.curr_slot_ ∧ ∀ j, (comp_at p.comp_ j).agg_ = (comp_at q1.comp_ j).agg_ := by
    intro p i f hp
    rcases hp with ⟨_, c, hc, e⟩ | ⟨_, e⟩
    · subst e
      refine ⟨rfl, rfl, rfl, rfl, ?_⟩
      intro j
      show (comp_at (q1.comp_.set i _) j).agg_ = _
      rw [comp_at_set]
      split
      · rename_i hij
        obtain ⟨hij, _⟩ := hij
        subst hij
        rw [comp_at_eq_of_get hc]
      · rfl
    · subst e
      exact ⟨rfl, rfl, rfl, rfl, fun _ => rfl⟩
  obtain ⟨a1, a2, a3, a4, a5⟩ := key p1 i1 _ hp1
  obtain ⟨b1, b2, b3, b4, b5⟩ := key p2 i2 _ hp2
  exact ⟨by rw [a1, b1], by rw [a2, b2], by rw [a3, b3], by rw [a4, b4],
    fun j => by rw [a5, b5]⟩

theorem single_publisher_median (K : oracle_h) (A B : pc_pub_key_t)
    (tail : List pc_price_comp_t) (prmA prmB : SolParameters cmd_upd_price_t)
    (ka0 : SolAccountInfo Unit) (ka1 : SolAccountInfo pc_price_t)
    (c10 c11 : SolAccountInfo sysvar_clock_t) (qa qb : pc_price_t)
    (hcomp : ka1.data.comp_ = member A :: member B :: tail) (hnum : ka1.data.num_ = 2)
    (hlen : ka1.data.comp_.length = K.PC_COMP_SIZE) (hcurr : ka1.data.curr_slot_ = 0)
    (hkey : ka0.key = A)
    (hcmd : prmA.data.cmd_ = K.e_cmd_upd_price) (hpr : prmA.data.price_ = 100)
    (hcf : prmA.data.conf_ = 2) (hst : prmA.data.status_ = K.PC_STATUS_TRADING)
    (h10 : c10.data.slot_ = 10) (h11 : c11.data.slot_ = 11)
    (ha : upd_price K prmA ka0 ka1 c10 = some (SUCCESS, qa))
    (hb : upd_price K prmB ka0 { ka1 with data := qa } c11 = some (SUCCESS, qb)) :
    qb.curr_slot_ = 11 ∧ qb.valid_slot_ = 10 ∧ qb.agg_.price_ = 100 ∧ qb.agg_.conf_ = 2 ∧
      qb.agg_.status_ = K.PC_STATUS_TRADING := by
  have hn0 : ka1.data.num_ ≤ K.PC_COMP_SIZE := by rw [← hlen, hcomp, hnum]; simp
  -- the first call: aggregation at slot 10, then the quote of A is stored
  obtain ⟨i, q, hi, hik, hfirst, hagg, hwr⟩ := upd_price_success_spec ha hn0 hlen (by omega)
  have hi0 : i = 0 := by
    rcases Nat.eq_zero_or_pos i with e | e
    · exact e
    · exact (hfirst 0 e (by simp [comp_at, hcomp, member, hkey])).elim
  subst hi0
  have hq : q.curr_slot_ = 10 ∧ q.num_ = 2 ∧ q.comp_ = member A :: member B :: tail := by
    rcases hagg with ⟨_, L, _, e⟩ | ⟨hle, _⟩
    · subst e
      refine ⟨h10, hnum, ?_⟩
      show snap ka1.data.num_ ka1.data.comp_ = _
      rw [hnum, hcomp]
      simp [snap, snapshot, member, zero_comp]
    · simp only [h10, hcurr] at hle
      omega
  obtain ⟨hq1, hq2, hq3⟩ := hq
  have hqa : qa.curr_slot_ = 10 ∧ qa.num_ = 2 ∧
      qa.comp_ = { member A with latest_ := ⟨100, 2, K.PC_STATUS_TRADING, 10⟩ } ::
        member B :: tail := by
    rcases hwr with ⟨_, e⟩ | ⟨e, _⟩
    · subst e
      refine ⟨hq1, hq2, ?_⟩
      simp [hq3, comp_at, hpr, hcf, hst, h10]
    · exact (e hcmd).elim
  obtain ⟨ha1, ha2, ha3⟩ := hqa
  -- the second call: aggregation at slot 11 over the quotes of slot 10
  have hlena : qa.comp_.length = K.PC_COMP_SIZE := by
    rw [ha3, ← hlen, hcomp]; simp
  have hna : qa.num_ ≤ K.PC_COMP_SIZE := by rw [ha2, ← hnum]; exact hn0
  obtain ⟨i, q1, _, _, _, hagg1, hwr1⟩ :=
    @upd_price_success_spec K prmB ka0 { ka1 with data := qa } c11 qb hb hna hlena
      (by show qa.num_ < 2 ^ 31; omega)
  dsimp only at hagg1 hwr1
  have hfields : qb.curr_slot_ = q1.curr_slot_ ∧ qb.valid_slot_ = q1.valid_slot_ ∧
      qb.agg_ = q1.agg_ := by
    rcases hwr1 with ⟨_, e⟩ | ⟨_, e⟩ <;> subst e <;> exact ⟨rfl, rfl, rfl⟩
  obtain ⟨f1, f2, f3⟩ := hfields
  rcases hagg1 with ⟨_, L, hinv, e⟩ | ⟨hle, _⟩
  · have c0 : comp_at qa.comp_ 0 =
        { member A with latest_ := ⟨100, 2, K.PC_STATUS_TRADING, 10⟩ } := by
      simp [comp_at, ha3]
    have c1 : comp_at qa.comp_ 1 = member B := by simp [comp_at, ha3]
    have hL : L = [0] := by
      apply agg_inv_eq hinv
      · intro a
        rw [ha2, h11, List.mem_singleton]
        constructor
        · rintro rfl
          exact ⟨by omega, by rw [c0]; simp [contributes]⟩
        · rintro ⟨h1, h2⟩
          rcases Nat.eq_zero_or_pos a with e | e
          · exact e
          · have : a = 1 := by omega
            subst this
            rw [c1] at h2
            simp [contributes, member, zero_comp, zero_info] at h2
      · simp
    subst hL
    subst e
    rw [f1, f2, f3]
    simp [aggregated, median_info, c0, h11, ha1]
  · rw [h11, ha1] at hle
    omega

/-- C8: two successful `upd_price` calls that differ only in the price, confidence and
status of the instruction leave the same `agg_`, `agg_pub_`, `valid_slot_`, `curr_slot_`
and the same `agg_` in every component; and on the fresh roster [A, B], after A sent
(100, 2, TRADING) at slot 10 and another quote at slot 11, `curr_slot_ = 11`,
`valid_slot_ = 10` and the aggregate is (100, 2, TRADING). -/
theorem C8_quote_not_in_own_aggregate (K : oracle_h) (prm : SolParameters cmd_upd_price_t)
    (pr : Int) (cf st : Nat) (ka0 : SolAccountInfo Unit) (ka1 : SolAccountInfo pc_price_t)
    (ka2 : SolAccountInfo sysvar_clock_t) (p1 p2 : pc_price_t)
    (h1 : upd_price K prm ka0 ka1 ka2 = some (SUCCESS, p1))
    (h2 : upd_price K { prm with data := { prm.data with
      price_ := pr, conf_ := cf, status_ := st } } ka0 ka1 ka2 = some (SUCCESS, p2)) :
    (p1.agg_ = p2.agg_ ∧ p1.agg_pub_ = p2.agg_pub_ ∧ p1.valid_slot_ = p2.valid_slot_ ∧
      p1.curr_slot_ = p2.curr_slot_ ∧
      ∀ i, (comp_at p1.comp_ i).agg_ = (comp_at p2.comp_ i).agg_) ∧
    (∀ (A B : pc_pub_key_t) (tail : List pc_price_comp_t)
      (prmA prmB : SolParameters cmd_upd_price_t) (kaA : SolAccountInfo Unit)
      (kaP : SolAccountInfo pc_price_t) (c10 c11 : SolAccountInfo sysvar_clock_t)
      (qa qb : pc_price_t),
      kaP.data.comp_ = member A :: member B :: tail → kaP.data.num_ = 2 →
      kaP.data.comp_.length = K.PC_COMP_SIZE → kaP.data.curr_slot_ = 0 → kaA.key = A →
      prmA.data.cmd_ = K.e_cmd_upd_price → prmA.data.price_ = 100 → prmA.data.conf_ = 2 →
      prmA.data.status_ = K.PC_STATUS_TRADING → c10.data.slot_ = 10 → c11.data.slot_ = 11 →
      upd_price K prmA kaA kaP c10 = some (SUCCESS, qa) →
      upd_price K prmB kaA { kaP with data := qa } c11 = some (SUCCESS, qb) →
      qb.curr_slot_ = 11 ∧ qb.valid_slot_ = 10 ∧ qb.agg_.price_ = 100 ∧ qb.agg_.conf_ = 2 ∧
        qb.agg_.status_ = K.PC_STATUS_TRADING) :=
  ⟨quote_not_in_own_aggregate K prm pr cf st ka0 ka1 ka2 p1 p2 h1 h2,
    fun A B tail prmA prmB kaA kaP c10 c11 qa qb e1 e2 e3 e4 e5 e6 e7 e8 e9 e10 e11 e12 e13 =>
      single_publisher_median K A B tail prmA prmB kaA kaP c10 c11 qa qb e1 e2 e3 e4 e5 e6 e7 e8
        e9 e10 e11 e12 e13⟩

/-- C1 (witness): contributors with prices -3 and 0 give the aggregate price -1, the mean
-3 / 2 truncated toward zero, and status TRADING. -/
theorem C1_median_price_witness :
    (upd_aggregate sample_h sample_negative key_A 21).map
      (fun r => (r.agg_.status_, r.agg_.price_)) = some (1, -1) := by
  obtain ⟨r, h1, h2, _, h4⟩ := C1_median_price sample_h sample_negative key_A 21
    (by decide) (by decide) (by decide) (by decide) [-3, 0] (by decide) (by decide) (by decide)
  rw [h1, Option.map_some', h2, h4 (by decide) (by decide) (by decide)]
  rfl

/-- C2 (witness): scenario 5, A quoted at slot 40 only and B at slot 41: the aggregation at
slot 42 yields B's price 70 and confidence 3, whatever A's stale price and confidence. -/
theorem C2_stale_quotes_ignored_witness :
    (upd_aggregate sample_h sample_stale key_B 42).map (fun r => r.agg_) =
        (upd_aggregate sample_h { sample_stale with comp_ := sample_stale_other } key_B 42).map
          (fun r => r.agg_) ∧
      (upd_aggregate sample_h sample_stale key_B 42).map
        (fun r => (r.agg_.price_, r.agg_.conf_)) = some (70, 3) := by
  obtain ⟨⟨r1, r2, h1, h2, h3, _⟩, _⟩ := C2_stale_quotes_ignored sample_h sample_stale
    sample_stale_other key_B 42 (by decide) (by decide) (by decide) (by decide)
    (List.Forall₂.cons (by unfold same_but_stale; decide)
      (List.Forall₂.cons (by unfold same_but_stale; decide)
        (List.Forall₂.cons (by unfold same_but_stale; decide)
          (List.Forall₂.cons (by unfold same_but_stale; decide) List.Forall₂.nil))))
  refine ⟨?_, by decide⟩
  rw [h1, h2, Option.map_some', Option.map_some', h3]

/-- C3 (witness): A's `upd_price` at clock slot 11 on an account last aggregated at slot 10
leaves `valid_slot_ = 10`, `curr_slot_ = 11`, `agg_.pub_slot_ = 11` and `agg_pub_ = A`. -/
theorem C3_slot_window_shift_witness :
    (price_of (upd_price sample_h (upd_instr 5 101 2 1) (funder key_A)
      (price_account sample_after_first) (clock_account 11))).valid_slot_ = 10 ∧
    (price_of (upd_price sample_h (upd_instr 5 101 2 1) (funder key_A)
      (price_account sample_after_first) (clock_account 11))).curr_slot_ = 11 ∧
    (price_of (upd_price sample_h (upd_instr 5 101 2 1) (funder key_A)
      (price_account sample_after_first) (clock_account 11))).agg_.pub_slot_ = 11 ∧
    (price_of (upd_price sample_h (upd_instr 5 101 2 1) (funder key_A)
      (price_account sample_after_first) (clock_account 11))).agg_pub_ = key_A := by
  obtain ⟨h1, h2, h3, h4, _⟩ := (C3_slot_window_shift sample_h (upd_instr 5 101 2 1)
    (funder key_A) (price_account sample_after_first) (clock_account 11)
    (price_of (upd_price sample_h (upd_instr 5 101 2 1) (funder key_A)
      (price_account sample_after_first) (clock_account 11))) (by decide)).1 (by decide)
  exact ⟨h1, h2, h3, h4⟩

/-- C4 (witness): B's `agg_price` at clock slot 10 on an account already aggregated at slot
10 returns success and leaves the account unchanged. -/
theorem C4_no_reaggregation_within_slot_witness :
    upd_price sample_h (upd_instr 6 0 0 0) (funder key_B) (price_account sample_after_first)
      (clock_account 10) = some (SUCCESS, sample_after_first) ∧
    price_of (upd_price sample_h (upd_instr 6 0 0 0) (funder key_B)
      (price_account sample_after_first) (clock_account 10)) = sample_after_first :=
  ⟨by decide,
    (C4_no_reaggregation_within_slot sample_h (upd_instr 6 0 0 0) (funder key_B)
      (price_account sample_after_first) (clock_account 10)
      (price_of (upd_price sample_h (upd_instr 6 0 0 0) (funder key_B)
        (price_account sample_after_first) (clock_account 10)))
      (by decide) (by decide)).2.2.2.2.2.2.2.1 (by decide)⟩

/-- C5 (witness): scenario 3 with confidences 7, 9 and 11: C's `agg_price` at slot 21 leaves
the aggregate price 150, status TRADING and A's confidence 7. -/
theorem C5_median_of_three_witness :
    (scenario_three 7 9 11).map (fun p => p.agg_) = some ⟨150, 7, 1, 21⟩ ∧
    (price_of (upd_price sample_h (upd_instr 6 0 0 0) (funder key_C)
      (price_account sample_three) (clock_account 21))).agg_.price_ = 150 ∧
    (price_of (upd_price sample_h (upd_instr 6 0 0 0) (funder key_C)
      (price_account sample_three) (clock_account 21))).agg_.status_ = 1 ∧
    (price_of (upd_price sample_h (upd_instr 6 0 0 0) (funder key_C)
      (price_account sample_three) (clock_account 21))).agg_.conf_ = 7 :=
  ⟨by decide,
    (C5_median_of_three sample_h (upd_instr 6 0 0 0) (funder key_C)
      (price_account sample_three) (clock_account 21) _ 7 9 11 (by decide) (by decide)
      (by decide) (by decide) (by decide) (by decide) (by decide) (by decide)).1⟩

/-- C7 (witness): with only a stale quote, the aggregation at slot 12 sets the status to
UNKNOWN (0) and keeps the aggregate price 100 and confidence 2. -/
theorem C7_no_contributors_witness :
    (upd_aggregate sample_h sample_quiet key_A 12).map
      (fun r => (r.agg_.status_, r.agg_.price_, r.agg_.conf_)) = some (0, 100, 2) := by
  obtain ⟨r, h1, h2, h3, h4⟩ := C7_no_contributors sample_h sample_quiet key_A 12
    (by decide) (by decide) (by decide) (by
      intro i hi
      have hi2 : i < 2 := hi
      interval_cases i <;> decide)
  rw [h1, Option.map_some', h2, h3, h4]
  rfl

/-- C8 (witness): scenario 2 from the bootstrap of scenario 1; at slot 11 the aggregate is
A's quote of slot 10 whether A now sends 101 or 555. -/
theorem C8_quote_not_in_own_aggregate_witness :
    scenario_bootstrap.map Prod.snd = some (sample_price [member key_A, member key_B] 0) ∧
    scenario_single.map (fun p => (p.curr_slot_, p.valid_slot_, p.agg_)) =
      some (11, 10, ⟨100, 2, 1, 11⟩) ∧
    (price_of (upd_price sample_h (upd_instr 5 101 2 1) (funder key_A)
      (price_account sample_after_first) (clock_account 11))).agg_ =
    (price_of (upd_price sample_h (upd_instr 5 555 9 0) (funder key_A)
      (price_account sample_after_first) (clock_account 11))).agg_ :=
  ⟨by decide, by decide,
    (C8_quote_not_in_own_aggregate sample_h (upd_instr 5 101 2 1) 555 9 0 (funder key_A)
      (price_account sample_after_first) (clock_account 11) _ _ (by decide) (by decide)).1.1⟩

/-- C9 (witness): on the roster [A, B], `add_publisher(C)` followed by `del_publisher(C)`
succeeds and restores `num_ = 2` with `comp_[2]` zero. -/
theorem C9_add_del_round_trip_witness :
    del_publisher sample_h (del_pub_instr key_C) (funder key_D)
      (price_account (price_of (add_publisher sample_h (add_pub_instr key_C) (funder key_D)
        (price_account sample_roster_two)))) = some (SUCCESS, sample_roster_two) := by
  obtain ⟨p2, h1, _, _, _, h5⟩ := C9_add_del_round_trip sample_h (add_pub_instr key_C)
    (del_pub_instr key_C) (funder key_D) (price_account sample_roster_two)
    (price_of (add_publisher sample_h (add_pub_instr key_C) (funder key_D)
      (price_account sample_roster_two)))
    (by decide) (by decide) (by decide) (by decide) (by decide) (by decide) (by decide)
    (by decide) (by decide)
  refine h1.trans ?_
  rw [h5]
  decide

/-- C10 (witness): scenario 6, `del_publisher(B)` on the roster [A, B, C, D] gives
[A, C, D], `comp_[3]` zero and `num_ = 3`. -/
theorem C10_del_publisher_removes_one_witness :
    del_publisher sample_h (del_pub_instr key_B) (funder key_D)
      (price_account sample_roster_four) =
      some (SUCCESS, sample_price [quoting key_A 100 1 30, quoting key_C 300 4 30,
        quoting key_D 400 8 30] 30) ∧
    ∃ code p2, del_publisher sample_h (del_pub_instr key_B) (funder key_D)
        (price_account sample_roster_four) = some (code, p2) ∧
      (code = SUCCESS ↔ ∃ i, i < 4 ∧
        (comp_at sample_roster_four.comp_ i).pub_ = key_B) := by
  obtain ⟨code, p2, h1, h2, _⟩ := C10_del_publisher_removes_one sample_h (del_pub_instr key_B)
    (funder key_D) (price_account sample_roster_four) (by decide) (by decide) (by decide)
    (by decide)
  exact ⟨by decide, code, p2, h1, h2⟩

theorem add_publisher_scan_absent (k : pc_pub_key_t) (comp_ : List pc_price_comp_t) :
    ∀ (n i : Nat), i + n ≤ comp_.length →
      (∀ j, i ≤ j → j < i + n → (comp_at comp_ j).pub_ ≠ k) →
      add_publisher_scan k comp_ n i = some false := by
  intro n
  induction n with
  | zero => intro i _ _; simp [add_publisher_scan]
  | succ n ih =>
    intro i hlen hne
    have hi : i < comp_.length := by omega
    have h1 := (pc_pub_key_equal_false_iff _ _).2 (hne i (Nat.le_refl i) (by omega))
    simp only [add_publisher_scan, comp_at_of_lt hi, h1, Bool.false_eq_true, if_false]
    exact ih (i + 1) (by omega) (fun j hj1 hj2 => hne j (by omega) (by omega))

theorem add_publisher_scan_present (k : pc_pub_key_t) (comp_ : List pc_price_comp_t) :
    ∀ (n i : Nat), i + n ≤ comp_.length →
      (∃ j, i ≤ j ∧ j < i + n ∧ (comp_at comp_ j).pub_ = k) →
      add_publisher_scan k comp_ n i = some true := by
  intro n
  induction n with
  | zero => intro i _ h; obtain ⟨j, h1, h2, _⟩ := h; omega
  | succ n ih =>
    intro i hlen hex
    have hi : i < comp_.length := by omega
    simp only [add_publisher_scan, comp_at_of_lt hi]
    by_cases hk : (comp_at comp_ i).pub_ = k
    · simp [(pc_pub_key_equal_iff _ _).2 hk]
    · have h1 := (pc_pub_key_equal_false_iff _ _).2 hk
      simp only [h1, Bool.false_eq_true, if_false]
      obtain ⟨j, hj1, hj2, hj3⟩ := hex
      refine ih (i + 1) (by omega) ⟨j, ?_, by omega, hj3⟩
      rcases Nat.eq_or_lt_of_le hj1 with e | e
      · subst e; exact (hk hj3).elim
      · omega

/-- The outcome of `add_publisher` on a well-formed price account that passes the checks:
rejection without a change when the key is in the roster or the roster is full, otherwise
the new entry at `comp_[num_]`. -/
theorem add_publisher_spec (K : oracle_h) (prm : SolParameters cmd_add_publisher_t)
    (ka0 : SolAccountInfo Unit) (ka1 : SolAccountInfo pc_price_t)
    (hK : K.PC_COMP_SIZE < 2 ^ 32)
    (hnum : ka1.data.num_ ≤ K.PC_COMP_SIZE) (hlen : ka1.data.comp_.length = K.PC_COMP_SIZE)
    (hchk : add_publisher_checks K prm ka0 ka1 = true) :
    add_publisher K prm ka0 ka1 =
      if (∀ i, i < ka1.data.num_ → (comp_at ka1.data.comp_ i).pub_ ≠ prm.data.pub_) ∧
          ka1.data.num_ < K.PC_COMP_SIZE then
        some (SUCCESS, { ka1.data with
          num_ := ka1.data.num_ + 1
          comp_ := ka1.data.comp_.set ka1.data.num_ { zero_comp with pub_ := prm.data.pub_ } })
      else some (ERROR_INVALID_ARGUMENT, ka1.data) := by
  classical
  rw [add_publisher_eq, if_pos hchk]
  by_cases hex : ∃ j, 0 ≤ j ∧ j < 0 + ka1.data.num_ ∧
      (comp_at ka1.data.comp_ j).pub_ = prm.data.pub_
  · rw [add_publisher_scan_present _ _ _ _ (by omega) hex]
    obtain ⟨j, _, hj, hk⟩ := hex
    have hno : ¬ ((∀ i, i < ka1.data.num_ →
        (comp_at ka1.data.comp_ i).pub_ ≠ prm.data.pub_) ∧
        ka1.data.num_ < K.PC_COMP_SIZE) := fun h => h.1 j (by omega) hk
    rw [if_neg hno]
  · have hall : ∀ j, 0 ≤ j → j < 0 + ka1.data.num_ →
        (comp_at ka1.data.comp_ j).pub_ ≠ prm.data.pub_ :=
      fun j h1 h2 h3 => hex ⟨j, h1, h2, h3⟩
    rw [add_publisher_scan_absent _ _ _ _ (by omega) hall]
    have hall1 : ∀ i, i < ka1.data.num_ → (comp_at ka1.data.comp_ i).pub_ ≠ prm.data.pub_ :=
      fun i hi => hall i (Nat.zero_le _) (by omega)
    by_cases hcap : ka1.data.num_ < K.PC_COMP_SIZE
    · have h1 : ¬ (ka1.data.num_ ≥ K.PC_COMP_SIZE) := by omega
      have h2 : ka1.data.num_ < ka1.data.comp_.length := by omega
      have h3 : (ka1.data.num_ + 1) % 2 ^ 32 = ka1.data.num_ + 1 := by omega
      simp only [h1, if_false, h2, if_true, h3]
      rw [if_pos ⟨hall1, hcap⟩]
    · have h1 : ka1.data.num_ ≥ K.PC_COMP_SIZE := by omega
      simp only [h1, if_true]
      rw [if_neg (fun h => hcap h.2)]

/-- C11: under the parameter and account checks, `add_publisher` returns success exactly
when the key is not in the roster and `num_ < PC_COMP_SIZE` (so it returns invalid argument
when `num_ = PC_COMP_SIZE`); on failure the account is unchanged; on success `comp_[num_]`
holds the key and zeros, `num_` is incremented and nothing else changes. -/
theorem C11_add_publisher_capacity_and_duplicates (K : oracle_h)
    (prm : SolParameters cmd_add_publisher_t)
    (ka0 : SolAccountInfo Unit) (ka1 : SolAccountInfo pc_price_t)
    (hK : K.PC_COMP_SIZE < 2 ^ 32)
    (hnum : ka1.data.num_ ≤ K.PC_COMP_SIZE) (hlen : ka1.data.comp_.length = K.PC_COMP_SIZE)
    (hchk : add_publisher_checks K prm ka0 ka1 = true) :
    ∃ code p2, add_publisher K prm ka0 ka1 = some (code, p2) ∧
      (code = SUCCESS ∨ code = ERROR_INVALID_ARGUMENT) ∧
      (code = SUCCESS ↔
        (∀ i, i < ka1.data.num_ → (comp_at ka1.data.comp_ i).pub_ ≠ prm.data.pub_) ∧
          ka1.data.num_ < K.PC_COMP_SIZE) ∧
      (ka1.data.num_ = K.PC_COMP_SIZE → code = ERROR_INVALID_ARGUMENT) ∧
      (code ≠ SUCCESS → p2 = ka1.data) ∧
      (code = SUCCESS →
        comp_at p2.comp_ ka1.data.num_ =
          (⟨prm.data.pub_, zero_info, zero_info⟩ : pc_price_comp_t) ∧
        p2.num_ = ka1.data.num_ + 1 ∧
        (∀ j, j ≠ ka1.data.num_ → comp_at p2.comp_ j = comp_at ka1.data.comp_ j) ∧
        p2 = { ka1.data with num_ := p2.num_, comp_ := p2.comp_ }) := by
  classical
  have hspec := add_publisher_spec K prm ka0 ka1 hK hnum hlen hchk
  have hne : ERROR_INVALID_ARGUMENT ≠ SUCCESS := by decide
  by_cases hc : (∀ i, i < ka1.data.num_ → (comp_at ka1.data.comp_ i).pub_ ≠ prm.data.pub_) ∧
      ka1.data.num_ < K.PC_COMP_SIZE
  · rw [if_pos hc] at hspec
    refine ⟨_, _, hspec, Or.inl rfl, ⟨fun _ => hc, fun _ => rfl⟩, ?_, fun h => (h rfl).elim, ?_⟩
    · intro h; omega
    · intro _
      refine ⟨?_, rfl, ?_, rfl⟩
      · show comp_at (ka1.data.comp_.set _ _) _ = _
        rw [comp_at_set, if_pos ⟨rfl, by omega⟩]
        rfl
      · intro j hj
        show comp_at (ka1.data.comp_.set _ _) _ = _
        rw [comp_at_set, if_neg (fun h => hj h.1.symm)]
  · rw [if_neg hc] at hspec
    refine ⟨_, _, hspec, Or.inr rfl, ⟨fun h => (hne h).elim, fun h => (hc h).elim⟩,
      fun _ => rfl, fun _ => rfl, fun h => (hne h).elim⟩

theorem pc_symbol_equal_iff (a b : pc_symbol_t) : pc_symbol_equal a b = true ↔ a = b := by
  cases a; cases b
  simp [pc_symbol_equal, and_assoc]

theorem upd_price_matches_iff (K : oracle_h) (prm : SolParameters cmd_upd_price_t)
    (ka1 : SolAccountInfo pc_price_t) :
    upd_price_matches K prm ka1 = true ↔
      (ka1.data.magic_ = K.PC_MAGIC ∧ ka1.data.ver_ ≤ K.PC_VERSION ∧
        ka1.data.ptype_ = prm.data.ptype_ ∧ ka1.data.sym_ = prm.data.sym_) := by
  unfold upd_price_matches
  simp only [Bool.not_eq_true', Bool.or_eq_false_iff, bne_eq_false_iff_eq, decide_eq_false_iff_not,
    Nat.not_lt, Bool.not_eq_false', pc_symbol_equal_iff, gt_iff_lt, and_assoc]

theorem upd_price_eq (K : oracle_h) (prm : SolParameters cmd_upd_price_t)
    (ka0 : SolAccountInfo Unit) (ka1 : SolAccountInfo pc_price_t)
    (ka2 : SolAccountInfo sysvar_clock_t) :
    upd_price K prm ka0 ka1 ka2 =
      if upd_price_checks K prm ka0 ka1 ka2 = true then
        if upd_price_matches K prm ka1 = true then
          match upd_price_find ka0.key ka1.data.comp_ ka1.data.num_ 0 with
          | none => none
          | some i =>
            if i = ka1.data.num_ then some (ERROR_INVALID_ARGUMENT, ka1.data)
            else
              match (if ka2.data.slot_ > ka1.data.curr_slot_ then
                  upd_aggregate K ka1.data ka0.key ka2.data.slot_ else some ka1.data) with
              | none => none
              | some q =>
                if prm.data.cmd_ = K.e_cmd_upd_price then
                  match q.comp_[i]? with
                  | none => none
                  | some c =>
                    some (SUCCESS, { q with comp_ := q.comp_.set i { c with latest_ :=
                      ⟨prm.data.price_, prm.data.conf_, prm.data.status_, ka2.data.slot_⟩ } })
                else some (SUCCESS, q)
        else some (ERROR_INVALID_ARGUMENT, ka1.data)
      else some (ERROR_INVALID_ARGUMENT, ka1.data) := by
  unfold upd_price upd_price_checks upd_price_matches
  dsimp only
  split
  · rename_i h; simp [h]
  · rename_i h
    split
    · rename_i h1; simp [h1]
    · rename_i h1
      split
      · rename_i h2; simp [h, h1, h2]
      · rename_i h2
        simp only [h, h1, h2, Bool.not_false, Bool.and_self, if_true, beq_iff_eq]
        try rfl

theorem upd_price_find_absent (k : pc_pub_key_t) (comp_ : List pc_price_comp_t) :
    ∀ (n i : Nat), i + n ≤ comp_.length →
      (∀ j, i ≤ j → j < i + n → (comp_at comp_ j).pub_ ≠ k) →
      upd_price_find k comp_ n i = some (i + n) := by
  intro n
  induction n with
  | zero => intro i _ _; simp [upd_price_find]
  | succ n ih =>
    intro i hlen hne
    have hi : i < comp_.length := by omega
    have h1 : pc_pub_key_equal k (comp_at comp_ i).pub_ = false :=
      (pc_pub_key_equal_false_iff _ _).2 (fun e => hne i (Nat.le_refl i) (by omega) e.symm)
    simp only [upd_price_find, comp_at_of_lt hi, h1, Bool.false_eq_true, if_false]
    rw [ih (i + 1) (by omega) (fun j hj1 hj2 => hne j (by omega) (by omega))]
    congr 1
    omega

theorem upd_price_find_present (k : pc_pub_key_t) (comp_ : List pc_price_comp_t) (i0 : Nat)
    (hi0 : i0 < comp_.length) (hkey : (comp_at comp_ i0).pub_ = k) :
    ∀ (n i : Nat), i ≤ i0 → i0 < i + n →
      (∀ j, i ≤ j → j < i0 → (comp_at comp_ j).pub_ ≠ k) →
      upd_price_find k comp_ n i = some i0 := by
  intro n
  induction n with
  | zero => intro i h1 h2 _; omega
  | succ n ih =>
    intro i hle hlt hne
    have hi : i < comp_.length := by omega
    rcases Nat.eq_or_lt_of_le hle with e | e
    · subst e
      simp [upd_price_find, comp_at_of_lt hi, (pc_pub_key_equal_iff _ _).2 hkey.symm]
    · have h1 : pc_pub_key_equal k (comp_at comp_ i).pub_ = false :=
        (pc_pub_key_equal_false_iff _ _).2 (fun e1 => hne i (Nat.le_refl i) e e1.symm)
      simp only [upd_price_find, comp_at_of_lt hi, h1, Bool.false_eq_true, if_false]
      exact ih (i + 1) (by omega) (by omega) (fun j hj1 hj2 => hne j (by omega) hj2)

/-- The outcome of `upd_price` on a well-formed price account: it returns, with success
exactly when the three guards pass and the funder's key is in the roster, and with invalid
argument and an unchanged account otherwise. -/
theorem upd_price_outcome (K : oracle_h) (prm : SolParameters cmd_upd_price_t)
    (ka0 : SolAccountInfo Unit) (ka1 : SolAccountInfo pc_price_t)
    (ka2 : SolAccountInfo sysvar_clock_t)
    (hnum : ka1.data.num_ ≤ K.PC_COMP_SIZE) (hlen : ka1.data.comp_.length = K.PC_COMP_SIZE)
    (h31 : ka1.data.num_ < 2 ^ 31) :
    ∃ code p2, upd_price K prm ka0 ka1 ka2 = some (code, p2) ∧
      ((code = SUCCESS ∧ upd_price_checks K prm ka0 ka1 ka2 = true ∧
          upd_price_matches K prm ka1 = true ∧
          ∃ i, i < ka1.data.num_ ∧ (comp_at ka1.data.comp_ i).pub_ = ka0.key) ∨
        (code = ERROR_INVALID_ARGUMENT ∧ p2 = ka1.data ∧
          ¬ (upd_price_checks K prm ka0 ka1 ka2 = true ∧ upd_price_matches K prm ka1 = true ∧
            ∃ i, i < ka1.data.num_ ∧ (comp_at ka1.data.comp_ i).pub_ = ka0.key))) := by
  classical
  rw [upd_price_eq]
  by_cases hchk : upd_price_checks K prm ka0 ka1 ka2 = true
  swap
  · rw [if_neg hchk]
    exact ⟨_, _, rfl, Or.inr ⟨rfl, rfl, fun h => hchk h.1⟩⟩
  rw [if_pos hchk]
  by_cases hm : upd_price_matches K prm ka1 = true
  swap
  · rw [if_neg hm]
    exact ⟨_, _, rfl, Or.inr ⟨rfl, rfl, fun h => hm h.2.1⟩⟩
  rw [if_pos hm]
  by_cases hex : ∃ i, i < ka1.data.num_ ∧ (comp_at ka1.data.comp_ i).pub_ = ka0.key
  swap
  · rw [upd_price_find_absent ka0.key ka1.data.comp_ ka1.data.num_ 0 (by omega)
      (fun j _ hj hk => hex ⟨j, by omega, hk⟩)]
    simp only [Nat.zero_add, if_true]
    exact ⟨_, _, rfl, Or.inr ⟨rfl, rfl, fun h => hex h.2.2⟩⟩
  have hmin : ∀ j, j < Nat.find hex → (comp_at ka1.data.comp_ j).pub_ ≠ ka0.key := by
    intro j hj hk
    exact Nat.find_min hex hj ⟨Nat.lt_trans hj (Nat.find_spec hex).1, hk⟩
  obtain ⟨hi0, hkey⟩ := Nat.find_spec hex
  rw [upd_price_find_present ka0.key ka1.data.comp_ (Nat.find hex) (by omega) hkey
    ka1.data.num_ 0 (Nat.zero_le _) (by omega) (fun j _ hj => hmin j hj)]
  have hne : ¬ (Nat.find hex = ka1.data.num_) := by omega
  simp only [hne, if_false]
  have hq : ∃ q, (if ka2.data.slot_ > ka1.data.curr_slot_ then
      upd_aggregate K ka1.data ka0.key ka2.data.slot_ else some ka1.data) = some q ∧
      q.comp_.length = ka1.data.comp_.length := by
    by_cases hs : ka2.data.slot_ > ka1.data.curr_slot_
    · obtain ⟨L, _, hres⟩ := upd_aggregate_spec K ka1.data ka0.key ka2.data.slot_ hs hnum hlen
        h31
      rw [if_pos hs, hres]
      exact ⟨_, rfl, snap_length _ _⟩
    · rw [if_neg hs]
      exact ⟨_, rfl, rfl⟩
  obtain ⟨q, hq1, hq2⟩ := hq
  rw [hq1]
  by_cases hcmd : prm.data.cmd_ = K.e_cmd_upd_price
  · simp only [hcmd, if_true, comp_at_of_lt (show Nat.find hex < q.comp_.length by omega)]
    exact ⟨_, _, rfl, Or.inl ⟨rfl, hchk, hm, hex⟩⟩
  · simp only [hcmd, if_false]
    exact ⟨_, _, rfl, Or.inl ⟨rfl, hchk, hm, hex⟩⟩

/-- C16: under the parameter and account-metadata checks, `upd_price` / `agg_price` returns
success exactly when the price account has magic `PC_MAGIC`, a version not above
`PC_VERSION`, the price type and symbol of the instruction, and the funder's key in
`comp_[0..num_)`; when it returns invalid argument the price account is unchanged. -/
theorem C16_upd_price_acceptance (K : oracle_h) (prm : SolParameters cmd_upd_price_t)
    (ka0 : SolAccountInfo Unit) (ka1 : SolAccountInfo pc_price_t)
    (ka2 : SolAccountInfo sysvar_clock_t) (hK : K.PC_COMP_SIZE < 2 ^ 31)
    (hnum : ka1.data.num_ ≤ K.PC_COMP_SIZE) (hlen : ka1.data.comp_.length = K.PC_COMP_SIZE)
    (hchk : upd_price_checks K prm ka0 ka1 ka2 = true) :
    ∃ code p2, upd_price K prm ka0 ka1 ka2 = some (code, p2) ∧
      (code = SUCCESS ∨ code = ERROR_INVALID_ARGUMENT) ∧
      (code = SUCCESS ↔
        ka1.data.magic_ = K.PC_MAGIC ∧ ka1.data.ver_ ≤ K.PC_VERSION ∧
        ka1.data.ptype_ = prm.data.ptype_ ∧ ka1.data.sym_ = prm.data.sym_ ∧
        ∃ i, i < ka1.data.num_ ∧ (comp_at ka1.data.comp_ i).pub_ = ka0.key) ∧
      (code = ERROR_INVALID_ARGUMENT → p2 = ka1.data) := by
  obtain ⟨code, p2, h, hcase⟩ := upd_price_outcome K prm ka0 ka1 ka2 hnum hlen (by omega)
  have hne : ERROR_INVALID_ARGUMENT ≠ SUCCESS := by decide
  refine ⟨code, p2, h, ?_, ?_, ?_⟩
  · rcases hcase with ⟨e, _⟩ | ⟨e, _⟩
    · exact Or.inl e
    · exact Or.inr e
  · rcases hcase with ⟨e, _, hm, hex⟩ | ⟨e, _, hno⟩
    · obtain ⟨a, b, c, d⟩ := (upd_price_matches_iff K prm ka1).1 hm
      exact ⟨fun _ => ⟨a, b, c, d, hex⟩, fun _ => e⟩
    · constructor
      · intro e1
        rw [e] at e1
        exact (hne e1).elim
      · rintro ⟨a, b, c, d, hex⟩
        exact (hno ⟨hchk, (upd_price_matches_iff K prm ka1).2 ⟨a, b, c, d⟩, hex⟩).elim
  · rcases hcase with ⟨e, _⟩ | ⟨_, e, _⟩
    · intro e1
      rw [e] at e1
      exact (hne e1.symm).elim
    · exact fun _ => e

theorem agg_loop_frame (K : oracle_h) (slot : Nat) :
    ∀ (n i : Nat) (comp_ : List pc_price_comp_t) (aidx : List Nat) (numa : Nat)
      (r : List pc_price_comp_t × List Nat × Nat),
      agg_loop K slot n i comp_ aidx numa = some r →
      r.1.length = comp_.length ∧
      ∀ j, (comp_at r.1 j).latest_ = (comp_at comp_ j).latest_ ∧
        (comp_at r.1 j).pub_ = (comp_at comp_ j).pub_ := by
  intro n
  induction n with
  | zero =>
    intro i comp_ aidx numa r h
    simp only [agg_loop, Option.some.injEq] at h
    subst h
    exact ⟨rfl, fun _ => ⟨rfl, rfl⟩⟩
  | succ n ih =>
    intro i comp_ aidx numa r h
    simp only [agg_loop] at h
    split at h
    · cases h
    · rename_i c hc
      have hstep : ∀ j, (comp_at (comp_.set i { c with agg_ := c.latest_ }) j).latest_
            = (comp_at comp_ j).latest_ ∧
          (comp_at (comp_.set i { c with agg_ := c.latest_ }) j).pub_
            = (comp_at comp_ j).pub_ := by
        intro j
        rw [comp_at_set]
        split
        · rename_i hij
          rw [← hij.1, comp_at_eq_of_get hc]
          exact ⟨rfl, rfl⟩
        · exact ⟨rfl, rfl⟩
      have hfin : ∀ (a : List Nat) (m : Nat),
          agg_loop K slot n (i + 1) (comp_.set i { c with agg_ := c.latest_ }) a m = some r →
          r.1.length = comp_.length ∧
          ∀ j, (comp_at r.1 j).latest_ = (comp_at comp_ j).latest_ ∧
            (comp_at r.1 j).pub_ = (comp_at comp_ j).pub_ := by
        intro a m h1
        obtain ⟨e1, e2⟩ := ih (i + 1) _ a m r h1
        refine ⟨by rw [e1, List.length_set], fun j => ?_⟩
        exact ⟨(e2 j).1.trans (hstep j).1, (e2 j).2.trans (hstep j).2⟩
      split at h
      · split at h
        · split at h
          · cases h
          · split at h
            · exact hfin _ _ h
            · cases h
        · cases h
      · exact hfin _ _ h

/-- The frame of `upd_aggregate`: whenever it returns, the roster length, `num_`, the
symbol, the price type, the exponent, the publisher keys and the latest quotes are as
before. -/
theorem upd_aggregate_frame {K : oracle_h} {ptr q : pc_price_t} {kptr : pc_pub_key_t}
    {slot : Nat} (h : upd_aggregate K ptr kptr slot = some q) :
    q.num_ = ptr.num_ ∧ q.sym_ = ptr.sym_ ∧ q.ptype_ = ptr.ptype_ ∧ q.expo_ = ptr.expo_ ∧
      q.comp_.length = ptr.comp_.length ∧
      ∀ j, (comp_at q.comp_ j).latest_ = (comp_at ptr.comp_ j).latest_ ∧
        (comp_at q.comp_ j).pub_ = (comp_at ptr.comp_ j).pub_ := by
  unfold upd_aggregate at h
  by_cases hs : slot ≤ ptr.curr_slot_
  · simp only [hs, if_true, Option.some.injEq] at h
    subst h
    exact ⟨rfl, rfl, rfl, rfl, rfl, fun _ => ⟨rfl, rfl⟩⟩
  · simp only [hs, if_false] at h
    split at h
    · cases h
    · rename_i comp1 aidx numa hloop
      obtain ⟨e1, e2⟩ := agg_loop_frame K slot _ _ _ _ _ _ hloop
      have e1a : comp1.length = ptr.comp_.length := e1
      have e2a : ∀ j, (comp_at comp1 j).latest_ = (comp_at ptr.comp_ j).latest_ ∧
          (comp_at comp1 j).pub_ = (comp_at ptr.comp_ j).pub_ := e2
      split at h
      · cases h; exact ⟨rfl, rfl, rfl, rfl, e1a, e2a⟩
      · split at h
        · cases h
        · split at h
          · cases h
          · split at h
            · split at h
              · cases h
              · split at h
                · cases h
                · cases h; exact ⟨rfl, rfl, rfl, rfl, e1a, e2a⟩
            · cases h; exact ⟨rfl, rfl, rfl, rfl, e1a, e2a⟩

/-- C17: a successful call with command `upd_price` by the publisher found at roster index
`i` leaves `comp_[i].latest_` equal to the instruction's price, confidence and status with
the clock slot, and leaves every other latest quote, every publisher key, `num_`, the
symbol, the price type and the exponent unchanged; a successful call with another command
(`agg_price`) leaves every latest quote unchanged. -/
theorem C17_quote_write_and_frame (K : oracle_h) (prm : SolParameters cmd_upd_price_t)
    (ka0 : SolAccountInfo Unit) (ka1 : SolAccountInfo pc_price_t)
    (ka2 : SolAccountInfo sysvar_clock_t) (p1 : pc_price_t)
    (h : upd_price K prm ka0 ka1 ka2 = some (SUCCESS, p1)) :
    ∃ i, upd_price_find ka0.key ka1.data.comp_ ka1.data.num_ 0 = some i ∧ i < ka1.data.num_ ∧
      (comp_at ka1.data.comp_ i).pub_ = ka0.key ∧
      p1.num_ = ka1.data.num_ ∧ p1.sym_ = ka1.data.sym_ ∧ p1.ptype_ = ka1.data.ptype_ ∧
      p1.expo_ = ka1.data.expo_ ∧
      (∀ j, (comp_at p1.comp_ j).pub_ = (comp_at ka1.data.comp_ j).pub_) ∧
      (prm.data.cmd_ = K.e_cmd_upd_price →
        (comp_at p1.comp_ i).latest_ =
          ⟨prm.data.price_, prm.data.conf_, prm.data.status_, ka2.data.slot_⟩ ∧
        ∀ j, j ≠ i → (comp_at p1.comp_ j).latest_ = (comp_at ka1.data.comp_ j).latest_) ∧
      (prm.data.cmd_ ≠ K.e_cmd_upd_price →
        ∀ j, (comp_at p1.comp_ j).latest_ = (comp_at ka1.data.comp_ j).latest_) ∧
      (prm.data.cmd_ = K.e_cmd_agg_price → K.e_cmd_agg_price ≠ K.e_cmd_upd_price →
        ∀ j, (comp_at p1.comp_ j).latest_ = (comp_at ka1.data.comp_ j).latest_) := by
  obtain ⟨i, q, hfind, hne, hq, hp⟩ := upd_price_success h
  obtain ⟨_, hle, hfound, _⟩ := upd_price_find_spec _ _ _ _ _ hfind
  have hi : i < ka1.data.num_ := by omega
  obtain ⟨c, hc, hkey⟩ := hfound (by omega)
  have hfr : q.num_ = ka1.data.num_ ∧ q.sym_ = ka1.data.sym_ ∧ q.ptype_ = ka1.data.ptype_ ∧
      q.expo_ = ka1.data.expo_ ∧ q.comp_.length = ka1.data.comp_.length ∧
      ∀ j, (comp_at q.comp_ j).latest_ = (comp_at ka1.data.comp_ j).latest_ ∧
        (comp_at q.comp_ j).pub_ = (comp_at ka1.data.comp_ j).pub_ := by
    by_cases hs : ka2.data.slot_ > ka1.data.curr_slot_
    · simp only [hs, if_true] at hq
      exact upd_aggregate_frame hq
    · simp only [hs, if_false, Option.some.injEq] at hq
      subst hq
      exact ⟨rfl, rfl, rfl, rfl, rfl, fun _ => ⟨rfl, rfl⟩⟩
  obtain ⟨f1, f2, f3, f4, f5, f6⟩ := hfr
  refine ⟨i, hfind, hi, by rw [comp_at_eq_of_get hc]; exact hkey, ?_⟩
  rcases hp with ⟨hcmd, c1, hc1, e⟩ | ⟨hcmd, e⟩
  · subst e
    have hil : i < q.comp_.length := by
      rcases Nat.lt_or_ge i q.comp_.length with h1 | h1
      · exact h1
      · rw [List.getElem?_eq_none h1] at hc1; cases hc1
    refine ⟨f1, f2, f3, f4, ?_, ?_, fun h1 => (h1 hcmd).elim, fun h1 h2 => (h2 (h1 ▸ hcmd)).elim⟩
    · intro j
      show (comp_at (q.comp_.set i _) j).pub_ = _
      rw [comp_at_set]
      split
      · rename_i hij
        rw [← hij.1]
        show c1.pub_ = _
        rw [← (f6 i).2, comp_at_eq_of_get hc1]
      · exact (f6 j).2
    · intro _
      constructor
      · show (comp_at (q.comp_.set i _) i).latest_ = _
        rw [comp_at_set, if_pos ⟨rfl, hil⟩]
      · intro j hj
        show (comp_at (q.comp_.set i _) j).latest_ = _
        rw [comp_at_set, if_neg (fun hh => hj hh.1.symm)]
        exact (f6 j).1
  · subst e
    exact ⟨f1, f2, f3, f4, fun j => (f6 j).2, fun h1 => (hcmd h1).elim,
      fun _ j => (f6 j).1, fun _ _ j => (f6 j).1⟩

theorem init_mapping_eq (K : oracle_h) (prm : SolParameters cmd_hdr_t)
    (ka0 : SolAccountInfo Unit) (ka1 : SolAccountInfo pc_map_table_t) :
    init_mapping K prm ka0 ka1 =
      if init_mapping_accepts K prm ka0 ka1 = true then
        some (SUCCESS, { zero_table K with magic_ := K.PC_MAGIC, ver_ := K.PC_VERSION })
      else some (ERROR_INVALID_ARGUMENT, ka1.data) := by
  unfold init_mapping init_mapping_accepts
  dsimp only
  split
  · rename_i h; simp [h]
  · rename_i h
    split
    · rename_i h1; simp [h1]
    · rename_i h1; simp [h, h1]

theorem init_mapping_accepts_iff (K : oracle_h) (prm : SolParameters cmd_hdr_t)
    (ka0 : SolAccountInfo Unit) (ka1 : SolAccountInfo pc_map_table_t) :
    init_mapping_accepts K prm ka0 ka1 = true ↔
      (2 ≤ prm.ka_num ∧ ka0.is_signer = true ∧ ka0.is_writable = true ∧
        ka1.is_signer = true ∧ ka1.is_writable = true ∧ ka1.owner = prm.program_id ∧
        K.sizeof_pc_map_table_t ≤ ka1.data_len ∧
        ka1.data.magic_ = 0 ∧ ka1.data.ver_ = 0) := by
  unfold init_mapping_accepts valid_funding_account valid_signable_account
  simp only [Bool.and_eq_true, Bool.not_eq_true', Bool.or_eq_false_iff, decide_eq_false_iff_not,
    Nat.not_lt, Bool.not_eq_false', decide_eq_true_eq, pc_pub_key_equal_iff,
    bne_eq_false_iff_eq, ge_iff_le, and_assoc]

/-- C19: `init_mapping` returns success exactly when at least two accounts are supplied,
the funder is signer and writable, the table account is signer, writable, program-owned and
at least `sizeof( pc_map_table_t )` long, and the table's magic and version are both zero;
on success the table is all zero except magic and version, on failure it is unchanged; so
(magic or version being non-zero constants) a second `init_mapping` on that table fails
and leaves it unchanged. -/
theorem C19_init_mapping_one_shot (K : oracle_h) (prm : SolParameters cmd_hdr_t)
    (ka0 : SolAccountInfo Unit) (ka1 : SolAccountInfo pc_map_table_t) :
    ∃ code t2, init_mapping K prm ka0 ka1 = some (code, t2) ∧
      (code = SUCCESS ∨ code = ERROR_INVALID_ARGUMENT) ∧
      (code = SUCCESS ↔
        2 ≤ prm.ka_num ∧ ka0.is_signer = true ∧ ka0.is_writable = true ∧
        ka1.is_signer = true ∧ ka1.is_writable = true ∧ ka1.owner = prm.program_id ∧
        K.sizeof_pc_map_table_t ≤ ka1.data_len ∧
        ka1.data.magic_ = 0 ∧ ka1.data.ver_ = 0) ∧
      (code = SUCCESS →
        t2 = { zero_table K with magic_ := K.PC_MAGIC, ver_ := K.PC_VERSION } ∧
        t2.num_ = 0 ∧ t2.next_ = zero_key ∧ (∀ b, b ∈ t2.tab_ → b = 0) ∧
        t2.tab_.length = K.PC_MAP_TABLE_SIZE ∧ (∀ n, n ∈ t2.nds_ → n = zero_node) ∧
        t2.nds_.length = K.PC_MAP_NODE_SIZE) ∧
      (code ≠ SUCCESS → t2 = ka1.data) ∧
      (code = SUCCESS → (K.PC_MAGIC ≠ 0 ∨ K.PC_VERSION ≠ 0) →
        ∀ (prm2 : SolParameters cmd_hdr_t) (kb0 : SolAccountInfo Unit)
          (kb1 : SolAccountInfo pc_map_table_t), kb1.data = t2 →
          init_mapping K prm2 kb0 kb1 = some (ERROR_INVALID_ARGUMENT, t2)) := by
  have hne : ERROR_INVALID_ARGUMENT ≠ SUCCESS := by decide
  rw [init_mapping_eq]
  by_cases hacc : init_mapping_accepts K prm ka0 ka1 = true
  · rw [if_pos hacc]
    refine ⟨_, _, rfl, Or.inl rfl,
      ⟨fun _ => (init_mapping_accepts_iff K prm ka0 ka1).1 hacc, fun _ => rfl⟩,
      fun _ => ⟨rfl, rfl, rfl, ?_, ?_, ?_, ?_⟩, fun h1 => (h1 rfl).elim, ?_⟩
    · intro b hb
      exact List.eq_of_mem_replicate hb
    · simp [zero_table]
    · intro n hn
      exact List.eq_of_mem_replicate hn
    · simp [zero_table]
    · intro _ hk prm2 kb0 kb1 hkb
      rw [init_mapping_eq, if_neg, hkb]
      intro h2
      have h3 := (init_mapping_accepts_iff K prm2 kb0 kb1).1 h2
      rw [hkb] at h3
      rcases hk with h1 | h1
      · exact h1 h3.2.2.2.2.2.2.2.1
      · exact h1 h3.2.2.2.2.2.2.2.2
  · rw [if_neg hacc]
    exact ⟨_, _, rfl, Or.inr rfl,
      ⟨fun h1 => (hne h1).elim, fun h1 => (hacc ((init_mapping_accepts_iff K prm ka0 ka1).2 h1)).elim⟩,
      fun h1 => (hne h1).elim, fun _ => rfl, fun h1 => (hne h1).elim⟩

theorem comp_at_snap_lt {n a : Nat} {comp0 : List pc_price_comp_t} (h : a < n)
    (ha : a < comp0.length) : comp_at (snap n comp0) a = snapshot (comp_at comp0 a) :=
  comp_at_eq_of_get (snap_get_lt h ha)

/-- C20: the component loop of `upd_aggregate` ends without an access outside `comp_` or
`aidx`, with `numa <= num_`; `aidx[0..numa)` holds exactly the indices of the contributing
components, each once, with non-decreasing snapshot prices and, among equal prices,
increasing index; so for odd `numa` the aggregate confidence and price are those of the
component at position `numa/2` of that order. -/
theorem C20_stable_insertion_sort (K : oracle_h) (ptr : pc_price_t) (kptr : pc_pub_key_t)
    (slot : Nat) (hK : K.PC_COMP_SIZE < 2 ^ 31)
    (hnum : ptr.num_ ≤ K.PC_COMP_SIZE) (hlen : ptr.comp_.length = K.PC_COMP_SIZE)
    (hslot : slot > ptr.curr_slot_) :
    ∃ comp1 aidx numa r,
      agg_loop K slot ptr.num_ 0 ptr.comp_ (List.replicate K.PC_COMP_SIZE 0) 0
        = some (comp1, aidx, numa) ∧
      numa ≤ ptr.num_ ∧ numa ≤ aidx.length ∧
      (∀ a, a ∈ aidx.take numa ↔ a < ptr.num_ ∧
        (comp_at ptr.comp_ a).latest_.status_ = K.PC_STATUS_TRADING ∧
        (comp_at ptr.comp_ a).latest_.pub_slot_ = slot - 1) ∧
      (aidx.take numa).Nodup ∧
      (aidx.take numa).Pairwise
        (fun a b => (comp_at comp1 a).agg_.price_ ≤ (comp_at comp1 b).agg_.price_) ∧
      (aidx.take numa).Pairwise
        (fun a b => (comp_at comp1 a).agg_.price_ = (comp_at comp1 b).agg_.price_ → a < b) ∧
      upd_aggregate K ptr kptr slot = some r ∧
      (numa % 2 = 1 →
        r.agg_.conf_ = (comp_at comp1 ((aidx.take numa).getD (numa / 2) 0)).agg_.conf_ ∧
        r.agg_.price_ = (comp_at comp1 ((aidx.take numa).getD (numa / 2) 0)).agg_.price_) := by
  obtain ⟨L, rest, hloop, hinv⟩ := agg_loop_spec K slot ptr.comp_ ptr.num_ 0 []
    (List.replicate K.PC_COMP_SIZE 0) (by omega) (by omega) (by simp [hlen])
    (agg_inv_zero K slot ptr.comp_)
  simp only [snap_zero, List.nil_append, List.length_nil, Nat.zero_add] at hloop hinv
  obtain ⟨L2, hinv2, hres⟩ := upd_aggregate_spec K ptr kptr slot hslot hnum hlen (by omega)
  have hLL : L2 = L :=
    stable_sorted_unique (fun a => by rw [hinv2.mem a, hinv.mem a]) hinv2.sorted hinv.sorted
  subst hLL
  have htake : (L2 ++ rest).take L2.length = L2 := List.take_left' rfl
  have hn : ptr.num_ ≤ ptr.comp_.length := by omega
  have hsnap : ∀ a, a ∈ L2 →
      (comp_at (snap ptr.num_ ptr.comp_) a).agg_ = (comp_at ptr.comp_ a).latest_ := by
    intro a ha
    have h1 := ((hinv.mem a).1 ha).1
    rw [comp_at_snap_lt h1 (by omega)]
    rfl
  refine ⟨_, _, _, _, hloop, hinv.len, by simp, ?_, ?_, ?_, ?_, hres, ?_⟩
  · intro a
    rw [htake, hinv.mem a]
    simp [contributes]
  · rw [htake]
    exact stable_sorted_nodup hinv.sorted
  · rw [htake]
    refine List.Pairwise.imp_of_mem ?_ hinv.sorted
    intro a b ha hb hab
    rw [hsnap a ha, hsnap b hb]
    unfold stable_lt latest_px at hab
    rcases hab with h1 | ⟨h1, _⟩ <;> omega
  · rw [htake]
    refine List.Pairwise.imp_of_mem ?_ hinv.sorted
    intro a b ha hb hab heq
    rw [hsnap a ha, hsnap b hb] at heq
    unfold stable_lt latest_px at hab
    rcases hab with h1 | ⟨_, h1⟩
    · omega
    · exact h1
  · intro hodd
    rw [htake]
    have h0 : L2.length ≠ 0 := by omega
    have hmid : L2.length / 2 < L2.length := Nat.div_lt_self (by omega) (by decide)
    have hev : (L2.length / 2 != 0 && L2.length % 2 == 0) = false := by simp [hodd]
    have hmem : L2.getD (L2.length / 2) 0 ∈ L2 := by
      rw [List.getD_eq_getElem?_getD, List.getElem?_eq_getElem hmid]
      exact List.getElem_mem hmid
    rw [hsnap _ hmem]
    simp [aggregated, median_info, h0, hev]

/-- The outcome of `del_publisher` on a well-formed price account: invalid argument and no
change, or success with the entry at some index `i0` removed, the later entries moved down
by one and the last slot zeroed. -/
theorem del_publisher_outcome (K : oracle_h) (prm : SolParameters cmd_del_publisher_t)
    (ka0 : SolAccountInfo Unit) (ka1 : SolAccountInfo pc_price_t)
    (hK : K.PC_COMP_SIZE < 2 ^ 32)
    (hnum : ka1.data.num_ ≤ K.PC_COMP_SIZE) (hlen : ka1.data.comp_.length = K.PC_COMP_SIZE) :
    ∃ code p2, del_publisher K prm ka0 ka1 = some (code, p2) ∧
      ((code = ERROR_INVALID_ARGUMENT ∧ p2 = ka1.data) ∨
        (code = SUCCESS ∧ ∃ i0, i0 < ka1.data.num_ ∧ p2.num_ = ka1.data.num_ - 1 ∧
          p2.comp_.length = ka1.data.comp_.length ∧
          ∀ j, comp_at p2.comp_ j =
            if j = ka1.data.num_ - 1 then zero_comp
            else if i0 ≤ j ∧ j < ka1.data.num_ - 1 then comp_at ka1.data.comp_ (j + 1)
            else comp_at ka1.data.comp_ j)) := by
  classical
  rw [del_publisher_eq]
  by_cases hchk : del_publisher_checks K prm ka0 ka1 = true
  swap
  · rw [if_neg hchk]
    exact ⟨_, _, rfl, Or.inl ⟨rfl, rfl⟩⟩
  rw [if_pos hchk]
  have hn : ka1.data.num_ ≤ ka1.data.comp_.length := by omega
  by_cases hex : ∃ i, i < ka1.data.num_ ∧ (comp_at ka1.data.comp_ i).pub_ = prm.data.pub_
  · have hmin : ∀ j, j < Nat.find hex → (comp_at ka1.data.comp_ j).pub_ ≠ prm.data.pub_ := by
      intro j hj hk
      exact Nat.find_min hex hj ⟨Nat.lt_trans hj (Nat.find_spec hex).1, hk⟩
    obtain ⟨hi0, hkey⟩ := Nat.find_spec hex
    obtain ⟨comp1, e1, e2, e3⟩ := del_publisher_loop_found prm.data.pub_ ka1.data (Nat.find hex)
      hi0 hn hkey ka1.data.num_ 0 (by omega) (Nat.zero_le _) (fun j _ hj => hmin j hj)
    have hnum1 : (ka1.data.num_ + 2 ^ 32 - 1) % 2 ^ 32 = ka1.data.num_ - 1 := by omega
    refine ⟨_, _, e1, Or.inr ⟨rfl, Nat.find hex, hi0, hnum1, e2, ?_⟩⟩
    intro j
    show comp_at comp1 j = _
    by_cases c1 : j = ka1.data.num_ - 1
    · rw [if_pos c1]
      apply comp_at_eq_of_get
      rw [e3 j, if_pos c1]
    · rw [if_neg c1]
      by_cases c2 : Nat.find hex ≤ j ∧ j < ka1.data.num_ - 1
      · rw [if_pos c2]
        apply comp_at_congr
        rw [e3 j, if_neg c1, if_pos c2]
      · rw [if_neg c2]
        apply comp_at_congr
        rw [e3 j, if_neg c1, if_neg c2]
  · have hne : ∀ j, 0 ≤ j → j < 0 + ka1.data.num_ →
        (comp_at ka1.data.comp_ j).pub_ ≠ prm.data.pub_ :=
      fun j _ hj hk => hex ⟨j, by omega, hk⟩
    rw [del_publisher_loop_not_found prm.data.pub_ ka1.data ka1.data.num_ 0 (by omega) hne]
    exact ⟨_, _, rfl, Or.inl ⟨rfl, rfl⟩⟩

theorem add_publisher_keeps_roster (K : oracle_h) (prm : SolParameters cmd_add_publisher_t)
    (ka0 : SolAccountInfo Unit) (ka1 : SolAccountInfo pc_price_t)
    (hK : K.PC_COMP_SIZE < 2 ^ 32)
    (hinv : roster_inv K ka1.data) (hlen : ka1.data.comp_.length = K.PC_COMP_SIZE) :
    ∃ code p2, add_publisher K prm ka0 ka1 = some (code, p2) ∧ roster_inv K p2 ∧
      p2.comp_.length = K.PC_COMP_SIZE := by
  classical
  by_cases hchk : add_publisher_checks K prm ka0 ka1 = true
  swap
  · rw [add_publisher_eq, if_neg hchk]
    exact ⟨_, _, rfl, hinv, hlen⟩
  rw [add_publisher_spec K prm ka0 ka1 hK hinv.1 hlen hchk]
  by_cases hc : (∀ i, i < ka1.data.num_ → (comp_at ka1.data.comp_ i).pub_ ≠ prm.data.pub_) ∧
      ka1.data.num_ < K.PC_COMP_SIZE
  · rw [if_pos hc]
    refine ⟨_, _, rfl, ⟨?_, ?_⟩, ?_⟩
    · show ka1.data.num_ + 1 ≤ _
      omega
    · intro i j hij hj
      have hj1 : j < ka1.data.num_ + 1 := hj
      show (comp_at (ka1.data.comp_.set _ _) i).pub_ ≠ (comp_at (ka1.data.comp_.set _ _) j).pub_
      rw [comp_at_set, comp_at_set, if_neg (by omega)]
      by_cases hjn : j = ka1.data.num_
      · rw [if_pos ⟨hjn.symm, by omega⟩]
        exact hc.1 i (by omega)
      · rw [if_neg (fun h => hjn h.1.symm)]
        exact hinv.2 i j hij (by omega)
    · show (ka1.data.comp_.set _ _).length = _
      rw [List.length_set, hlen]
  · rw [if_neg hc]
    exact ⟨_, _, rfl, hinv, hlen⟩

theorem del_publisher_keeps_roster (K : oracle_h) (prm : SolParameters cmd_del_publisher_t)
    (ka0 : SolAccountInfo Unit) (ka1 : SolAccountInfo pc_price_t)
    (hK : K.PC_COMP_SIZE < 2 ^ 32)
    (hinv : roster_inv K ka1.data) (hlen : ka1.data.comp_.length = K.PC_COMP_SIZE) :
    ∃ code p2, del_publisher K prm ka0 ka1 = some (code, p2) ∧ roster_inv K p2 ∧
      p2.comp_.length = K.PC_COMP_SIZE := by
  obtain ⟨code, p2, h, hcase⟩ := del_publisher_outcome K prm ka0 ka1 hK hinv.1 hlen
  refine ⟨code, p2, h, ?_⟩
  rcases hcase with ⟨_, e⟩ | ⟨_, i0, hi0, e1, e2, e3⟩
  · rw [e]; exact ⟨hinv, hlen⟩
  · refine ⟨⟨by have := hinv.1; omega, ?_⟩, by rw [e2, hlen]⟩
    intro i j hij hj
    rw [e1] at hj
    have hi1 : ¬ i = ka1.data.num_ - 1 := by omega
    have hj1 : ¬ j = ka1.data.num_ - 1 := by omega
    rw [e3 i, e3 j, if_neg hi1, if_neg hj1]
    by_cases ci : i0 ≤ i
    · have ci2 : i0 ≤ i ∧ i < ka1.data.num_ - 1 := ⟨ci, by omega⟩
      have cj2 : i0 ≤ j ∧ j < ka1.data.num_ - 1 := ⟨by omega, hj⟩
      rw [if_pos ci2, if_pos cj2]
      exact hinv.2 (i + 1) (j + 1) (by omega) (by omega)
    · have ci2 : ¬ (i0 ≤ i ∧ i < ka1.data.num_ - 1) := fun h => ci h.1
      rw [if_neg ci2]
      by_cases cj : i0 ≤ j
      · have cj2 : i0 ≤ j ∧ j < ka1.data.num_ - 1 := ⟨cj, hj⟩
        rw [if_pos cj2]
        exact hinv.2 i (j + 1) (by omega) (by omega)
      · have cj2 : ¬ (i0 ≤ j ∧ j < ka1.data.num_ - 1) := fun h => cj h.1
        rw [if_neg cj2]
        exact hinv.2 i j hij (by omega)

theorem upd_price_keeps_roster (K : oracle_h) (prm : SolParameters cmd_upd_price_t)
    (ka0 : SolAccountInfo Unit) (ka1 : SolAccountInfo pc_price_t)
    (ka2 : SolAccountInfo sysvar_clock_t) (hK : K.PC_COMP_SIZE < 2 ^ 31)
    (hinv : roster_inv K ka1.data) (hlen : ka1.data.comp_.length = K.PC_COMP_SIZE) :
    ∃ code p2, upd_price K prm ka0 ka1 ka2 = some (code, p2) ∧ roster_inv K p2 ∧
      p2.comp_.length = K.PC_COMP_SIZE := by
  have h31 : ka1.data.num_ < 2 ^ 31 := by have := hinv.1; omega
  obtain ⟨code, p2, h, hcase⟩ := upd_price_outcome K prm ka0 ka1 ka2 hinv.1 hlen h31
  refine ⟨code, p2, h, ?_⟩
  rcases hcase with ⟨e, _⟩ | ⟨_, e, _⟩
  · subst e
    obtain ⟨i, _, _, _, e1, e2, _, e3, _⟩ := upd_price_effect h hinv.1 hlen h31
    refine ⟨⟨by rw [e1]; exact hinv.1, ?_⟩, by rw [e2, hlen]⟩
    intro a b hab hb
    rw [e1] at hb
    rw [e3 a, e3 b]
    exact hinv.2 a b hab hb
  · rw [e]; exact ⟨hinv, hlen⟩

theorem add_symbol_price {K : oracle_h} {prm : SolParameters cmd_add_symbol_t}
    {ka0 : SolAccountInfo Unit} {ka1 : SolAccountInfo pc_map_table_t}
    {ka2 : SolAccountInfo pc_price_t} {m : pc_map_table_t} {p : pc_price_t}
    (h : add_symbol K prm ka0 ka1 ka2 = some (SUCCESS, m, p)) :
    p.num_ = 0 ∧ p.comp_ = List.replicate K.PC_COMP_SIZE zero_comp := by
  unfold add_symbol at h
  dsimp only at h
  split at h
  · exact (error_ne_success h).elim
  · split at h
    · exact (error_ne_success h).elim
    · split at h
      · exact (error_ne_success h).elim
      · split at h
        · cases h
        · split at h
          · cases h
          · split at h
            · cases h
            · simp only [Option.some.injEq, Prod.mk.injEq, true_and] at h
              obtain ⟨_, e⟩ := h
              subst e
              exact ⟨rfl, rfl⟩
          · split at h
            · exact (error_ne_success h).elim
            · split at h
              · simp only [Option.some.injEq, Prod.mk.injEq, true_and] at h
                obtain ⟨_, e⟩ := h
                subst e
                exact ⟨rfl, rfl⟩
              · cases h

/-- C12: the roster invariant (`num_ <= PC_COMP_SIZE`, publisher keys of `comp_[0..num_)`
pairwise distinct) holds for the price account of a successful `add_symbol`, and every
`add_publisher`, `del_publisher`, `upd_price` and `agg_price` call on an account that
satisfies it returns, successfully or not, an account that satisfies it. -/
theorem C12_roster_invariant (K : oracle_h) (hK : K.PC_COMP_SIZE < 2 ^ 31) :
    (∀ (prm : SolParameters cmd_add_symbol_t) (ka0 : SolAccountInfo Unit)
        (ka1 : SolAccountInfo pc_map_table_t) (ka2 : SolAccountInfo pc_price_t)
        (m : pc_map_table_t) (p : pc_price_t),
        add_symbol K prm ka0 ka1 ka2 = some (SUCCESS, m, p) →
        roster_inv K p ∧ p.comp_.length = K.PC_COMP_SIZE) ∧
    (∀ ka1 : SolAccountInfo pc_price_t, roster_inv K ka1.data →
        ka1.data.comp_.length = K.PC_COMP_SIZE →
      (∀ (prm : SolParameters cmd_add_publisher_t) (ka0 : SolAccountInfo Unit),
        ∃ code p2, add_publisher K prm ka0 ka1 = some (code, p2) ∧ roster_inv K p2 ∧
          p2.comp_.length = K.PC_COMP_SIZE) ∧
      (∀ (prm : SolParameters cmd_del_publisher_t) (ka0 : SolAccountInfo Unit),
        ∃ code p2, del_publisher K prm ka0 ka1 = some (code, p2) ∧ roster_inv K p2 ∧
          p2.comp_.length = K.PC_COMP_SIZE) ∧
      (∀ (prm : SolParameters cmd_upd_price_t) (ka0 : SolAccountInfo Unit)
        (ka2 : SolAccountInfo sysvar_clock_t),
        ∃ code p2, upd_price K prm ka0 ka1 ka2 = some (code, p2) ∧ roster_inv K p2 ∧
          p2.comp_.length = K.PC_COMP_SIZE)) := by
  refine ⟨?_, ?_⟩
  · intro prm ka0 ka1 ka2 m p h
    obtain ⟨e1, e2⟩ := add_symbol_price h
    refine ⟨⟨by rw [e1]; exact Nat.zero_le _, ?_⟩, by rw [e2, List.length_replicate]⟩
    intro i j _ hj
    rw [e1] at hj
    exact (Nat.not_lt_zero _ hj).elim
  · intro ka1 hinv hlen
    exact ⟨fun prm ka0 => add_publisher_keeps_roster K prm ka0 ka1 (by omega) hinv hlen,
      fun prm ka0 => del_publisher_keeps_roster K prm ka0 ka1 (by omega) hinv hlen,
      fun prm ka0 ka2 => upd_price_keeps_roster K prm ka0 ka1 ka2 hK hinv hlen⟩

theorem sample_roster_four_inv : roster_inv sample_h sample_roster_four := by
  refine ⟨by decide, ?_⟩
  intro i j hij hj
  have hj4 : j < 4 := hj
  interval_cases j <;> interval_cases i <;> decide

/-- C12 (witness): on the roster [A, B, C, D], `del_publisher(B)`, `add_publisher(B)` and
`upd_price` by A each return an account that satisfies the roster invariant. -/
theorem C12_roster_invariant_witness :
    (∃ code p2, del_publisher sample_h (del_pub_instr key_B) (funder key_D)
        (price_account sample_roster_four) = some (code, p2) ∧ roster_inv sample_h p2 ∧
        p2.comp_.length = 4) ∧
    (∃ code p2, add_publisher sample_h (add_pub_instr key_B) (funder key_D)
        (price_account sample_roster_four) = some (code, p2) ∧ roster_inv sample_h p2 ∧
        p2.comp_.length = 4) ∧
    (∃ code p2, upd_price sample_h (upd_instr 5 101 2 1) (funder key_A)
        (price_account sample_roster_four) (clock_account 31) = some (code, p2) ∧
        roster_inv sample_h p2 ∧ p2.comp_.length = 4) := by
  have h := (C12_roster_invariant sample_h (by decide)).2 (price_account sample_roster_four)
    sample_roster_four_inv (by decide)
  exact ⟨h.2.1 _ _, h.1 _ _, h.2.2 _ _ _⟩

/-- C11 (witness): on the full roster [A, B, C, D], `add_publisher` of a new key returns
invalid argument and leaves the account unchanged. -/
theorem C11_add_publisher_capacity_and_duplicates_witness :
    add_publisher sample_h (add_pub_instr ⟨7, 0, 0, 0⟩) (funder key_D)
      (price_account sample_roster_four) =
      some (ERROR_INVALID_ARGUMENT, sample_roster_four) := by
  obtain ⟨code, p2, h1, _, _, h4, h5, _⟩ := C11_add_publisher_capacity_and_duplicates sample_h
    (add_pub_instr ⟨7, 0, 0, 0⟩) (funder key_D) (price_account sample_roster_four)
    (by decide) (by decide) (by decide) (by decide)
  have hc : code = ERROR_INVALID_ARGUMENT := h4 (by decide)
  have hp : p2 = sample_roster_four := h5 (by rw [hc]; decide)
  rw [h1, hc, hp]

/-- C16 (witness): `upd_price` by C, who is not in the roster [A, B], returns invalid
argument and leaves the price account unchanged. -/
theorem C16_upd_price_acceptance_witness :
    upd_price sample_h (upd_instr 5 101 2 1) (funder key_C) (price_account sample_after_first)
      (clock_account 11) = some (ERROR_INVALID_ARGUMENT, sample_after_first) := by
  obtain ⟨code, p2, h1, h2, h3, h4⟩ := C16_upd_price_acceptance sample_h (upd_instr 5 101 2 1)
    (funder key_C) (price_account sample_after_first) (clock_account 11)
    (by decide) (by decide) (by decide) (by decide)
  have hc : code = ERROR_INVALID_ARGUMENT := by
    rcases h2 with e | e
    · obtain ⟨_, _, _, _, i, hi, hk⟩ := h3.1 e
      have hi2 : i < 2 := hi
      interval_cases i <;> exact absurd hk (by decide)
    · exact e
  rw [h1, hc, h4 hc]
  rfl

/-- C17 (witness): after A's `upd_price` of (101, 2, TRADING) at slot 11 on the roster
[A, B], `comp_[0].latest_` is (101, 2, TRADING, 11) and B's latest quote is unchanged. -/
theorem C17_quote_write_and_frame_witness :
    (comp_at (price_of (upd_price sample_h (upd_instr 5 101 2 1) (funder key_A)
      (price_account sample_after_first) (clock_account 11))).comp_ 0).latest_ =
      ⟨101, 2, 1, 11⟩ ∧
    (comp_at (price_of (upd_price sample_h (upd_instr 5 101 2 1) (funder key_A)
      (price_account sample_after_first) (clock_account 11))).comp_ 1).latest_ =
      (comp_at sample_after_first.comp_ 1).latest_ := by
  obtain ⟨i, hf, _, _, _, _, _, _, _, h9, _⟩ := C17_quote_write_and_frame sample_h
    (upd_instr 5 101 2 1) (funder key_A) (price_account sample_after_first) (clock_account 11)
    (price_of (upd_price sample_h (upd_instr 5 101 2 1) (funder key_A)
      (price_account sample_after_first) (clock_account 11))) (by decide)
  have hi : i = 0 := by
    have h0 : upd_price_find (funder key_A).key (price_account sample_after_first).data.comp_
        (price_account sample_after_first).data.num_ 0 = some 0 := by decide
    rw [h0] at hf
    exact (Option.some.inj hf).symm
  subst hi
  obtain ⟨ha, hb⟩ := h9 (by decide)
  exact ⟨ha, hb 1 (by decide)⟩

/-- C20 (witness): for the quotes 150, 100, 200 of A, B, C at slot 20, the loop at slot 21
ends with `aidx[0..3) = [1, 0, 2]`. -/
theorem C20_stable_insertion_sort_witness :
    (agg_loop sample_h 21 3 0 sample_three.comp_ (List.replicate 4 0) 0).map
      (fun r => r.2.1.take r.2.2) = some [1, 0, 2] ∧
    ∃ comp1 aidx numa r,
      agg_loop sample_h 21 3 0 sample_three.comp_ (List.replicate 4 0) 0
        = some (comp1, aidx, numa) ∧
      numa ≤ 3 ∧ (aidx.take numa).Nodup ∧
      upd_aggregate sample_h sample_three key_C 21 = some r := by
  obtain ⟨comp1, aidx, numa, r, h1, h2, _, _, h5, _, _, h8, _⟩ :=
    C20_stable_insertion_sort sample_h sample_three key_C 21 (by decide) (by decide)
      (by decide) (by decide)
  exact ⟨by decide, comp1, aidx, numa, r, h1, h2, h5, h8⟩

theorem pc_pub_key_is_zero_iff (p : pc_pub_key_t) : pc_pub_key_is_zero p = true ↔ p = zero_key := by
  rcases p with ⟨a, b, c, d⟩
  simp [pc_pub_key_is_zero, zero_key]
  tauto

theorem add_mapping_eq (K : oracle_h) (prm : SolParameters cmd_hdr_t)
    (ka0 : SolAccountInfo Unit) (ka1 ka2 : SolAccountInfo pc_map_table_t) :
    add_mapping K prm ka0 ka1 ka2 =
      if add_mapping_checks K prm ka0 ka1 ka2 = true ∧ add_mapping_accepts K ka1 ka2 = true then
        some (SUCCESS, { ka1.data with next_ := ka2.key },
          { zero_table K with magic_ := K.PC_MAGIC, ver_ := K.PC_VERSION })
      else some (ERROR_INVALID_ARGUMENT, ka1.data, ka2.data) := by
  unfold add_mapping add_mapping_checks add_mapping_accepts
  dsimp only
  split
  · rename_i h
    simp [h]
  · rename_i h
    split
    · rename_i h2
      simp [h, h2]
    · rename_i h2
      simp [h, h2]

theorem add_mapping_accepts_iff (K : oracle_h) (ka1 ka2 : SolAccountInfo pc_map_table_t) :
    add_mapping_accepts K ka1 ka2 = true ↔
      ka1.data.magic_ = K.PC_MAGIC ∧ ka2.data.magic_ = 0 ∧
      K.PC_MAP_NODE_SIZE ≤ ka1.data.num_ ∧ ka2.data.num_ = 0 ∧ ka1.data.next_ = zero_key := by
  unfold add_mapping_accepts
  simp only [Bool.not_eq_true', Bool.or_eq_false_iff, bne_eq_false_iff_eq,
    decide_eq_false_iff_not, Nat.not_lt, Bool.not_eq_false', pc_pub_key_is_zero_iff, and_assoc]

/-- C14: for accounts that pass the metadata checks, an initialized tail with
`num_ <= PC_MAP_NODE_SIZE` and an all-zero new table, `add_mapping` returns success exactly
when the tail is full and its `next_` is zero; on success the new table is all zero except
magic and version, and the tail differs only in `next_`, now the new table's key; on
failure both tables are unchanged. -/
theorem C14_add_mapping_boundary (K : oracle_h) (prm : SolParameters cmd_hdr_t)
    (ka0 : SolAccountInfo Unit) (ka1 ka2 : SolAccountInfo pc_map_table_t)
    (hchk : add_mapping_checks K prm ka0 ka1 ka2 = true)
    (hmagic : ka1.data.magic_ = K.PC_MAGIC) (hnum : ka1.data.num_ ≤ K.PC_MAP_NODE_SIZE)
    (hblank : ka2.data = zero_table K) :
    ∃ code t1 t2, add_mapping K prm ka0 ka1 ka2 = some (code, t1, t2) ∧
      (code = SUCCESS ∨ code = ERROR_INVALID_ARGUMENT) ∧
      (code = SUCCESS ↔ ka1.data.num_ = K.PC_MAP_NODE_SIZE ∧ ka1.data.next_ = zero_key) ∧
      (code = SUCCESS →
        t2 = { zero_table K with magic_ := K.PC_MAGIC, ver_ := K.PC_VERSION } ∧
        t1.next_ = ka2.key ∧ t1 = { ka1.data with next_ := ka2.key }) ∧
      (code ≠ SUCCESS → t1 = ka1.data ∧ t2 = ka2.data) := by
  have hne : ERROR_INVALID_ARGUMENT ≠ SUCCESS := by decide
  have hacc : add_mapping_accepts K ka1 ka2 = true ↔
      ka1.data.num_ = K.PC_MAP_NODE_SIZE ∧ ka1.data.next_ = zero_key := by
    rw [add_mapping_accepts_iff, hblank]
    constructor
    · rintro ⟨_, _, h3, _, h5⟩
      exact ⟨by omega, h5⟩
    · rintro ⟨h1, h2⟩
      exact ⟨hmagic, rfl, by omega, rfl, h2⟩
  rw [add_mapping_eq]
  by_cases ha : add_mapping_accepts K ka1 ka2 = true
  · rw [if_pos ⟨hchk, ha⟩]
    exact ⟨_, _, _, rfl, Or.inl rfl, ⟨fun _ => hacc.1 ha, fun _ => rfl⟩,
      fun _ => ⟨rfl, rfl, rfl⟩, fun h => (h rfl).elim⟩
  · rw [if_neg (fun h => ha h.2)]
    exact ⟨_, _, _, rfl, Or.inr rfl, ⟨fun h => (hne h).elim, fun h => (ha (hacc.2 h)).elim⟩,
      fun h => (hne h).elim, fun _ => ⟨rfl, rfl⟩⟩

/-- C14 (witness): on a full tail without successor, `add_mapping` succeeds and links the
new table; on an empty tail it returns invalid argument. -/
theorem C14_add_mapping_boundary_witness :
    add_mapping sample_h add_map_instr (funder key_D) (map_account sample_full_table)
      (map_account_2 (zero_table sample_h)) =
      some (SUCCESS, { sample_full_table with next_ := ⟨11, 0, 0, 0⟩ },
        { zero_table sample_h with magic_ := 0xa1b2c3d4, ver_ := 1 }) ∧
    ∃ code t1 t2, add_mapping sample_h add_map_instr (funder key_D)
        (map_account (sample_table [0, 0, 0] [])) (map_account_2 (zero_table sample_h)) =
        some (code, t1, t2) ∧ code ≠ SUCCESS ∧ t1 = sample_table [0, 0, 0] [] ∧
        t2 = zero_table sample_h := by
  obtain ⟨code, t1, t2, h1, _, h3, _, h5⟩ := C14_add_mapping_boundary sample_h add_map_instr
    (funder key_D) (map_account (sample_table [0, 0, 0] [])) (map_account_2 (zero_table sample_h))
    (by decide) (by decide) (by decide) rfl
  have hc : code ≠ SUCCESS := fun h => absurd (h3.1 h).1 (by decide)
  exact ⟨by decide, code, t1, t2, h1, hc, h5 hc⟩

theorem node_at_of_get {nds_ : List pc_map_node_t} {k : Nat} {n : pc_map_node_t}
    (h : nds_[k]? = some n) : node_at nds_ k = n := by
  simp [node_at, List.getD, h]

theorem node_at_get {nds_ : List pc_map_node_t} {k : Nat} (h : k < nds_.length) :
    nds_[k]? = some (node_at nds_ k) := by
  simp [node_at, List.getD, List.getElem?_eq_getElem h]

/-- The bucket walk on well-formed chains: with at least `vidx` steps of fuel it ends,
reads only nodes below `num`, and returns the first node of the chain that carries the
symbol, or nothing when no node of the chain carries it. -/
theorem add_symbol_walk_spec (sym_ : pc_symbol_t) (nds_ : List pc_map_node_t) (num : Nat)
    (hlen : num ≤ nds_.length) (hwf : ∀ k, k < num → (node_at nds_ k).next_ ≤ k) :
    ∀ fuel vidx, vidx ≤ fuel → vidx ≤ num →
      ∃ r, add_symbol_walk sym_ nds_ fuel vidx = some r ∧
        (∀ v, r = some v → v < num ∧ (node_at nds_ v).sym_ = sym_ ∧
          v ∈ bucket_chain nds_ fuel vidx) ∧
        (r = none → ∀ k, k ∈ bucket_chain nds_ fuel vidx → (node_at nds_ k).sym_ ≠ sym_) := by
  intro fuel
  induction fuel with
  | zero =>
    intro vidx h0 _
    have hv : vidx = 0 := by omega
    subst hv
    refine ⟨none, by simp [add_symbol_walk], fun v h => (by cases h), fun _ k hk => ?_⟩
    simp [bucket_chain] at hk
  | succ fuel ih =>
    intro vidx hf hn
    cases vidx with
    | zero =>
      refine ⟨none, by simp [add_symbol_walk], fun v h => (by cases h), fun _ k hk => ?_⟩
      simp [bucket_chain] at hk
    | succ v =>
      have hv : v < nds_.length := by omega
      have hnext := hwf v (by omega)
      by_cases heq : pc_symbol_equal sym_ (node_at nds_ v).sym_ = true
      · refine ⟨some v, by simp [add_symbol_walk, node_at_get hv, heq], ?_, fun h => (by cases h)⟩
        intro w hw
        cases hw
        exact ⟨by omega, ((pc_symbol_equal_iff _ _).1 heq).symm, by simp [bucket_chain]⟩
      · obtain ⟨r, hr, h1, h2⟩ := ih (node_at nds_ v).next_ (by omega) (by omega)
        refine ⟨r, by simp [add_symbol_walk, node_at_get hv, heq, hr], ?_, ?_⟩
        · intro w hw
          obtain ⟨a, b, c⟩ := h1 w hw
          exact ⟨a, b, by simp [bucket_chain, c]⟩
        · intro hnone k hk
          simp only [bucket_chain, List.mem_cons] at hk
          rcases hk with hk | hk
          · subst hk
            exact fun e => heq ((pc_symbol_equal_iff _ _).2 e.symm)
          · exact h2 hnone k hk

theorem add_symbol_guards {K : oracle_h} {prm : SolParameters cmd_add_symbol_t}
    {ka0 : SolAccountInfo Unit} {ka1 : SolAccountInfo pc_map_table_t}
    {ka2 : SolAccountInfo pc_price_t} (hchk : add_symbol_checks K prm ka0 ka1 ka2 = true) :
    (prm.data_len != K.sizeof_cmd_add_symbol_t ||
      decide (prm.data.expo_ > (K.PC_MAX_NUM_DECIMALS : Int)) ||
      decide (prm.data.expo_ < -(K.PC_MAX_NUM_DECIMALS : Int)) ||
      prm.data.ptype_ == K.PC_PTYPE_UNKNOWN || pc_symbol_is_zero prm.data.sym_) = false ∧
    (decide (prm.ka_num < 3) || !valid_funding_account ka0 ||
      !valid_signable_account prm ka1 K.sizeof_pc_map_table_t ||
      !valid_signable_account prm ka2 K.sizeof_pc_price_t) = false := by
  unfold add_symbol_checks at hchk
  rw [Bool.and_eq_true, Bool.not_eq_true', Bool.not_eq_true'] at hchk
  exact hchk

/-- The call `add_symbol` when the symbol is found at node `v` of its bucket chain. -/
theorem add_symbol_found {K : oracle_h} {prm : SolParameters cmd_add_symbol_t}
    {ka0 : SolAccountInfo Unit} {ka1 : SolAccountInfo pc_map_table_t}
    {ka2 : SolAccountInfo pc_price_t} {vidx v : Nat} {nptr : pc_map_node_t}
    (hchk : add_symbol_checks K prm ka0 ka1 ka2 = true)
    (hmagic : ka1.data.magic_ = K.PC_MAGIC) (hblank : ka2.data.magic_ = 0)
    (htab : ka1.data.tab_[(prm.data.sym_.k0 % K.PC_MAP_TABLE_SIZE) % 2 ^ 32]? = some vidx)
    (hwalk : add_symbol_walk prm.data.sym_ ka1.data.nds_ (ka1.data.nds_.length + 1) vidx
      = some (some v))
    (hnode : ka1.data.nds_[v]? = some nptr) :
    add_symbol K prm ka0 ka1 ka2 =
      some (SUCCESS,
        { ka1.data with nds_ := ka1.data.nds_.set v { nptr with price_acc_ := ka2.key } },
        { add_symbol_price_init K prm.data with next_ := nptr.price_acc_ }) := by
  obtain ⟨g1, g2⟩ := add_symbol_guards hchk
  unfold add_symbol
  simp only [g1, g2, hmagic, hblank, htab, hwalk, hnode, bne_self_eq_false, Bool.or_false,
    Bool.false_eq_true, if_false]
  rfl

/-- The call `add_symbol` when the symbol is not on its bucket chain and the table is a
tail with room: a fresh node is allocated. -/
theorem add_symbol_fresh {K : oracle_h} {prm : SolParameters cmd_add_symbol_t}
    {ka0 : SolAccountInfo Unit} {ka1 : SolAccountInfo pc_map_table_t}
    {ka2 : SolAccountInfo pc_price_t} {vidx : Nat}
    (hchk : add_symbol_checks K prm ka0 ka1 ka2 = true)
    (hmagic : ka1.data.magic_ = K.PC_MAGIC) (hblank : ka2.data.magic_ = 0)
    (htab : ka1.data.tab_[(prm.data.sym_.k0 % K.PC_MAP_TABLE_SIZE) % 2 ^ 32]? = some vidx)
    (hwalk : add_symbol_walk prm.data.sym_ ka1.data.nds_ (ka1.data.nds_.length + 1) vidx
      = some none)
    (hroom : ka1.data.num_ < K.PC_MAP_NODE_SIZE) (hnext : ka1.data.next_ = zero_key)
    (h32 : ka1.data.num_ + 1 < 2 ^ 32) (hlen : ka1.data.num_ < ka1.data.nds_.length) :
    add_symbol K prm ka0 ka1 ka2 =
      some (SUCCESS,
        { ka1.data with
          num_ := ka1.data.num_ + 1
          nds_ := ka1.data.nds_.set ka1.data.num_
            { sym_ := prm.data.sym_, next_ := vidx, price_acc_ := ka2.key }
          tab_ := ka1.data.tab_.set ((prm.data.sym_.k0 % K.PC_MAP_TABLE_SIZE) % 2 ^ 32)
            (ka1.data.num_ + 1) },
        add_symbol_price_init K prm.data) := by
  obtain ⟨g1, g2⟩ := add_symbol_guards hchk
  have g4 : (decide (ka1.data.num_ ≥ K.PC_MAP_NODE_SIZE) ||
      !pc_pub_key_is_zero ka1.data.next_) = false := by
    rw [hnext]
    simp only [Bool.or_eq_false_iff, decide_eq_false_iff_not]
    exact ⟨by omega, by decide⟩
  have hh : (ka1.data.num_ + 1) % 2 ^ 32 = ka1.data.num_ + 1 := Nat.mod_eq_of_lt h32
  have hin : ka1.data.num_ < ka1.data.nds_.length ∧ 1 ≤ ka1.data.num_ + 1 :=
    ⟨hlen, by omega⟩
  unfold add_symbol
  simp only [g1, g2, g4, hh, hmagic, hblank, htab, hwalk, bne_self_eq_false, Bool.or_false,
    Bool.false_eq_true, if_false, Nat.add_sub_cancel]
  rw [if_pos hin]
  rfl

/-- The call `add_symbol` when the symbol is not on its bucket chain and the table is full
or has a successor: invalid argument, the price account already initialized. -/
theorem add_symbol_no_room {K : oracle_h} {prm : SolParameters cmd_add_symbol_t}
    {ka0 : SolAccountInfo Unit} {ka1 : SolAccountInfo pc_map_table_t}
    {ka2 : SolAccountInfo pc_price_t} {vidx : Nat}
    (hchk : add_symbol_checks K prm ka0 ka1 ka2 = true)
    (hmagic : ka1.data.magic_ = K.PC_MAGIC) (hblank : ka2.data.magic_ = 0)
    (htab : ka1.data.tab_[(prm.data.sym_.k0 % K.PC_MAP_TABLE_SIZE) % 2 ^ 32]? = some vidx)
    (hwalk : add_symbol_walk prm.data.sym_ ka1.data.nds_ (ka1.data.nds_.length + 1) vidx
      = some none)
    (hfull : K.PC_MAP_NODE_SIZE ≤ ka1.data.num_ ∨ ka1.data.next_ ≠ zero_key) :
    add_symbol K prm ka0 ka1 ka2 =
      some (ERROR_INVALID_ARGUMENT, ka1.data, add_symbol_price_init K prm.data) := by
  obtain ⟨g1, g2⟩ := add_symbol_guards hchk
  have g4 : (decide (ka1.data.num_ ≥ K.PC_MAP_NODE_SIZE) ||
      !pc_pub_key_is_zero ka1.data.next_) = true := by
    rcases hfull with h | h
    · simp [h]
    · have : pc_pub_key_is_zero ka1.data.next_ = false := by
        rw [← Bool.not_eq_true]
        exact fun e => h ((pc_pub_key_is_zero_iff _).1 e)
      simp [this]
  unfold add_symbol
  simp only [g1, g2, g4, hmagic, hblank, htab, hwalk, bne_self_eq_false, Bool.or_false,
    Bool.false_eq_true, if_false, if_true]
  rfl

/-- The call `add_symbol` when a guard fails: invalid argument and no change. -/
theorem add_symbol_rejected {K : oracle_h} {prm : SolParameters cmd_add_symbol_t}
    {ka0 : SolAccountInfo Unit} {ka1 : SolAccountInfo pc_map_table_t}
    {ka2 : SolAccountInfo pc_price_t}
    (h : ¬ (add_symbol_checks K prm ka0 ka1 ka2 = true ∧ ka1.data.magic_ = K.PC_MAGIC ∧
      ka2.data.magic_ = 0)) :
    add_symbol K prm ka0 ka1 ka2 = some (ERROR_INVALID_ARGUMENT, ka1.data, ka2.data) := by
  unfold add_symbol
  dsimp only
  split
  · rfl
  · rename_i h1
    split
    · rfl
    · rename_i h2
      split
      · rfl
      · rename_i h3
        exfalso
        apply h
        simp only [Bool.or_eq_true, bne_iff_ne, ne_eq, not_or, Decidable.not_not] at h3
        refine ⟨?_, h3.1, h3.2⟩
        unfold add_symbol_checks
        rw [Bool.and_eq_true, Bool.not_eq_true', Bool.not_eq_true']
        exact ⟨by simpa using h1, by simpa using h2⟩

/-- What every returning call of `add_symbol` does to the mapping table: the code is
success or invalid argument, `next_`, magic and version are kept, a failed call leaves the
table unchanged, and `num_` changes only by the allocation of a node in a tail with room. -/
theorem add_symbol_returns {K : oracle_h} {prm : SolParameters cmd_add_symbol_t}
    {ka0 : SolAccountInfo Unit} {ka1 : SolAccountInfo pc_map_table_t}
    {ka2 : SolAccountInfo pc_price_t} {code : Nat} {m : pc_map_table_t} {p : pc_price_t}
    (h : add_symbol K prm ka0 ka1 ka2 = some (code, m, p)) :
    (code = SUCCESS ∨ code = ERROR_INVALID_ARGUMENT) ∧ m.next_ = ka1.data.next_ ∧
    m.magic_ = ka1.data.magic_ ∧ m.ver_ = ka1.data.ver_ ∧
    (code ≠ SUCCESS → m = ka1.data) ∧
    (m.num_ = ka1.data.num_ ∨
      (code = SUCCESS ∧ ka1.data.next_ = zero_key ∧ ka1.data.num_ < K.PC_MAP_NODE_SIZE ∧
        m.num_ = (ka1.data.num_ + 1) % 2 ^ 32)) := by
  unfold add_symbol at h
  dsimp only at h
  split at h
  · cases h
    exact ⟨Or.inr rfl, rfl, rfl, rfl, fun _ => rfl, Or.inl rfl⟩
  · split at h
    · cases h
      exact ⟨Or.inr rfl, rfl, rfl, rfl, fun _ => rfl, Or.inl rfl⟩
    · split at h
      · cases h
        exact ⟨Or.inr rfl, rfl, rfl, rfl, fun _ => rfl, Or.inl rfl⟩
      · split at h
        · cases h
        · split at h
          · cases h
          · split at h
            · cases h
            · cases h
              exact ⟨Or.inl rfl, rfl, rfl, rfl, fun e => (e rfl).elim, Or.inl rfl⟩
          · split at h
            · cases h
              exact ⟨Or.inr rfl, rfl, rfl, rfl, fun _ => rfl, Or.inl rfl⟩
            · rename_i h4
              split at h
              · cases h
                refine ⟨Or.inl rfl, rfl, rfl, rfl, fun e => (e rfl).elim, Or.inr ⟨rfl, ?_, ?_, rfl⟩⟩
                · simp only [Bool.or_eq_true, not_or, Bool.not_eq_true', Bool.not_eq_false'] at h4
                  exact (pc_pub_key_is_zero_iff _).1 (by simpa using h4.2)
                · simp only [Bool.or_eq_true, not_or, decide_eq_true_eq] at h4
                  omega
              · cases h

theorem tab_get {l : List Nat} {i : Nat} (h : i < l.length) : l[i]? = some (l.getD i 0) := by
  simp [List.getD, List.getElem?_eq_getElem h]

/-- On a table with well-formed chains `add_symbol` returns. -/
theorem add_symbol_total (K : oracle_h) (prm : SolParameters cmd_add_symbol_t)
    (ka0 : SolAccountInfo Unit) (ka1 : SolAccountInfo pc_map_table_t)
    (ka2 : SolAccountInfo pc_price_t) (hT : 0 < K.PC_MAP_TABLE_SIZE)
    (hN : K.PC_MAP_NODE_SIZE < 2 ^ 32) (hwf : chains_wf K ka1.data) :
    ∃ r, add_symbol K prm ka0 ka1 ka2 = some r := by
  obtain ⟨htl, hnl, hnum, htab, hnds⟩ := hwf
  by_cases hg : add_symbol_checks K prm ka0 ka1 ka2 = true ∧ ka1.data.magic_ = K.PC_MAGIC ∧
      ka2.data.magic_ = 0
  swap
  · exact ⟨_, add_symbol_rejected hg⟩
  obtain ⟨hchk, hmagic, hblank⟩ := hg
  have hb : prm.data.sym_.k0 % K.PC_MAP_TABLE_SIZE % 2 ^ 32 < ka1.data.tab_.length := by
    rw [htl]
    exact lt_of_le_of_lt (Nat.mod_le _ _) (Nat.mod_lt _ hT)
  have hget : ka1.data.tab_[prm.data.sym_.k0 % K.PC_MAP_TABLE_SIZE % 2 ^ 32]? =
      some (ka1.data.tab_.getD (prm.data.sym_.k0 % K.PC_MAP_TABLE_SIZE % 2 ^ 32) 0) :=
    tab_get hb
  have hhead := htab _ hb
  obtain ⟨r, hr, h1, _⟩ := add_symbol_walk_spec prm.data.sym_ ka1.data.nds_ ka1.data.num_
    (by omega) hnds (ka1.data.nds_.length + 1) _ (by omega) hhead
  cases r with
  | some v =>
    obtain ⟨hv, _, _⟩ := h1 v rfl
    exact ⟨_, add_symbol_found hchk hmagic hblank hget hr (node_at_get (by omega))⟩
  | none =>
    by_cases hroom : ka1.data.num_ < K.PC_MAP_NODE_SIZE ∧ ka1.data.next_ = zero_key
    · exact ⟨_, add_symbol_fresh hchk hmagic hblank hget hr hroom.1 hroom.2 (by omega)
        (by omega)⟩
    · refine ⟨_, add_symbol_no_room hchk hmagic hblank hget hr ?_⟩
      by_cases h : ka1.data.num_ < K.PC_MAP_NODE_SIZE
      · exact Or.inr (fun e => hroom ⟨h, e⟩)
      · exact Or.inl (by omega)

/-- C13: on an initialized tail table with room and well-formed chains, a valid `add_symbol`
with a blank price account for a symbol that no node of its bucket chain carries succeeds:
`num_` grows by one, the bucket head is the new `num_`, the new node holds the symbol, the
price account's key and the old bucket head; a second valid `add_symbol` with the same
symbol and another blank price account succeeds, keeps `num_` and `tab_`, links the new
price account to the node's previous price account and makes it the node's head. -/
theorem C13_add_symbol_laws (K : oracle_h) (prm : SolParameters cmd_add_symbol_t)
    (ka0 : SolAccountInfo Unit) (ka1 : SolAccountInfo pc_map_table_t)
    (ka2 : SolAccountInfo pc_price_t)
    (hT : 0 < K.PC_MAP_TABLE_SIZE) (hT32 : K.PC_MAP_TABLE_SIZE ≤ 2 ^ 32)
    (hN : K.PC_MAP_NODE_SIZE < 2 ^ 32)
    (hchk : add_symbol_checks K prm ka0 ka1 ka2 = true)
    (hmagic : ka1.data.magic_ = K.PC_MAGIC) (hnext : ka1.data.next_ = zero_key)
    (hnum : ka1.data.num_ < K.PC_MAP_NODE_SIZE) (hwf : chains_wf K ka1.data)
    (hblank : ka2.data.magic_ = 0)
    (habs : ∀ k, k ∈ bucket_chain ka1.data.nds_ (ka1.data.nds_.length + 1)
        (ka1.data.tab_.getD (prm.data.sym_.k0 % K.PC_MAP_TABLE_SIZE) 0) →
      (node_at ka1.data.nds_ k).sym_ ≠ prm.data.sym_) :
    ∃ m p, add_symbol K prm ka0 ka1 ka2 = some (SUCCESS, m, p) ∧
      m.num_ = ka1.data.num_ + 1 ∧
      m.tab_.getD (prm.data.sym_.k0 % K.PC_MAP_TABLE_SIZE) 0 = m.num_ ∧
      node_at m.nds_ ka1.data.num_ =
        ⟨prm.data.sym_, ka1.data.tab_.getD (prm.data.sym_.k0 % K.PC_MAP_TABLE_SIZE) 0,
          ka2.key⟩ ∧
      m.next_ = ka1.data.next_ ∧
      (∀ b, b ≠ prm.data.sym_.k0 % K.PC_MAP_TABLE_SIZE →
        m.tab_.getD b 0 = ka1.data.tab_.getD b 0) ∧
      (∀ k, k ≠ ka1.data.num_ → node_at m.nds_ k = node_at ka1.data.nds_ k) ∧
      p = add_symbol_price_init K prm.data ∧
      ∀ (prm2 : SolParameters cmd_add_symbol_t) (kb0 : SolAccountInfo Unit)
        (kb1 : SolAccountInfo pc_map_table_t) (kb2 : SolAccountInfo pc_price_t),
        kb1.data = m → add_symbol_checks K prm2 kb0 kb1 kb2 = true →
        prm2.data.sym_ = prm.data.sym_ → kb2.data.magic_ = 0 →
        ∃ m2 p2, add_symbol K prm2 kb0 kb1 kb2 = some (SUCCESS, m2, p2) ∧
          m2.num_ = m.num_ ∧ m2.tab_ = m.tab_ ∧
          p2.next_ = (node_at m.nds_ ka1.data.num_).price_acc_ ∧
          (node_at m2.nds_ ka1.data.num_).price_acc_ = kb2.key ∧
          (node_at m2.nds_ ka1.data.num_).sym_ = prm.data.sym_ ∧
          p2 = { add_symbol_price_init K prm2.data with next_ := ka2.key } := by
  obtain ⟨htl, hnl, _, htab, hnds⟩ := hwf
  have hb32 : prm.data.sym_.k0 % K.PC_MAP_TABLE_SIZE % 2 ^ 32 =
      prm.data.sym_.k0 % K.PC_MAP_TABLE_SIZE :=
    Nat.mod_eq_of_lt (lt_of_lt_of_le (Nat.mod_lt _ hT) hT32)
  have hb : prm.data.sym_.k0 % K.PC_MAP_TABLE_SIZE < ka1.data.tab_.length := by
    rw [htl]
    exact Nat.mod_lt _ hT
  have hget : ka1.data.tab_[prm.data.sym_.k0 % K.PC_MAP_TABLE_SIZE % 2 ^ 32]? =
      some (ka1.data.tab_.getD (prm.data.sym_.k0 % K.PC_MAP_TABLE_SIZE) 0) := by
    rw [hb32]
    simp [List.getD, List.getElem?_eq_getElem hb]
  have hhead := htab _ hb
  have hnl2 : ka1.data.num_ < ka1.data.nds_.length := by omega
  obtain ⟨r, hr, h1, _⟩ := add_symbol_walk_spec prm.data.sym_ ka1.data.nds_ ka1.data.num_
    (by omega) hnds (ka1.data.nds_.length + 1) _ (by omega) hhead
  have hrn : r = none := by
    cases r with
    | none => rfl
    | some v =>
      obtain ⟨_, hs, hmem⟩ := h1 v rfl
      exact (habs v hmem hs).elim
  subst hrn
  have hfresh := add_symbol_fresh hchk hmagic hblank hget hr hnum hnext (by omega) hnl2
  rw [hb32] at hfresh
  refine ⟨_, _, hfresh, rfl, ?_, ?_, rfl, ?_, ?_, rfl, ?_⟩
  · show (ka1.data.tab_.set _ _).getD _ 0 = ka1.data.num_ + 1
    simp [List.getD, List.getElem?_set, hb]
  · show node_at (ka1.data.nds_.set _ _) _ = _
    simp [node_at, List.getD, List.getElem?_set, hnl2]
  · intro b hbne
    show (ka1.data.tab_.set _ _).getD b 0 = _
    simp [List.getD, List.getElem?_set, Ne.symm hbne]
  · intro k hk
    show node_at (ka1.data.nds_.set _ _) k = _
    simp [node_at, List.getD, List.getElem?_set, Ne.symm hk]
  · intro prm2 kb0 kb1 kb2 hk hchk2 hsym hblank2
    have hmagic2 : kb1.data.magic_ = K.PC_MAGIC := by rw [hk]; exact hmagic
    have hget2 : kb1.data.tab_[prm2.data.sym_.k0 % K.PC_MAP_TABLE_SIZE % 2 ^ 32]? =
        some (ka1.data.num_ + 1) := by
      rw [hk, hsym, hb32]
      show (ka1.data.tab_.set _ _)[_]? = _
      simp [List.getElem?_set, hb]
    have hnode2 : kb1.data.nds_[ka1.data.num_]? =
        some ⟨prm.data.sym_, ka1.data.tab_.getD (prm.data.sym_.k0 % K.PC_MAP_TABLE_SIZE) 0,
          ka2.key⟩ := by
      rw [hk]
      show (ka1.data.nds_.set _ _)[_]? = _
      simp [List.getElem?_set, hnl2]
    have hwalk2 : add_symbol_walk prm2.data.sym_ kb1.data.nds_ (kb1.data.nds_.length + 1)
        (ka1.data.num_ + 1) = some (some ka1.data.num_) := by
      rw [add_symbol_walk, hnode2]
      simp [hsym, (pc_symbol_equal_iff _ _).2 rfl]
    have hfound := add_symbol_found hchk2 hmagic2 hblank2 hget2 hwalk2 hnode2
    refine ⟨_, _, hfound, ?_, ?_, ?_, ?_, ?_, rfl⟩
    · rw [hk]
    · rw [hk]
    · show ka2.key = (node_at (ka1.data.nds_.set _ _) _).price_acc_
      simp [node_at, List.getD, List.getElem?_set, hnl2]
    · have hl : ka1.data.num_ < kb1.data.nds_.length := by
        rw [hk]
        show _ < (ka1.data.nds_.set _ _).length
        rw [List.length_set]
        exact hnl2
      show (node_at (kb1.data.nds_.set _ _) _).price_acc_ = _
      simp [node_at, List.getD, List.getElem?_set, hl]
    · have hl : ka1.data.num_ < kb1.data.nds_.length := by
        rw [hk]
        show _ < (ka1.data.nds_.set _ _).length
        rw [List.length_set]
        exact hnl2
      show (node_at (kb1.data.nds_.set _ _) _).sym_ = _
      simp [node_at, List.getD, List.getElem?_set, hl]

theorem sample_tail_wf : chains_wf sample_h sample_tail := by
  unfold chains_wf
  decide

/-- C13 (witness): adding the sample symbol (low word 5, bucket 2) to a tail whose bucket 2
holds another symbol allocates node 2 in front of node 1; a second `add_symbol` of the
sample symbol with another price account keeps `num_` and links the two price accounts. -/
theorem C13_add_symbol_laws_witness :
    ∃ m p, add_symbol sample_h add_sym_instr (funder key_D) (map_account sample_tail)
        (price_account (zero_price sample_h)) = some (SUCCESS, m, p) ∧
      m.num_ = 2 ∧ m.tab_.getD 2 0 = 2 ∧
      node_at m.nds_ 1 = ⟨sample_sym, 1, ⟨20, 0, 0, 0⟩⟩ ∧
      ∃ m2 p2, add_symbol sample_h add_sym_instr (funder key_D) (map_account m)
          (price_account_2 (zero_price sample_h)) = some (SUCCESS, m2, p2) ∧
        m2.num_ = 2 ∧ m2.tab_ = m.tab_ ∧ p2.next_ = ⟨20, 0, 0, 0⟩ ∧
        (node_at m2.nds_ 1).price_acc_ = ⟨21, 0, 0, 0⟩ := by
  obtain ⟨m, p, h1, h2, h3, h4, _, _, _, _, h9⟩ := C13_add_symbol_laws sample_h add_sym_instr
    (funder key_D) (map_account sample_tail) (price_account (zero_price sample_h))
    (by decide) (by decide) (by decide) (by decide) (by decide) (by decide) (by decide)
    sample_tail_wf (by decide) (by decide)
  obtain ⟨m2, p2, k1, k2, k3, k4, k5, _, _⟩ := h9 add_sym_instr (funder key_D) (map_account m)
    (price_account_2 (zero_price sample_h)) rfl rfl rfl (by decide)
  refine ⟨m, p, h1, h2, ?_, h4, m2, p2, k1, k2.trans h2, k3, ?_, k5⟩
  · exact h3.trans h2
  · rw [k4, h4]
    rfl

/-- C15: the mapping table invariant (`num_ <= PC_MAP_NODE_SIZE`, and a table with non-zero
`next_` is full) holds for the table of a successful `init_mapping`; every `add_mapping`
returns and keeps it for both tables; every returning `add_symbol` keeps it, never changes
`next_`, and leaves `num_` alone when `next_` is non-zero; `add_symbol` returns on tables
with well-formed chains; and no call changes a non-zero `next_` of an initialized table. -/
theorem C15_mapping_table_invariant (K : oracle_h) :
    (∀ (prm : SolParameters cmd_hdr_t) (ka0 : SolAccountInfo Unit)
        (ka1 : SolAccountInfo pc_map_table_t) (t : pc_map_table_t),
        init_mapping K prm ka0 ka1 = some (SUCCESS, t) → table_inv K t) ∧
    (∀ (prm : SolParameters cmd_hdr_t) (ka0 : SolAccountInfo Unit)
        (ka1 : SolAccountInfo pc_map_table_t),
        ka1.data.magic_ ≠ 0 ∨ ka1.data.ver_ ≠ 0 →
        init_mapping K prm ka0 ka1 = some (ERROR_INVALID_ARGUMENT, ka1.data)) ∧
    (∀ (prm : SolParameters cmd_hdr_t) (ka0 : SolAccountInfo Unit)
        (ka1 ka2 : SolAccountInfo pc_map_table_t),
        table_inv K ka1.data → table_inv K ka2.data →
        ∃ code t1 t2, add_mapping K prm ka0 ka1 ka2 = some (code, t1, t2) ∧
          table_inv K t1 ∧ table_inv K t2 ∧
          (ka1.data.next_ ≠ zero_key → t1 = ka1.data ∧ t2 = ka2.data) ∧
          (ka2.data.next_ ≠ zero_key → 0 < K.PC_MAP_NODE_SIZE ∨ ka2.data.magic_ ≠ 0 →
            t1 = ka1.data ∧ t2 = ka2.data)) ∧
    (∀ (prm : SolParameters cmd_add_symbol_t) (ka0 : SolAccountInfo Unit)
        (ka1 : SolAccountInfo pc_map_table_t) (ka2 : SolAccountInfo pc_price_t)
        (code : Nat) (m : pc_map_table_t) (p : pc_price_t),
        table_inv K ka1.data → add_symbol K prm ka0 ka1 ka2 = some (code, m, p) →
        table_inv K m ∧ m.next_ = ka1.data.next_ ∧
          (ka1.data.next_ ≠ zero_key → m.num_ = ka1.data.num_)) ∧
    (∀ (prm : SolParameters cmd_add_symbol_t) (ka0 : SolAccountInfo Unit)
        (ka1 : SolAccountInfo pc_map_table_t) (ka2 : SolAccountInfo pc_price_t),
        0 < K.PC_MAP_TABLE_SIZE → K.PC_MAP_NODE_SIZE < 2 ^ 32 → chains_wf K ka1.data →
        ∃ r, add_symbol K prm ka0 ka1 ka2 = some r) := by
  refine ⟨?_, ?_, ?_, ?_, ?_⟩
  · intro prm ka0 ka1 t h
    rw [init_mapping_eq] at h
    split at h
    · cases h
      exact ⟨Nat.zero_le _, fun e => (e rfl).elim⟩
    · exact (error_ne_success h).elim
  · intro prm ka0 ka1 hinit
    rw [init_mapping_eq, if_neg]
    intro hacc
    obtain ⟨_, _, _, _, _, _, _, hm, hv⟩ := (init_mapping_accepts_iff K prm ka0 ka1).1 hacc
    rcases hinit with e | e
    · exact e hm
    · exact e hv
  · intro prm ka0 ka1 ka2 hi1 hi2
    rw [add_mapping_eq]
    by_cases hg : add_mapping_checks K prm ka0 ka1 ka2 = true ∧
        add_mapping_accepts K ka1 ka2 = true
    · rw [if_pos hg]
      obtain ⟨_, hm2, hfull, hn2, hz⟩ := (add_mapping_accepts_iff K ka1 ka2).1 hg.2
      refine ⟨_, _, _, rfl, ⟨hi1.1, fun _ => ?_⟩, ⟨Nat.zero_le _, fun e => (e rfl).elim⟩,
        fun e => (e hz).elim, fun e hor => ?_⟩
      · exact Nat.le_antisymm hi1.1 hfull
      · exfalso
        rcases hor with h0 | h0
        · have := hi2.2 e
          omega
        · exact h0 hm2
    · rw [if_neg hg]
      exact ⟨_, _, _, rfl, hi1, hi2, fun _ => ⟨rfl, rfl⟩, fun _ _ => ⟨rfl, rfl⟩⟩
  · intro prm ka0 ka1 ka2 code m p hi h
    obtain ⟨_, hnext, _, _, _, hnum⟩ := add_symbol_returns h
    rcases hnum with e | ⟨_, hz, hroom, e⟩
    · exact ⟨⟨by rw [e]; exact hi.1, fun hne => by rw [e]; exact hi.2 (by rw [← hnext]; exact hne)⟩,
        hnext, fun _ => e⟩
    · refine ⟨⟨?_, fun hne => ?_⟩, hnext, fun hne => (hne hz).elim⟩
      · rw [e]
        exact le_trans (Nat.mod_le _ _) hroom
      · rw [hnext] at hne
        exact (hne hz).elim
  · intro prm ka0 ka1 ka2 hT hN hwf
    exact add_symbol_total K prm ka0 ka1 ka2 hT hN hwf

/-- C15 (witness): `add_symbol` of a new symbol on a full table with a successor returns
and leaves `num_` and `next_` as they were. -/
theorem C15_mapping_table_invariant_witness :
    ∃ code m p, add_symbol sample_h add_sym_instr (funder key_D)
        (map_account { sample_full_table with next_ := ⟨11, 0, 0, 0⟩ })
        (price_account (zero_price sample_h)) = some (code, m, p) ∧
      m.num_ = 4 ∧ m.next_ = ⟨11, 0, 0, 0⟩ := by
  have hwf : chains_wf sample_h { sample_full_table with next_ := ⟨11, 0, 0, 0⟩ } := by
    unfold chains_wf
    decide
  obtain ⟨⟨code, m, p⟩, h⟩ := (C15_mapping_table_invariant sample_h).2.2.2.2 add_sym_instr
    (funder key_D) (map_account { sample_full_table with next_ := ⟨11, 0, 0, 0⟩ })
    (price_account (zero_price sample_h)) (by decide) (by decide) hwf
  obtain ⟨_, h2, h3⟩ := (C15_mapping_table_invariant sample_h).2.2.2.1 add_sym_instr
    (funder key_D) (map_account { sample_full_table with next_ := ⟨11, 0, 0, 0⟩ })
    (price_account (zero_price sample_h)) code m p ⟨by decide, fun _ => by decide⟩ h
  exact ⟨code, m, p, h, h3 (by decide), h2⟩

theorem del_publisher_loop_code (pub_ : pc_pub_key_t) (sptr : pc_price_t) :
    ∀ (n i code : Nat) (p : pc_price_t), del_publisher_loop pub_ sptr n i = some (code, p) →
      code = SUCCESS ∨ code = ERROR_INVALID_ARGUMENT := by
  intro n
  induction n with
  | zero =>
    intro i code p h
    simp only [del_publisher_loop, Option.some.injEq, Prod.mk.injEq] at h
    exact Or.inr h.1.symm
  | succ n ih =>
    intro i code p h
    rw [del_publisher_loop] at h
    split at h
    · cases h
    · split at h
      · split at h
        · cases h
        · split at h
          · cases h
            exact Or.inl rfl
          · cases h
      · exact ih _ _ _ h

theorem del_publisher_code {K : oracle_h} {prm : SolParameters cmd_del_publisher_t}
    {ka0 : SolAccountInfo Unit} {ka1 : SolAccountInfo pc_price_t} {code : Nat}
    {p : pc_price_t} (h : del_publisher K prm ka0 ka1 = some (code, p)) :
    code = SUCCESS ∨ code = ERROR_INVALID_ARGUMENT := by
  rw [del_publisher_eq] at h
  split at h
  · exact del_publisher_loop_code _ _ _ _ _ _ h
  · cases h
    exact Or.inr rfl

theorem add_publisher_code {K : oracle_h} {prm : SolParameters cmd_add_publisher_t}
    {ka0 : SolAccountInfo Unit} {ka1 : SolAccountInfo pc_price_t} {code : Nat}
    {p : pc_price_t} (h : add_publisher K prm ka0 ka1 = some (code, p)) :
    code = SUCCESS ∨ code = ERROR_INVALID_ARGUMENT := by
  rw [add_publisher_eq] at h
  split at h
  · split at h
    · cases h
    · cases h
      exact Or.inr rfl
    · split at h
      · cases h
        exact Or.inr rfl
      · split at h
        · cases h
          exact Or.inl rfl
        · cases h
  · cases h
    exact Or.inr rfl

theorem upd_price_code {K : oracle_h} {prm : SolParameters cmd_upd_price_t}
    {ka0 : SolAccountInfo Unit} {ka1 : SolAccountInfo pc_price_t}
    {ka2 : SolAccountInfo sysvar_clock_t} {code : Nat} {p : pc_price_t}
    (h : upd_price K prm ka0 ka1 ka2 = some (code, p)) :
    code = SUCCESS ∨ code = ERROR_INVALID_ARGUMENT := by
  rw [upd_price_eq] at h
  split at h
  · split at h
    · split at h
      · cases h
      · split at h
        · cases h
          exact Or.inr rfl
        · split at h
          · cases h
          · split at h
            · split at h
              · cases h
              · cases h
                exact Or.inl rfl
            · cases h
              exact Or.inl rfl
    · cases h
      exact Or.inr rfl
  · cases h
    exact Or.inr rfl

theorem init_mapping_code {K : oracle_h} {prm : SolParameters cmd_hdr_t}
    {ka0 : SolAccountInfo Unit} {ka1 : SolAccountInfo pc_map_table_t} {code : Nat}
    {t : pc_map_table_t} (h : init_mapping K prm ka0 ka1 = some (code, t)) :
    code = SUCCESS ∨ code = ERROR_INVALID_ARGUMENT := by
  rw [init_mapping_eq] at h
  split at h
  · cases h
    exact Or.inl rfl
  · cases h
    exact Or.inr rfl

theorem add_mapping_code {K : oracle_h} {prm : SolParameters cmd_hdr_t}
    {ka0 : SolAccountInfo Unit} {ka1 ka2 : SolAccountInfo pc_map_table_t} {code : Nat}
    {t1 t2 : pc_map_table_t} (h : add_mapping K prm ka0 ka1 ka2 = some (code, t1, t2)) :
    code = SUCCESS ∨ code = ERROR_INVALID_ARGUMENT := by
  rw [add_mapping_eq] at h
  split at h
  · cases h
    exact Or.inl rfl
  · cases h
    exact Or.inr rfl

theorem add_publisher_total (K : oracle_h) (prm : SolParameters cmd_add_publisher_t)
    (ka0 : SolAccountInfo Unit) (ka1 : SolAccountInfo pc_price_t)
    (hK : K.PC_COMP_SIZE < 2 ^ 32)
    (hnum : ka1.data.num_ ≤ K.PC_COMP_SIZE) (hlen : ka1.data.comp_.length = K.PC_COMP_SIZE) :
    ∃ r, add_publisher K prm ka0 ka1 = some r := by
  classical
  by_cases hchk : add_publisher_checks K prm ka0 ka1 = true
  · rw [add_publisher_spec K prm ka0 ka1 hK hnum hlen hchk]
    split
    · exact ⟨_, rfl⟩
    · exact ⟨_, rfl⟩
  · rw [add_publisher_eq, if_neg hchk]
    exact ⟨_, rfl⟩

theorem init_mapping_total (K : oracle_h) (prm : SolParameters cmd_hdr_t)
    (ka0 : SolAccountInfo Unit) (ka1 : SolAccountInfo pc_map_table_t) :
    ∃ r, init_mapping K prm ka0 ka1 = some r := by
  rw [init_mapping_eq]
  split
  · exact ⟨_, rfl⟩
  · exact ⟨_, rfl⟩

theorem add_mapping_total (K : oracle_h) (prm : SolParameters cmd_hdr_t)
    (ka0 : SolAccountInfo Unit) (ka1 ka2 : SolAccountInfo pc_map_table_t) :
    ∃ r, add_mapping K prm ka0 ka1 ka2 = some r := by
  rw [add_mapping_eq]
  split
  · exact ⟨_, rfl⟩
  · exact ⟨_, rfl⟩

/-- The result code of a returning `dispatch_1` is success or invalid argument. -/
theorem dispatch_1_code {K : oracle_h} {prm : SolParameters cmd_data}
    {ka0 ka1 ka2 : SolAccountInfo account_data} {code : Nat} {d1 d2 : account_data}
    (h : dispatch_1 K prm ka0 ka1 ka2 = some (code, d1, d2)) :
    code = SUCCESS ∨ code = ERROR_INVALID_ARGUMENT := by
  unfold dispatch_1 at h
  dsimp only at h
  split at h
  · split at h
    · cases h
    · rename_i hh
      cases h
      exact upd_price_code hh
  · split at h
    · split at h
      · cases h
      · rename_i hh
        cases h
        exact init_mapping_code hh
    · split at h
      · split at h
        · cases h
        · rename_i hh
          cases h
          exact add_mapping_code hh
      · split at h
        · split at h
          · cases h
          · rename_i hh
            cases h
            exact (add_symbol_returns hh).1
        · split at h
          · split at h
            · cases h
            · rename_i hh
              cases h
              exact add_publisher_code hh
          · split at h
            · split at h
              · cases h
              · rename_i hh
                cases h
                exact del_publisher_code hh
            · cases h
              exact Or.inr rfl

/-- On well-formed accounts `dispatch_1` returns. -/
theorem dispatch_1_total (K : oracle_h) (prm : SolParameters cmd_data)
    (ka0 ka1 ka2 : SolAccountInfo account_data)
    (hK : K.PC_COMP_SIZE < 2 ^ 31) (hT : 0 < K.PC_MAP_TABLE_SIZE)
    (hN : K.PC_MAP_NODE_SIZE < 2 ^ 32)
    (hnum : ka1.data.as_price.num_ ≤ K.PC_COMP_SIZE)
    (hlen : ka1.data.as_price.comp_.length = K.PC_COMP_SIZE)
    (hwf : chains_wf K ka1.data.as_table) :
    ∃ r, dispatch_1 K prm ka0 ka1 ka2 = some r := by
  unfold dispatch_1
  dsimp only
  split
  · obtain ⟨code, p2, h, _⟩ := upd_price_outcome K
      (prm_cast prm prm.data.upd_price)
      (ka_cast ka0 ()) (ka_cast ka1 ka1.data.as_price) (ka_cast ka2 ka2.data.as_clock)
      hnum hlen (by show ka1.data.as_price.num_ < 2 ^ 31; omega)
    rw [h]
    exact ⟨_, rfl⟩
  · split
    · obtain ⟨⟨code, t⟩, h⟩ := init_mapping_total K (prm_cast prm prm.data.hdr)
        (ka_cast ka0 ()) (ka_cast ka1 ka1.data.as_table)
      rw [h]
      exact ⟨_, rfl⟩
    · split
      · obtain ⟨⟨code, t1, t2⟩, h⟩ := add_mapping_total K (prm_cast prm prm.data.hdr)
          (ka_cast ka0 ()) (ka_cast ka1 ka1.data.as_table) (ka_cast ka2 ka2.data.as_table)
        rw [h]
        exact ⟨_, rfl⟩
      · split
        · obtain ⟨⟨code, m, p⟩, h⟩ := add_symbol_total K
            (prm_cast prm prm.data.add_symbol)
            (ka_cast ka0 ()) (ka_cast ka1 ka1.data.as_table) (ka_cast ka2 ka2.data.as_price)
            hT hN hwf
          rw [h]
          exact ⟨_, rfl⟩
        · split
          · obtain ⟨⟨code, p⟩, h⟩ := add_publisher_total K
              (prm_cast prm prm.data.add_publisher)
              (ka_cast ka0 ()) (ka_cast ka1 ka1.data.as_price) (by omega) hnum hlen
            rw [h]
            exact ⟨_, rfl⟩
          · split
            · obtain ⟨code, p, h, _⟩ := del_publisher_outcome K
                (prm_cast prm prm.data.del_publisher)
                (ka_cast ka0 ()) (ka_cast ka1 ka1.data.as_price) (by omega) hnum hlen
              rw [h]
              exact ⟨_, rfl⟩
            · exact ⟨_, rfl⟩

/-- C18: `dispatch` returns invalid argument and leaves the accounts unchanged when the
buffer is shorter than the common header, when the header's version is not `PC_VERSION_1`,
and when the header's command is none of the seven commands; the result code of every
returning call is success or invalid argument; and on well-formed accounts every call
returns. -/
theorem C18_dispatcher_rejection (K : oracle_h) (prm : SolParameters cmd_data)
    (ka0 ka1 ka2 : SolAccountInfo account_data) :
    (prm.data_len < K.sizeof_cmd_hdr_t →
      dispatch K prm ka0 ka1 ka2 = some (ERROR_INVALID_ARGUMENT, ka1.data, ka2.data)) ∧
    (prm.data.hdr.ver_ ≠ K.PC_VERSION_1 →
      dispatch K prm ka0 ka1 ka2 = some (ERROR_INVALID_ARGUMENT, ka1.data, ka2.data)) ∧
    (prm.data.hdr.cmd_ ≠ K.e_cmd_upd_price → prm.data.hdr.cmd_ ≠ K.e_cmd_agg_price →
      prm.data.hdr.cmd_ ≠ K.e_cmd_init_mapping → prm.data.hdr.cmd_ ≠ K.e_cmd_add_mapping →
      prm.data.hdr.cmd_ ≠ K.e_cmd_add_symbol → prm.data.hdr.cmd_ ≠ K.e_cmd_add_publisher →
      prm.data.hdr.cmd_ ≠ K.e_cmd_del_publisher →
      dispatch K prm ka0 ka1 ka2 = some (ERROR_INVALID_ARGUMENT, ka1.data, ka2.data)) ∧
    (∀ code d1 d2, dispatch K prm ka0 ka1 ka2 = some (code, d1, d2) →
      code = SUCCESS ∨ code = ERROR_INVALID_ARGUMENT) ∧
    (K.PC_COMP_SIZE < 2 ^ 31 → 0 < K.PC_MAP_TABLE_SIZE → K.PC_MAP_NODE_SIZE < 2 ^ 32 →
      ka1.data.as_price.num_ ≤ K.PC_COMP_SIZE →
      ka1.data.as_price.comp_.length = K.PC_COMP_SIZE → chains_wf K ka1.data.as_table →
      ∃ code d1 d2, dispatch K prm ka0 ka1 ka2 = some (code, d1, d2) ∧
        (code = SUCCESS ∨ code = ERROR_INVALID_ARGUMENT)) := by
  have hcode : ∀ code d1 d2, dispatch K prm ka0 ka1 ka2 = some (code, d1, d2) →
      code = SUCCESS ∨ code = ERROR_INVALID_ARGUMENT := by
    intro code d1 d2 h
    unfold dispatch at h
    dsimp only at h
    split at h
    · cases h
      exact Or.inr rfl
    · split at h
      · exact dispatch_1_code h
      · cases h
        exact Or.inr rfl
  refine ⟨?_, ?_, ?_, hcode, ?_⟩
  · intro hshort
    unfold dispatch
    rw [if_pos hshort]
  · intro hver
    unfold dispatch
    dsimp only
    by_cases hs : prm.data_len < K.sizeof_cmd_hdr_t
    · rw [if_pos hs]
    · rw [if_neg hs, if_neg hver]
  · intro h1 h2 h3 h4 h5 h6 h7
    have h12 : ¬ (prm.data.hdr.cmd_ = K.e_cmd_upd_price ∨
        prm.data.hdr.cmd_ = K.e_cmd_agg_price) := fun h => h.elim h1 h2
    unfold dispatch
    dsimp only
    by_cases hs : prm.data_len < K.sizeof_cmd_hdr_t
    · rw [if_pos hs]
    · rw [if_neg hs]
      by_cases hv : prm.data.hdr.ver_ = K.PC_VERSION_1
      · rw [if_pos hv]
        unfold dispatch_1
        dsimp only
        rw [if_neg h12, if_neg h3, if_neg h4, if_neg h5, if_neg h6, if_neg h7]
      · rw [if_neg hv]
  · intro hK hT hN hnum hlen hwf
    have htot : ∃ r, dispatch K prm ka0 ka1 ka2 = some r := by
      unfold dispatch
      dsimp only
      split
      · exact ⟨_, rfl⟩
      · split
        · exact dispatch_1_total K prm ka0 ka1 ka2 hK hT hN hnum hlen hwf
        · exact ⟨_, rfl⟩
    obtain ⟨⟨code, d1, d2⟩, h⟩ := htot
    exact ⟨code, d1, d2, h, hcode code d1 d2 h⟩

/-- C18 (witness): a 4-byte buffer, a header of version 2 and a header with command 9 are
each answered with invalid argument and unchanged accounts. -/
theorem C18_dispatcher_rejection_witness :
    dispatch sample_h (sample_buf 1 5 4)
      (sample_any (zero_table sample_h) sample_roster_two)
      (sample_any sample_tail sample_roster_two)
      (sample_any sample_tail (zero_price sample_h)) =
      some (ERROR_INVALID_ARGUMENT, ⟨sample_tail, sample_roster_two, ⟨0⟩⟩,
        ⟨sample_tail, zero_price sample_h, ⟨0⟩⟩) ∧
    dispatch sample_h (sample_buf 2 5 72)
      (sample_any (zero_table sample_h) sample_roster_two)
      (sample_any sample_tail sample_roster_two)
      (sample_any sample_tail (zero_price sample_h)) =
      some (ERROR_INVALID_ARGUMENT, ⟨sample_tail, sample_roster_two, ⟨0⟩⟩,
        ⟨sample_tail, zero_price sample_h, ⟨0⟩⟩) ∧
    dispatch sample_h (sample_buf 1 9 72)
      (sample_any (zero_table sample_h) sample_roster_two)
      (sample_any sample_tail sample_roster_two)
      (sample_any sample_tail (zero_price sample_h)) =
      some (ERROR_INVALID_ARGUMENT, ⟨sample_tail, sample_roster_two, ⟨0⟩⟩,
        ⟨sample_tail, zero_price sample_h, ⟨0⟩⟩) :=
  ⟨(C18_dispatcher_rejection sample_h (sample_buf 1 5 4) _ _ _).1 (by decide),
    (C18_dispatcher_rejection sample_h (sample_buf 2 5 72) _ _ _).2.1 (by decide),
    (C18_dispatcher_rejection sample_h (sample_buf 1 9 72) _ _ _).2.2.1 (by decide) (by decide)
      (by decide) (by decide) (by decide) (by decide) (by decide)⟩

/-- C19 (witness): `init_mapping` on a blank table succeeds and leaves magic and version
set; a second `init_mapping` on the result returns invalid argument and changes nothing. -/
theorem C19_init_mapping_one_shot_witness :
    init_mapping sample_h init_instr (funder key_D) (map_account (zero_table sample_h)) =
      some (SUCCESS, sample_table [0, 0, 0] []) ∧
    init_mapping sample_h init_instr (funder key_D) (map_account (sample_table [0, 0, 0] [])) =
      some (ERROR_INVALID_ARGUMENT, sample_table [0, 0, 0] []) := by
  obtain ⟨code, t2, h1, _, h3, h4, _, h6⟩ := C19_init_mapping_one_shot sample_h init_instr
    (funder key_D) (map_account (zero_table sample_h))
  have hc : code = SUCCESS := h3.2 (by decide)
  have ht : t2 = sample_table [0, 0, 0] [] := (h4 hc).1.trans (by decide)
  have h2 := h6 hc (Or.inl (by decide)) init_instr (funder key_D) (map_account t2) rfl
  rw [ht] at h2
  exact ⟨by rw [h1, hc, ht], h2⟩

theorem pc_symbol_is_zero_iff (s : pc_symbol_t) : pc_symbol_is_zero s = true ↔ s = zero_symbol := by
  rcases s with ⟨a, b, c, d⟩
  simp [pc_symbol_is_zero, zero_symbol]
  tauto

/-- C22: `add_symbol` is not atomic on failure.  For valid parameters and account metadata,
an initialized table with well-formed chains that does not contain the symbol and is full
or has a successor, and an uninitialized price account, the call returns invalid argument
with the table unchanged and the price account initialized (magic, version, size, exponent,
price type and symbol written, so a blank account has changed); any later `add_symbol` with
that price account returns invalid argument (the magic being a non-zero constant). -/
theorem C22_add_symbol_not_atomic (K : oracle_h) (prm : SolParameters cmd_add_symbol_t)
    (ka0 : SolAccountInfo Unit) (ka1 : SolAccountInfo pc_map_table_t)
    (ka2 : SolAccountInfo pc_price_t) (hT : 0 < K.PC_MAP_TABLE_SIZE)
    (hchk : add_symbol_checks K prm ka0 ka1 ka2 = true)
    (hmagic : ka1.data.magic_ = K.PC_MAGIC) (hwf : chains_wf K ka1.data)
    (habs : ∀ k, k < ka1.data.num_ → (node_at ka1.data.nds_ k).sym_ ≠ prm.data.sym_)
    (hfull : ka1.data.num_ = K.PC_MAP_NODE_SIZE ∨ ka1.data.next_ ≠ zero_key)
    (hblank : ka2.data.magic_ = 0) :
    ∃ p, add_symbol K prm ka0 ka1 ka2 = some (ERROR_INVALID_ARGUMENT, ka1.data, p) ∧
      p.magic_ = K.PC_MAGIC ∧ p.ver_ = K.PC_VERSION ∧ p.size_ = K.sizeof_pc_price_t ∧
      p.expo_ = prm.data.expo_ ∧ p.ptype_ = prm.data.ptype_ ∧ p.sym_ = prm.data.sym_ ∧
      p.num_ = 0 ∧ p.sym_ ≠ zero_symbol ∧
      (ka2.data = zero_price K → p ≠ ka2.data) ∧
      (K.PC_MAGIC ≠ 0 →
        ∀ (prm2 : SolParameters cmd_add_symbol_t) (kb0 : SolAccountInfo Unit)
          (kb1 : SolAccountInfo pc_map_table_t) (kb2 : SolAccountInfo pc_price_t),
          kb2.data = p →
          add_symbol K prm2 kb0 kb1 kb2 = some (ERROR_INVALID_ARGUMENT, kb1.data, kb2.data)) := by
  obtain ⟨htl, hnl, hnum, htab, hnds⟩ := hwf
  have hb : prm.data.sym_.k0 % K.PC_MAP_TABLE_SIZE % 2 ^ 32 < ka1.data.tab_.length := by
    rw [htl]
    exact lt_of_le_of_lt (Nat.mod_le _ _) (Nat.mod_lt _ hT)
  have hhead := htab _ hb
  obtain ⟨r, hr, h1, _⟩ := add_symbol_walk_spec prm.data.sym_ ka1.data.nds_ ka1.data.num_
    (by omega) hnds (ka1.data.nds_.length + 1) _ (by omega) hhead
  have hrn : r = none := by
    cases r with
    | none => rfl
    | some v =>
      obtain ⟨hv, hs, _⟩ := h1 v rfl
      exact (habs v hv hs).elim
  subst hrn
  have hroom : K.PC_MAP_NODE_SIZE ≤ ka1.data.num_ ∨ ka1.data.next_ ≠ zero_key := by
    rcases hfull with h | h
    · exact Or.inl (by omega)
    · exact Or.inr h
  have hsym : prm.data.sym_ ≠ zero_symbol := by
    intro e
    have hz := (add_symbol_guards hchk).1
    simp only [Bool.or_eq_false_iff] at hz
    have h5 := hz.2
    rw [(pc_symbol_is_zero_iff _).2 e] at h5
    exact Bool.noConfusion h5
  refine ⟨_, add_symbol_no_room hchk hmagic hblank (tab_get hb) hr hroom, rfl, rfl, rfl, rfl,
    rfl, rfl, rfl, hsym, ?_, ?_⟩
  · intro hz e
    apply hsym
    have : (add_symbol_price_init K prm.data).sym_ = (zero_price K).sym_ := by rw [e, hz]
    exact this
  · intro hm prm2 kb0 kb1 kb2 hk
    apply add_symbol_rejected
    rintro ⟨_, _, h3⟩
    rw [hk] at h3
    exact hm h3

/-- C22 (witness): `add_symbol` of the sample symbol on a full table returns invalid
argument, leaves the table unchanged and the blank price account initialized; a later
`add_symbol` with that price account on a tail with room is rejected. -/
theorem C22_add_symbol_not_atomic_witness :
    add_symbol sample_h add_sym_instr (funder key_D) (map_account sample_full_table)
      (price_account (zero_price sample_h)) =
      some (ERROR_INVALID_ARGUMENT, sample_full_table,
        add_symbol_price_init sample_h add_sym_instr.data) ∧
    add_symbol_price_init sample_h add_sym_instr.data ≠ zero_price sample_h ∧
    add_symbol sample_h add_sym_instr (funder key_D) (map_account sample_tail)
      (price_account (add_symbol_price_init sample_h add_sym_instr.data)) =
      some (ERROR_INVALID_ARGUMENT, sample_tail,
        add_symbol_price_init sample_h add_sym_instr.data) := by
  have hwf : chains_wf sample_h (map_account sample_full_table).data := by
    unfold chains_wf
    decide
  have habs : ∀ k, k < (map_account sample_full_table).data.num_ →
      (node_at (map_account sample_full_table).data.nds_ k).sym_ ≠ add_sym_instr.data.sym_ := by
    decide
  obtain ⟨p, h1, _, _, _, _, _, _, _, _, h10, h11⟩ := C22_add_symbol_not_atomic sample_h
    add_sym_instr (funder key_D) (map_account sample_full_table)
    (price_account (zero_price sample_h)) (by decide) (by decide) (by decide) hwf habs
    (Or.inl (by decide)) (by decide)
  have hp : p = add_symbol_price_init sample_h add_sym_instr.data := by
    have h0 : add_symbol sample_h add_sym_instr (funder key_D) (map_account sample_full_table)
        (price_account (zero_price sample_h)) =
        some (ERROR_INVALID_ARGUMENT, sample_full_table,
          add_symbol_price_init sample_h add_sym_instr.data) := by decide
    rw [h0] at h1
    injection h1 with h1
    injection h1 with _ h1
    injection h1 with _ h1
    exact h1.symm
  subst hp
  exact ⟨h1, h10 rfl, h11 (by decide) add_sym_instr (funder key_D) (map_account sample_tail)
    (price_account (add_symbol_price_init sample_h add_sym_instr.data)) rfl⟩

theorem node_at_set {nds_ : List pc_map_node_t} {v : Nat} (x : pc_map_node_t) (k : Nat)
    (hv : v < nds_.length) :
    node_at (nds_.set v x) k = if k = v then x else node_at nds_ k := by
  unfold node_at
  by_cases h : k = v
  · subst h
    simp [List.getD, List.getElem?_set, hv]
  · simp [List.getD, List.getElem?_set, h, Ne.symm h]

/-- The nodes of a chain that starts at `vidx` have 0-based indices below `vidx`. -/
theorem bucket_chain_lt (nds_ : List pc_map_node_t) (num : Nat)
    (hl : ∀ k, k < num → (node_at nds_ k).next_ ≤ k) :
    ∀ fuel vidx, vidx ≤ num → ∀ k, k ∈ bucket_chain nds_ fuel vidx → k < vidx := by
  intro fuel
  induction fuel with
  | zero =>
    intro vidx _ k hk
    cases vidx <;> simp [bucket_chain] at hk
  | succ fuel ih =>
    intro vidx hv k hk
    cases vidx with
    | zero => simp [bucket_chain] at hk
    | succ v =>
      simp only [bucket_chain, List.mem_cons] at hk
      rcases hk with hk | hk
      · omega
      · have hn := hl v (by omega)
        have := ih (node_at nds_ v).next_ (by omega) k hk
        omega

/-- Two node arrays with the same links below `num` have the same chains. -/
theorem bucket_chain_congr (nds1 nds2 : List pc_map_node_t) (num : Nat)
    (hl : ∀ k, k < num → (node_at nds1 k).next_ ≤ k)
    (he : ∀ k, k < num → (node_at nds2 k).next_ = (node_at nds1 k).next_) :
    ∀ fuel vidx, vidx ≤ num → bucket_chain nds2 fuel vidx = bucket_chain nds1 fuel vidx := by
  intro fuel
  induction fuel with
  | zero =>
    intro vidx _
    cases vidx <;> simp [bucket_chain]
  | succ fuel ih =>
    intro vidx hv
    cases vidx with
    | zero => simp [bucket_chain]
    | succ v =>
      have hn := hl v (by omega)
      simp only [bucket_chain]
      rw [he v (by omega), ih _ (by omega)]

/-- With links below the node index, a chain does not depend on the fuel once there is
enough of it. -/
theorem bucket_chain_fuel (nds_ : List pc_map_node_t) (num : Nat)
    (hl : ∀ k, k < num → (node_at nds_ k).next_ ≤ k) :
    ∀ f1 f2 vidx, vidx ≤ num → vidx ≤ f1 → vidx ≤ f2 →
      bucket_chain nds_ f1 vidx = bucket_chain nds_ f2 vidx := by
  intro f1
  induction f1 with
  | zero =>
    intro f2 vidx _ h1 _
    have : vidx = 0 := by omega
    subst this
    cases f2 <;> simp [bucket_chain]
  | succ f1 ih =>
    intro f2 vidx hv h1 h2
    cases vidx with
    | zero => cases f2 <;> simp [bucket_chain]
    | succ v =>
      cases f2 with
      | zero => omega
      | succ f2 =>
        have hn := hl v (by omega)
        simp only [bucket_chain]
        rw [ih f2 _ (by omega) (by omega) (by omega)]

/-- The bucket walk reads only `nds_[0..num)` and needs at most `vidx <= num` steps. -/
theorem add_symbol_walk_take (sym_ : pc_symbol_t) (nds_ : List pc_map_node_t) (num : Nat)
    (hlen : num ≤ nds_.length) (hl : ∀ k, k < num → (node_at nds_ k).next_ ≤ k) :
    ∀ f1 f2 vidx, vidx ≤ num → vidx ≤ f1 → vidx ≤ f2 →
      add_symbol_walk sym_ (nds_.take num) f1 vidx = add_symbol_walk sym_ nds_ f2 vidx := by
  intro f1
  induction f1 with
  | zero =>
    intro f2 vidx _ h1 _
    have : vidx = 0 := by omega
    subst this
    cases f2 <;> simp [add_symbol_walk]
  | succ f1 ih =>
    intro f2 vidx hv h1 h2
    cases vidx with
    | zero => cases f2 <;> simp [add_symbol_walk]
    | succ v =>
      cases f2 with
      | zero => omega
      | succ f2 =>
        have hn := hl v (by omega)
        have hg : (nds_.take num)[v]? = some (node_at nds_ v) := by
          rw [List.getElem?_take_of_lt (by omega)]
          exact node_at_get (by omega)
        simp only [add_symbol_walk, hg, node_at_get (show v < nds_.length by omega)]
        rw [ih f2 _ (by omega) (by omega) (by omega)]

/-- The three ways a returning `add_symbol` leaves the mapping table: unchanged, with the
price account key of a node replaced, or with a fresh node at the head of the bucket of
the symbol, whose chain did not carry the symbol. -/
theorem add_symbol_cases {K : oracle_h} {prm : SolParameters cmd_add_symbol_t}
    {ka0 : SolAccountInfo Unit} {ka1 : SolAccountInfo pc_map_table_t}
    {ka2 : SolAccountInfo pc_price_t} {code : Nat} {m : pc_map_table_t} {p : pc_price_t}
    (h : add_symbol K prm ka0 ka1 ka2 = some (code, m, p)) :
    m = ka1.data ∨
    (∃ vidx v nptr, ka1.data.tab_[bucket_of K prm.data.sym_]? = some vidx ∧
      add_symbol_walk prm.data.sym_ ka1.data.nds_ (ka1.data.nds_.length + 1) vidx
        = some (some v) ∧
      ka1.data.nds_[v]? = some nptr ∧
      m = { ka1.data with nds_ := ka1.data.nds_.set v { nptr with price_acc_ := ka2.key } }) ∨
    (∃ vidx, ka1.data.tab_[bucket_of K prm.data.sym_]? = some vidx ∧
      add_symbol_walk prm.data.sym_ ka1.data.nds_ (ka1.data.nds_.length + 1) vidx = some none ∧
      ka1.data.num_ < K.PC_MAP_NODE_SIZE ∧
      (ka1.data.num_ + 1) % 2 ^ 32 - 1 < ka1.data.nds_.length ∧
      1 ≤ (ka1.data.num_ + 1) % 2 ^ 32 ∧
      m = { ka1.data with
        num_ := (ka1.data.num_ + 1) % 2 ^ 32
        nds_ := ka1.data.nds_.set ((ka1.data.num_ + 1) % 2 ^ 32 - 1)
          { sym_ := prm.data.sym_, next_ := vidx, price_acc_ := ka2.key }
        tab_ := ka1.data.tab_.set (bucket_of K prm.data.sym_) ((ka1.data.num_ + 1) % 2 ^ 32) }) := by
  unfold add_symbol at h
  dsimp only at h
  split at h
  · cases h
    exact Or.inl rfl
  · split at h
    · cases h
      exact Or.inl rfl
    · split at h
      · cases h
        exact Or.inl rfl
      · split at h
        · cases h
        · rename_i vidx htab
          split at h
          · cases h
          · rename_i v hwalk
            split at h
            · cases h
            · rename_i nptr hnode
              cases h
              exact Or.inr (Or.inl ⟨vidx, v, nptr, htab, hwalk, hnode, rfl⟩)
          · rename_i hwalk
            split at h
            · cases h
              exact Or.inl rfl
            · rename_i h4
              split at h
              · rename_i hin
                cases h
                refine Or.inr (Or.inr ⟨vidx, htab, hwalk, ?_, hin.1, hin.2, rfl⟩)
                simp only [Bool.or_eq_true, not_or, decide_eq_true_eq] at h4
                omega
              · cases h

theorem tab_getD_set {l : List Nat} {i : Nat} (x b : Nat) (hi : i < l.length) :
    (l.set i x).getD b 0 = if b = i then x else l.getD b 0 := by
  by_cases h : b = i
  · subst h
    simp [List.getD, List.getElem?_set, hi]
  · simp [List.getD, List.getElem?_set, h, Ne.symm h]

theorem tab_get_some {l : List Nat} {i v : Nat} (h : l[i]? = some v) :
    i < l.length ∧ l.getD i 0 = v := by
  have hi : i < l.length := by
    by_contra hc
    rw [List.getElem?_eq_none (by omega)] at h
    cases h
  exact ⟨hi, by simp [List.getD, h]⟩

theorem replicate_getD_zero (n b : Nat) : (List.replicate n 0).getD b 0 = 0 := by
  by_cases h : b < n
  · simp [List.getD_eq_getElem?_getD, List.getElem?_replicate, h]
  · simp [List.getD_eq_getElem?_getD, List.getElem?_replicate, h]

theorem chain_inv_head {K : oracle_h} {t : pc_map_table_t} (hi : chain_inv K t) (b : Nat) :
    t.tab_.getD b 0 ≤ t.num_ := by
  by_cases hb : b < t.tab_.length
  · exact hi.heads b hb
  · simp [List.getD, List.getElem?_eq_none (show t.tab_.length ≤ b by omega)]

/-- The table of a successful `init_mapping` satisfies the chain invariant. -/
theorem chain_inv_init (K : oracle_h) :
    chain_inv K { zero_table K with magic_ := K.PC_MAGIC, ver_ := K.PC_VERSION } := by
  have hchain : ∀ b, chain_of { zero_table K with magic_ := K.PC_MAGIC, ver_ := K.PC_VERSION } b
      = [] := by
    intro b
    have h0 : (List.replicate K.PC_MAP_TABLE_SIZE 0).getD b 0 = 0 := replicate_getD_zero _ b
    show bucket_chain _ _ ((List.replicate K.PC_MAP_TABLE_SIZE 0).getD b 0) = []
    rw [h0]
    simp [bucket_chain]
  refine ⟨by simp [zero_table], by simp [zero_table], Nat.zero_le _, ?_, ?_, ?_, ?_, ?_⟩
  · intro b _
    show (List.replicate K.PC_MAP_TABLE_SIZE 0).getD b 0 ≤ 0
    rw [replicate_getD_zero]
  · intro k hk
    exact (Nat.not_lt_zero _ hk).elim
  · intro k hk
    exact (Nat.not_lt_zero _ hk).elim
  · intro b k _ hk
    rw [hchain b] at hk
    cases hk
  · intro i j hi
    exact (Nat.not_lt_zero _ hi).elim

/-- Replacing the price account key of a node keeps the chain invariant. -/
theorem chain_inv_found {K : oracle_h} {t : pc_map_table_t} (hi : chain_inv K t)
    {v : Nat} {nptr : pc_map_node_t} (hnode : t.nds_[v]? = some nptr) (key : pc_pub_key_t) :
    chain_inv K { t with nds_ := t.nds_.set v { nptr with price_acc_ := key } } := by
  have hv : v < t.nds_.length := by
    by_contra hc
    rw [List.getElem?_eq_none (by omega)] at hnode
    cases hnode
  have hn : node_at t.nds_ v = nptr := node_at_of_get hnode
  have hsym : ∀ k, (node_at (t.nds_.set v { nptr with price_acc_ := key }) k).sym_ =
      (node_at t.nds_ k).sym_ := by
    intro k
    rw [node_at_set _ _ hv]
    split
    · rename_i e
      rw [e, hn]
    · rfl
  have hnext : ∀ k, (node_at (t.nds_.set v { nptr with price_acc_ := key }) k).next_ =
      (node_at t.nds_ k).next_ := by
    intro k
    rw [node_at_set _ _ hv]
    split
    · rename_i e
      rw [e, hn]
    · rfl
  have hchain : ∀ b, chain_of { t with nds_ := t.nds_.set v { nptr with price_acc_ := key } } b
      = chain_of t b := by
    intro b
    show bucket_chain (t.nds_.set v _) ((t.nds_.set v _).length + 1) (t.tab_.getD b 0) = _
    rw [List.length_set]
    exact bucket_chain_congr _ _ t.num_ hi.links (fun k _ => hnext k) _ _ (chain_inv_head hi b)
  refine ⟨hi.tab_len, ?_, hi.num_le, hi.heads, ?_, ?_, ?_, ?_⟩
  · show (t.nds_.set v _).length = _
    rw [List.length_set]
    exact hi.nds_len
  · intro k hk
    show (node_at (t.nds_.set v _) k).next_ ≤ k
    rw [hnext k]
    exact hi.links k hk
  · intro k hk
    show k ∈ chain_of _ (bucket_of K (node_at (t.nds_.set v _) k).sym_)
    rw [hsym k, hchain]
    exact hi.on_chain k hk
  · intro b k hb hk
    show bucket_of K (node_at (t.nds_.set v _) k).sym_ = b
    rw [hsym k]
    rw [hchain] at hk
    exact hi.in_bucket b k hb hk
  · intro i j hil hjl he
    have he2 : (node_at (t.nds_.set v { nptr with price_acc_ := key }) i).sym_ =
        (node_at (t.nds_.set v { nptr with price_acc_ := key }) j).sym_ := he
    rw [hsym i, hsym j] at he2
    exact hi.distinct i j hil hjl he2

/-- Allocating a fresh node at the head of the bucket of a symbol that its chain does not
carry keeps the chain invariant. -/
theorem chain_inv_fresh {K : oracle_h} {t : pc_map_table_t} (hi : chain_inv K t)
    (s : pc_symbol_t) (key : pc_pub_key_t) {vidx : Nat}
    (htab : t.tab_[bucket_of K s]? = some vidx)
    (hwalk : add_symbol_walk s t.nds_ (t.nds_.length + 1) vidx = some none)
    (hroom : t.num_ < K.PC_MAP_NODE_SIZE) :
    chain_inv K { t with
      num_ := t.num_ + 1
      nds_ := t.nds_.set t.num_ { sym_ := s, next_ := vidx, price_acc_ := key }
      tab_ := t.tab_.set (bucket_of K s) (t.num_ + 1) } := by
  obtain ⟨hidx, hhead⟩ := tab_get_some htab
  have hnl : t.num_ < t.nds_.length := by
    rw [hi.nds_len]
    exact hroom
  have hvn : vidx ≤ t.num_ := by
    rw [← hhead]
    exact hi.heads _ hidx
  -- the symbol is not on the chain of its bucket
  have habs : ∀ k, k ∈ chain_of t (bucket_of K s) → (node_at t.nds_ k).sym_ ≠ s := by
    obtain ⟨r, hr, _, h2⟩ := add_symbol_walk_spec s t.nds_ t.num_ (by omega) hi.links
      (t.nds_.length + 1) vidx (by omega) hvn
    rw [hwalk] at hr
    have hrn : r = none := (Option.some.inj hr).symm
    intro k hk
    have hk2 : k ∈ bucket_chain t.nds_ (t.nds_.length + 1) vidx := by
      rw [← hhead]
      exact hk
    exact h2 hrn k hk2
  -- the nodes and bucket heads of the new table
  have hold : ∀ k, k ≠ t.num_ →
      node_at (t.nds_.set t.num_ { sym_ := s, next_ := vidx, price_acc_ := key }) k =
        node_at t.nds_ k := by
    intro k hk
    rw [node_at_set _ _ hnl, if_neg hk]
  have hnew : node_at (t.nds_.set t.num_ { sym_ := s, next_ := vidx, price_acc_ := key }) t.num_
      = { sym_ := s, next_ := vidx, price_acc_ := key } := by
    rw [node_at_set _ _ hnl, if_pos rfl]
  have hsame : ∀ fuel v, v ≤ t.num_ →
      bucket_chain (t.nds_.set t.num_ { sym_ := s, next_ := vidx, price_acc_ := key }) fuel v =
        bucket_chain t.nds_ fuel v :=
    bucket_chain_congr _ _ t.num_ hi.links
      (fun k hk => by rw [hold k (by omega)])
  have hother : ∀ b, b ≠ bucket_of K s →
      chain_of { t with
        num_ := t.num_ + 1
        nds_ := t.nds_.set t.num_ { sym_ := s, next_ := vidx, price_acc_ := key }
        tab_ := t.tab_.set (bucket_of K s) (t.num_ + 1) } b = chain_of t b := by
    intro b hb
    show bucket_chain (t.nds_.set t.num_ _) ((t.nds_.set t.num_ _).length + 1)
      ((t.tab_.set (bucket_of K s) (t.num_ + 1)).getD b 0) = _
    rw [List.length_set, tab_getD_set _ _ hidx, if_neg hb]
    exact hsame _ _ (chain_inv_head hi b)
  have hmine : chain_of { t with
        num_ := t.num_ + 1
        nds_ := t.nds_.set t.num_ { sym_ := s, next_ := vidx, price_acc_ := key }
        tab_ := t.tab_.set (bucket_of K s) (t.num_ + 1) } (bucket_of K s) =
      t.num_ :: chain_of t (bucket_of K s) := by
    show bucket_chain (t.nds_.set t.num_ _) ((t.nds_.set t.num_ _).length + 1)
      ((t.tab_.set (bucket_of K s) (t.num_ + 1)).getD (bucket_of K s) 0) = _
    rw [List.length_set, tab_getD_set _ _ hidx, if_pos rfl]
    simp only [bucket_chain, hnew]
    rw [hsame _ _ hvn, bucket_chain_fuel t.nds_ t.num_ hi.links t.nds_.length
      (t.nds_.length + 1) vidx hvn (by omega) (by omega)]
    show _ = t.num_ :: bucket_chain t.nds_ (t.nds_.length + 1) (t.tab_.getD (bucket_of K s) 0)
    rw [hhead]
  have hchain_lt : ∀ b k, k ∈ chain_of t b → k < t.num_ := by
    intro b k hk
    have := bucket_chain_lt t.nds_ t.num_ hi.links _ _ (chain_inv_head hi b) k hk
    have := chain_inv_head hi b
    omega
  refine ⟨?_, ?_, ?_, ?_, ?_, ?_, ?_, ?_⟩
  · show (t.tab_.set _ _).length = _
    rw [List.length_set]
    exact hi.tab_len
  · show (t.nds_.set _ _).length = _
    rw [List.length_set]
    exact hi.nds_len
  · show t.num_ + 1 ≤ _
    omega
  · intro b _
    show (t.tab_.set (bucket_of K s) (t.num_ + 1)).getD b 0 ≤ t.num_ + 1
    rw [tab_getD_set _ _ hidx]
    split
    · exact Nat.le_refl _
    · exact Nat.le_succ_of_le (chain_inv_head hi b)
  · intro k hk
    have hk1 : k < t.num_ + 1 := hk
    show (node_at (t.nds_.set t.num_ _) k).next_ ≤ k
    by_cases hkn : k = t.num_
    · rw [hkn, hnew]
      exact hvn
    · rw [hold k hkn]
      exact hi.links k (by omega)
  · intro k hk
    have hk1 : k < t.num_ + 1 := hk
    show k ∈ chain_of _ (bucket_of K (node_at (t.nds_.set t.num_ _) k).sym_)
    by_cases hkn : k = t.num_
    · rw [hkn, hnew, hmine]
      exact List.mem_cons_self _ _
    · rw [hold k hkn]
      have hon := hi.on_chain k (by omega)
      by_cases hb : bucket_of K (node_at t.nds_ k).sym_ = bucket_of K s
      · rw [hb, hmine]
        rw [hb] at hon
        exact List.mem_cons_of_mem _ hon
      · rw [hother _ hb]
        exact hon
  · intro b k hb hk
    have hb1 : b < t.tab_.length := by
      have : b < (t.tab_.set (bucket_of K s) (t.num_ + 1)).length := hb
      rw [List.length_set] at this
      exact this
    show bucket_of K (node_at (t.nds_.set t.num_ _) k).sym_ = b
    by_cases hbs : b = bucket_of K s
    · rw [hbs, hmine, List.mem_cons] at hk
      rcases hk with hk | hk
      · rw [hk, hnew, hbs]
      · have hlt := hchain_lt _ k hk
        rw [hold k (by omega), hbs]
        exact hi.in_bucket _ k hidx hk
    · rw [hother b hbs] at hk
      have hlt := hchain_lt _ k hk
      rw [hold k (by omega)]
      exact hi.in_bucket b k hb1 hk
  · intro i j hil hjl he
    have hi1 : i < t.num_ + 1 := hil
    have hj1 : j < t.num_ + 1 := hjl
    have he2 : (node_at (t.nds_.set t.num_ { sym_ := s, next_ := vidx, price_acc_ := key }) i).sym_
        = (node_at (t.nds_.set t.num_ { sym_ := s, next_ := vidx, price_acc_ := key }) j).sym_ :=
      he
    have hclash : ∀ k, k < t.num_ → (node_at t.nds_ k).sym_ ≠ s := by
      intro k hk e
      have hon := hi.on_chain k hk
      rw [e] at hon
      exact habs k hon e
    by_cases hin : i = t.num_
    · by_cases hjn : j = t.num_
      · rw [hin, hjn]
      · rw [hin, hnew, hold j hjn] at he2
        exact (hclash j (by omega) he2.symm).elim
    · by_cases hjn : j = t.num_
      · rw [hjn, hnew, hold i hin] at he2
        exact (hclash i (by omega) he2).elim
      · rw [hold i hin, hold j hjn] at he2
        exact hi.distinct i j (by omega) (by omega) he2

theorem replicate_node_at (n k : Nat) : node_at (List.replicate n zero_node) k = zero_node := by
  unfold node_at
  by_cases h : k < n
  · simp [List.getD_eq_getElem?_getD, List.getElem?_replicate, h]
  · simp [List.getD_eq_getElem?_getD, List.getElem?_replicate, h]

/-- Every reachable mapping table satisfies the chain invariant, and its nodes from `num_`
on are all zero. -/
theorem reachable_chain_inv (K : oracle_h) (hN : K.PC_MAP_NODE_SIZE < 2 ^ 32)
    (t : pc_map_table_t) (hr : reachable K t) :
    chain_inv K t ∧ ∀ k, t.num_ ≤ k → node_at t.nds_ k = zero_node := by
  induction hr with
  | init prm ka0 ka1 t h =>
    rw [init_mapping_eq] at h
    split at h
    · cases h
      exact ⟨chain_inv_init K, fun k _ => replicate_node_at _ k⟩
    · exact (error_ne_success h).elim
  | step prm ka0 ka1 ka2 code m p _ h ih =>
    obtain ⟨ih1, ih2⟩ := ih
    rcases add_symbol_cases h with e | ⟨vidx, v, nptr, htab, hwalk, hnode, e⟩ |
      ⟨vidx, htab, hwalk, hroom, _, _, e⟩
    · rw [e]
      exact ⟨ih1, ih2⟩
    · rw [e]
      refine ⟨chain_inv_found ih1 hnode ka2.key, ?_⟩
      intro k hk
      obtain ⟨hidx, hhead⟩ := tab_get_some htab
      have hvn : vidx ≤ ka1.data.num_ := by
        rw [← hhead]
        exact ih1.heads _ hidx
      have hnl := ih1.nds_len
      have hnum := ih1.num_le
      obtain ⟨r, hr1, hr2, _⟩ := add_symbol_walk_spec prm.data.sym_ ka1.data.nds_
        ka1.data.num_ (by omega) ih1.links (ka1.data.nds_.length + 1) vidx (by omega) hvn
      rw [hwalk] at hr1
      have hv := (hr2 v (Option.some.inj hr1).symm).1
      have hk1 : ka1.data.num_ ≤ k := hk
      show node_at (ka1.data.nds_.set v _) k = zero_node
      rw [node_at_set _ _ (by omega), if_neg (by omega)]
      exact ih2 k hk1
    · have hh : (ka1.data.num_ + 1) % 2 ^ 32 = ka1.data.num_ + 1 :=
        Nat.mod_eq_of_lt (by omega)
      rw [hh, Nat.add_sub_cancel] at e
      rw [e]
      refine ⟨chain_inv_fresh ih1 prm.data.sym_ ka2.key htab hwalk hroom, ?_⟩
      intro k hk
      have hk1 : ka1.data.num_ + 1 ≤ k := hk
      have hnl := ih1.nds_len
      show node_at (ka1.data.nds_.set ka1.data.num_ _) k = zero_node
      rw [node_at_set _ _ (by omega), if_neg (by omega)]
      exact ih2 k (by omega)

theorem chain_of_bucket_lt {t : pc_map_table_t} {b k : Nat} (hk : k ∈ chain_of t b) :
    b < t.tab_.length := by
  by_contra hc
  have h0 : t.tab_.getD b 0 = 0 := by
    simp [List.getD, List.getElem?_eq_none (show t.tab_.length ≤ b by omega)]
  unfold chain_of at hk
  rw [h0] at hk
  simp [bucket_chain] at hk

/-- C21: every mapping table reachable from a successful `init_mapping` by `add_symbol`
calls has bucket heads and node links at most `num_`, every link below the node's own
1-based index, every node in use on the chain of exactly the bucket of its symbol (low word
mod `PC_MAP_TABLE_SIZE`), and pairwise distinct symbols; so the bucket walk of `add_symbol`
ends within `num_` steps, reads only `nds_[0..num_)`, and `add_symbol` returns. -/
theorem C21_bucket_chains_well_formed (K : oracle_h) (hT32 : K.PC_MAP_TABLE_SIZE ≤ 2 ^ 32)
    (hN : K.PC_MAP_NODE_SIZE < 2 ^ 32) (t : pc_map_table_t) (hr : reachable K t) :
    t.num_ ≤ K.PC_MAP_NODE_SIZE ∧ t.nds_.length = K.PC_MAP_NODE_SIZE ∧
    t.tab_.length = K.PC_MAP_TABLE_SIZE ∧
    (∀ b, b < K.PC_MAP_TABLE_SIZE → t.tab_.getD b 0 ≤ t.num_) ∧
    (∀ k, (node_at t.nds_ k).next_ ≤ t.num_) ∧
    (∀ k, k < t.num_ → (node_at t.nds_ k).next_ < k + 1) ∧
    (∀ k, k < t.num_ →
      (node_at t.nds_ k).sym_.k0 % K.PC_MAP_TABLE_SIZE < K.PC_MAP_TABLE_SIZE ∧
      k ∈ chain_of t ((node_at t.nds_ k).sym_.k0 % K.PC_MAP_TABLE_SIZE) ∧
      ∀ b, b < K.PC_MAP_TABLE_SIZE → k ∈ chain_of t b →
        b = (node_at t.nds_ k).sym_.k0 % K.PC_MAP_TABLE_SIZE) ∧
    (∀ i j, i < t.num_ → j < t.num_ → i ≠ j →
      (node_at t.nds_ i).sym_ ≠ (node_at t.nds_ j).sym_) ∧
    (∀ (s : pc_symbol_t) (b : Nat), b < K.PC_MAP_TABLE_SIZE →
      ∃ r, add_symbol_walk s (t.nds_.take t.num_) t.num_ (t.tab_.getD b 0) = some r ∧
        add_symbol_walk s t.nds_ (t.nds_.length + 1) (t.tab_.getD b 0) = some r ∧
        ∀ v, r = some v → v < t.num_) ∧
    (∀ (prm : SolParameters cmd_add_symbol_t) (ka0 : SolAccountInfo Unit)
      (ka1 : SolAccountInfo pc_map_table_t) (ka2 : SolAccountInfo pc_price_t),
      ka1.data = t → 0 < K.PC_MAP_TABLE_SIZE → ∃ r, add_symbol K prm ka0 ka1 ka2 = some r) := by
  obtain ⟨hi, hzero⟩ := reachable_chain_inv K hN t hr
  have hbucket : ∀ k, k < t.num_ →
      bucket_of K (node_at t.nds_ k).sym_ = (node_at t.nds_ k).sym_.k0 % K.PC_MAP_TABLE_SIZE ∧
      (node_at t.nds_ k).sym_.k0 % K.PC_MAP_TABLE_SIZE < K.PC_MAP_TABLE_SIZE := by
    intro k hk
    have hb := chain_of_bucket_lt (hi.on_chain k hk)
    rw [hi.tab_len] at hb
    have hpos : 0 < K.PC_MAP_TABLE_SIZE := by omega
    have hlt := Nat.mod_lt (node_at t.nds_ k).sym_.k0 hpos
    exact ⟨Nat.mod_eq_of_lt (by omega), hlt⟩
  refine ⟨hi.num_le, hi.nds_len, hi.tab_len, ?_, ?_, ?_, ?_, ?_, ?_, ?_⟩
  · intro b hb
    exact hi.heads b (by rw [hi.tab_len]; exact hb)
  · intro k
    by_cases hk : k < t.num_
    · have := hi.links k hk
      omega
    · rw [hzero k (by omega)]
      exact Nat.zero_le _
  · intro k hk
    have := hi.links k hk
    omega
  · intro k hk
    obtain ⟨hb1, hb2⟩ := hbucket k hk
    refine ⟨hb2, ?_, ?_⟩
    · rw [← hb1]
      exact hi.on_chain k hk
    · intro b hb hmem
      rw [← hb1]
      exact (hi.in_bucket b k (by rw [hi.tab_len]; exact hb) hmem).symm
  · intro i j hil hjl hne he
    exact hne (hi.distinct i j hil hjl he)
  · intro s b hb
    have hhead := hi.heads b (by rw [hi.tab_len]; exact hb)
    have hnl : t.num_ ≤ t.nds_.length := by
      rw [hi.nds_len]
      exact hi.num_le
    obtain ⟨r, hr1, hr2, _⟩ := add_symbol_walk_spec s t.nds_ t.num_ hnl hi.links
      (t.nds_.length + 1) _ (by omega) hhead
    refine ⟨r, ?_, hr1, fun v hv => (hr2 v hv).1⟩
    rw [add_symbol_walk_take s t.nds_ t.num_ hnl hi.links t.num_ (t.nds_.length + 1) _ hhead
      hhead (by omega)]
    exact hr1
  · intro prm ka0 ka1 ka2 hk hT
    apply add_symbol_total K prm ka0 ka1 ka2 hT hN
    rw [hk]
    exact ⟨hi.tab_len, hi.nds_len, hi.num_le, hi.heads, hi.links⟩

theorem sample_two_symbols_reachable : reachable sample_h sample_two_symbols := by
  have h0 : init_mapping sample_h init_instr (funder key_D) (map_account (zero_table sample_h))
      = some (SUCCESS, sample_table [0, 0, 0] []) := by decide
  have h1 : add_symbol sample_h (add_sym_instr_of 2) (funder key_D)
      (map_account (sample_table [0, 0, 0] [])) (price_account (zero_price sample_h)) =
      some (SUCCESS, sample_table [0, 0, 1] [⟨⟨2, 0, 0, 0⟩, 0, ⟨20, 0, 0, 0⟩⟩],
        add_symbol_price_init sample_h (add_sym_instr_of 2).data) := by decide
  have h2 : add_symbol sample_h (add_sym_instr_of 5) (funder key_D)
      (map_account (sample_table [0, 0, 1] [⟨⟨2, 0, 0, 0⟩, 0, ⟨20, 0, 0, 0⟩⟩]))
      (price_account_2 (zero_price sample_h)) =
      some (SUCCESS, sample_two_symbols,
        add_symbol_price_init sample_h (add_sym_instr_of 5).data) := by decide
  exact reachable.step _ _ _ _ _ _ _
    (reachable.step _ _ _ _ _ _ _ (reachable.init _ _ _ _ h0) h1) h2

/-- C21 (witness): after `init_mapping` and `add_symbol` of two symbols of bucket 2, node 2
links to node 1, both nodes lie on the chain of bucket 2, and the walk for the first symbol
ends within two steps inside `nds_[0..2)`. -/
theorem C21_bucket_chains_well_formed_witness :
    (node_at sample_two_symbols.nds_ 1).next_ < 2 ∧
    1 ∈ chain_of sample_two_symbols 2 ∧ 0 ∈ chain_of sample_two_symbols 2 ∧
    ∃ r, add_symbol_walk ⟨2, 0, 0, 0⟩ (sample_two_symbols.nds_.take 2) 2
        (sample_two_symbols.tab_.getD 2 0) = some r ∧
      add_symbol_walk ⟨2, 0, 0, 0⟩ sample_two_symbols.nds_
        (sample_two_symbols.nds_.length + 1) (sample_two_symbols.tab_.getD 2 0) = some r := by
  obtain ⟨_, _, _, _, _, h5, h6, _, h8, _⟩ := C21_bucket_chains_well_formed sample_h (by decide)
    (by decide) sample_two_symbols sample_two_symbols_reachable
  obtain ⟨r, hr1, hr2, _⟩ := h8 ⟨2, 0, 0, 0⟩ 2 (by decide)
  exact ⟨h5 1 (by decide), (h6 1 (by decide)).2.1, (h6 0 (by decide)).2.1, r, hr1, hr2⟩

end Oracle
